import Mathlib

/-!
# A log-structured key-value store: embedding of `main.go`

The storage engine of `main.go` (collections backed by an append-only
`.jsonl` log, an in-memory index, buffered writes, compaction, prefix
listing) is embedded as pure functions with explicit state passing:

* Go strings, `[]byte` and `json.RawMessage` are byte sequences (`GoString`);
* Go maps are association lists with unique keys (`AList`); the order of the
  entries stands for the (unspecified) iteration order of the map;
* the file system is a finite map from paths to file contents (`Disk`),
  `*os.File` is a path with an offset (`File`), `*bufio.Writer` is its pending
  buffer and sticky error (`Writer`);
* what lies outside the repository is a parameter (`Env`): the functions of
  `encoding/json`, and whether the operating system opens a log;
* clock readings are arguments.
-/

namespace KV

/-! ## Strings and bytes -/

/-- A Go `string` or `[]byte`: a sequence of byte values. -/
abbrev GoString := List Nat

/-- The bytes of an ASCII literal. -/
def ascii (s : String) : GoString := s.data.map Char.toNat

/-- The table `asciiSpace` of package `bytes`: tab, newline, vertical tab,
form feed, carriage return, space. -/
def asciiSpace (b : Nat) : Bool :=
  b == 9 || b == 10 || b == 11 || b == 12 || b == 13 || b == 32

/-- The check `len(bytes.TrimSpace(s)) == 0` (and `strings.TrimSpace(s) == ""`):
the bytes are a sequence of UTF-8 encoded white space runes, as defined by
Unicode (U+0009..U+000D, U+0020, U+0085, U+00A0, U+1680, U+2000..U+200A,
U+2028, U+2029, U+202F, U+205F, U+3000). -/
def isBlank : GoString → Bool
  | [] => true
  | [b] => asciiSpace b
  | [b, c] => (asciiSpace b && asciiSpace c) || (b == 0xC2 && (c == 0x85 || c == 0xA0))
  | b :: c :: e :: r =>
    if asciiSpace b then isBlank (c :: e :: r)
    else if b == 0xC2 && (c == 0x85 || c == 0xA0) then isBlank (e :: r)
    else if b == 0xE1 && c == 0x9A && e == 0x80 then isBlank r
    else if b == 0xE2 && c == 0x80 &&
        ((0x80 ≤ e && e ≤ 0x8A) || e == 0xA8 || e == 0xA9 || e == 0xAF) then isBlank r
    else if b == 0xE2 && c == 0x81 && e == 0x9F then isBlank r
    else if b == 0xE3 && c == 0x80 && e == 0x80 then isBlank r
    else false

/-- The comparison `a <= b` of Go strings: bytewise lexicographic. -/
def strLE : GoString → GoString → Bool
  | [], _ => true
  | _ :: _, [] => false
  | a :: as, b :: bs => if a < b then true else if b < a then false else strLE as bs

/-- The result of `sort.Strings`: the strings in ascending order. -/
def sortStrings (l : List GoString) : List GoString :=
  l.insertionSort (fun a b => strLE a b = true)

/-- The test `strings.HasPrefix(k, prefix)`. -/
def hasPrefix (k pre : GoString) : Bool := pre.isPrefixOf k

/-! ## Records, entries and the JSON library -/

/-- Instants, in nanoseconds since the Unix epoch. -/
abbrev Time := Int

/-- The zero value of `time.Time`: January 1, year 1, 00:00:00 UTC. -/
def zeroTime : Time := -62135596800000000000

/-- The largest `time.Duration`. -/
def maxDuration : Int := 2 ^ 63 - 1

/-- The duration `time.Since(t)` read at instant `now`: the difference,
saturated to the range of `time.Duration`. -/
def since (now t : Time) : Int :=
  if now - t > maxDuration then maxDuration
  else if now - t < -(2 ^ 63) then -(2 ^ 63)
  else now - t

/-- The struct `record`: one line of a log. -/
structure record where
  Collection : GoString
  Key : GoString
  Value : GoString
  TS : Time
  Tombstone : Bool
  deriving DecidableEq

/-- The struct `entry`: the current value of a key. -/
structure entry where
  Value : GoString
  deriving DecidableEq

/-- The struct `listItem`; an empty `Collection` is omitted by the encoder. -/
structure listItem where
  Collection : GoString
  Key : GoString
  Value : GoString
  deriving DecidableEq

/-- What the operating system answers when `openCollection` opens the log at
a path: `os.OpenFile(fp, os.O_CREATE|os.O_RDWR, 0o644)` fails (a missing
directory such as `data/a` for the collection `a/b`, a name it refuses, no
permission), or it succeeds and `f.Seek` fails (the path is not a regular
file: a named pipe, say), or both succeed. -/
inductive OpenFault where
  | none
  | openFile
  | seek
  deriving DecidableEq

/-- What lies outside the repository: the functions of `encoding/json` that
the store calls, and the operating system when a log is opened.
`Marshal` is `json.Marshal(rec)` with the error dropped (`b, _ :=`), so a
failed call yields no bytes; `Unmarshal` is `json.Unmarshal(line, &r)` into a
zero record, `none` on error; `Valid` is `json.Unmarshal(value, &tmp) == nil`;
`Encode` is `enc.Encode(item)`: the bytes sent to the sink, `none` on error;
`OpenFile` tells, by path, how opening a log and seeking in it end. -/
structure Env where
  Marshal : record → GoString
  Unmarshal : GoString → Option record
  Valid : GoString → Bool
  Encode : listItem → Option GoString
  OpenFile : GoString → OpenFault

/-- A Go `map[string]V`. -/
abbrev GoMap (V : Type) := AList (fun _ : GoString => V)

/-- Equality of maps is decided on their entries. -/
instance GoMap.decEq {V : Type} [DecidableEq V] : DecidableEq (GoMap V) :=
  fun a b => decidable_of_iff (a.entries = b.entries) AList.ext_iff.symm

/-! ## Files and buffered writers -/

/-- The file system: the contents of the files that exist, by path. -/
abbrev Disk := AList (fun _ : GoString => GoString)

/-- The contents of the file at a path; a missing file reads as empty. -/
def content (d : Disk) (p : GoString) : GoString := (d.lookup p).getD []

/-- An open file `*os.File`: its path, its offset and whether `Close` was
called. A handle follows its path: the one handle that outlives a rename of
its file (in `compact`) is closed before any further use. -/
structure File where
  path : GoString
  pos : Nat
  closed : Bool
  deriving DecidableEq

/-- The contents of a file after writing `p` at offset `pos`: bytes at
`pos ..` are overwritten, the file grows when the write passes its end, and a
gap between the end and `pos` reads as zero bytes. -/
def writeAt (c : GoString) (pos : Nat) (p : GoString) : GoString :=
  c.take pos ++ List.replicate (pos - c.length) 0 ++ p ++ c.drop (pos + p.length)

/-- The call `f.Write(p)`: fails on a closed file (writing nothing),
otherwise writes at the offset and advances it. The flag is the error. -/
def File.Write (d : Disk) (f : File) (p : GoString) : Disk × File × Bool :=
  if f.closed then (d, f, true)
  else
    (d.insert f.path (writeAt (content d f.path) f.pos p),
     { f with pos := f.pos + p.length }, false)

/-- The size of every `bufio.Writer` of the program: `256*1024`. -/
def bufSize : Nat := 256 * 1024

/-- A `*bufio.Writer` over the collection's file: the pending bytes
`b.buf[0:b.n]` and whether the sticky error `b.err` is set. -/
structure Writer where
  buf : GoString
  err : Bool
  deriving DecidableEq

/-- The writer `bufio.NewWriterSize(f, 256*1024)`. -/
def Writer.new : Writer := { buf := [], err := false }

/-- The method `Flush`: hands the pending bytes to the file; on a failed
write the bytes not written stay pending and the error sticks. -/
def Writer.Flush (d : Disk) (f : File) (w : Writer) : Disk × File × Writer × Bool :=
  if w.err then (d, f, w, true)
  else if w.buf = [] then (d, f, w, false)
  else
    match File.Write d f w.buf with
    | (d1, f1, true) => (d1, f1, { w with err := true }, true)
    | (d1, f1, false) => (d1, f1, { w with buf := [] }, false)

/-- The methods `Write` and `WriteString`: while the data exceeds the room
left in the buffer, either the buffer is empty and the data goes to the file
directly, or the buffer is filled and flushed; what remains is copied into
the buffer. The loop of the library runs at most twice and is unrolled. -/
def Writer.Write (d : Disk) (f : File) (w : Writer) (p : GoString) :
    Disk × File × Writer × Bool :=
  if w.err then (d, f, w, true)
  else if p.length ≤ bufSize - w.buf.length then
    (d, f, { w with buf := w.buf ++ p }, false)
  else if w.buf = [] then
    match File.Write d f p with
    | (d1, f1, e) => (d1, f1, { w with err := e }, e)
  else
    let n := bufSize - w.buf.length
    match Writer.Flush d f { w with buf := w.buf ++ p.take n } with
    | (d1, f1, w1, true) => (d1, f1, w1, true)
    | (d1, f1, w1, false) =>
      if (p.drop n).length ≤ bufSize then
        (d1, f1, { w1 with buf := p.drop n }, false)
      else
        match File.Write d1 f1 (p.drop n) with
        | (d2, f2, e) => (d2, f2, { w1 with err := e }, e)

/-! ## Scanning a log -/

/-- The raw lines of a file as `bufio.ScanLines` cuts them: each newline
ends a line, and a last line without a newline counts when it is not empty. -/
def rawLines : GoString → List GoString
  | [] => []
  | b :: rest =>
    if b = 10 then [] :: rawLines rest
    else
      match rawLines rest with
      | [] => [[b]]
      | l :: ls => (b :: l) :: ls

/-- The helper `dropCR` of `bufio.ScanLines`: drops one trailing carriage
return. -/
def dropCR (l : GoString) : GoString :=
  if l.getLast? = some 13 then l.dropLast else l

/-- The maximum token size set by `sc.Buffer(buf, 10*1024*1024)`. -/
def maxTokenSize : Nat := 10 * 1024 * 1024

/-- The scanner stops with `bufio.ErrTooLong` when a line does not fit its
buffer: some raw line has `maxTokenSize` bytes or more. -/
def tooLong (c : GoString) : Bool :=
  (rawLines c).any (fun l => decide (maxTokenSize ≤ l.length))

/-! ## Collections and the store -/

/-- The struct `collectionState` (its lock aside): the log handle, the write
buffer, the index, the count of log lines and the time of the last flush. -/
structure collectionState where
  file : File
  writer : Writer
  index : GoMap entry
  lines : Nat
  lastFlush : Time
  deriving DecidableEq

/-- The struct `store` (its lock and the unused channel aside): the data
directory and the registry of collections. -/
structure store where
  dir : GoString
  cols : GoMap collectionState
  deriving DecidableEq

/-- Errors returned by the store. -/
inductive Error where
  | openFile
  | seek
  | scan
  | invalidValue
  | write
  deriving DecidableEq

/-- The path `filepath.Join(dir, name)` for a directory and a file name
that need no cleaning: the two parts joined by a slash. -/
def filepathJoin (dir name : GoString) : GoString := dir ++ [47] ++ name

/-- The path of the log of a collection: `<dir>/<name>.jsonl`. -/
def logPath (dir name : GoString) : GoString := filepathJoin dir (name ++ ascii ".jsonl")

/-- The path of the temporary file of a compaction: `<dir>/<name>.tmp`. -/
def tmpPath (dir name : GoString) : GoString := filepathJoin dir (name ++ ascii ".tmp")

/-- The state of the scan loop of `openCollection`: the index and the line
count of the collection under construction, and the number of
`skip corrupt line` messages logged. -/
structure ScanState where
  index : GoMap entry
  lines : Nat
  skipped : Nat
  deriving DecidableEq

/-- One turn of the scan loop of `openCollection` on the token `line`:
a blank line is passed over, a line that does not decode is logged and
skipped, a decoded record sets or deletes its key and counts as a line. -/
def scanStep (env : Env) (s : ScanState) (line : GoString) : ScanState :=
  if isBlank line then s
  else
    match env.Unmarshal line with
    | none => { s with skipped := s.skipped + 1 }
    | some r =>
      if !r.Tombstone then
        { s with index := s.index.insert r.Key { Value := r.Value }, lines := s.lines + 1 }
      else
        { s with index := s.index.erase r.Key, lines := s.lines + 1 }

/-- The scan loop of `openCollection` over the tokens of the scanner. -/
def scanLoop (env : Env) (s : ScanState) (tokens : List GoString) : ScanState :=
  tokens.foldl (scanStep env) s

/-- The tokens the scanner yields for a file: its raw lines without the
trailing carriage return. -/
def tokens (c : GoString) : List GoString := (rawLines c).map dropCR

/-- The method `openCollection`: a registered collection is returned as it
is; otherwise the log is opened (created empty when missing), replayed from
the start into a new state with an empty index, the handle is moved to the
end and the state is registered. The call fails, leaving the registry as it
was, when `os.OpenFile` fails (nothing is created), when `f.Seek` fails, and
when a line is too long for the scanner. A seek fails on a file that is not
a regular file, which exists already and which neither seek takes: the one
fault `seek` stands for the two calls, and nothing is created under it. -/
def openCollection (env : Env) (s : store) (d : Disk) (name : GoString) :
    Except Error (store × Disk × collectionState) :=
  match s.cols.lookup name with
  | some st => .ok (s, d, st)
  | none =>
    let fp := logPath s.dir name
    if env.OpenFile fp = OpenFault.openFile then .error Error.openFile
    else if env.OpenFile fp = OpenFault.seek then .error Error.seek
    else
      let d1 : Disk := if fp ∈ d then d else d.insert fp []
      let c := content d1 fp
      let sc := scanLoop env { index := ∅, lines := 0, skipped := 0 } (tokens c)
      if tooLong c then .error Error.scan
      else
        let st : collectionState :=
          { file := { path := fp, pos := c.length, closed := false }, writer := Writer.new,
            index := sc.index, lines := sc.lines, lastFlush := zeroTime }
        .ok ({ s with cols := s.cols.insert name st }, d1, st)

/-- The collection name an operation works on: `default` when the given
name is blank. -/
def defaultName (collection : GoString) : GoString :=
  if isBlank collection then ascii "default" else collection

/-- The three clock readings of one `put`: the timestamp of the record, the
reading of `time.Since` and the reading stored as the time of the flush. -/
structure PutClock where
  ts : Time
  check : Time
  flushed : Time
  deriving DecidableEq

/-- The outcome of `put`: the store and disk afterwards, the error returned
and whether a compaction was launched (`go s.compact(collection)`). -/
structure PutResult where
  s : store
  d : Disk
  err : Option Error
  compactLaunched : Bool
  deriving DecidableEq

/-- The part of `put` that runs under the lock of the collection, for the
marshalled record `b`: the record and a newline go to the write buffer (a
failed write ends the call), the index and the line count are updated, the
buffer is flushed when it holds more than 256 KiB or the last flush is more
than two seconds old, and a compaction is launched when the log has more
than 1000 lines and more than twice as many lines as keys. Returns the disk
and collection afterwards, the error and whether a compaction was launched. -/
def putLocked (clk : PutClock) (b key value : GoString) (st : collectionState) (d : Disk) :
    Disk × collectionState × Option Error × Bool :=
  match Writer.Write d st.file st.writer b with
  | (d2, f2, w2, true) => (d2, { st with file := f2, writer := w2 }, some Error.write, false)
  | (d2, f2, w2, false) =>
    match Writer.Write d2 f2 w2 [10] with
    | (d3, f3, w3, true) => (d3, { st with file := f3, writer := w3 }, some Error.write, false)
    | (d3, f3, w3, false) =>
      let index := st.index.insert key { Value := value }
      let lines := st.lines + 1
      let launch := decide (lines > 1000 ∧ lines > 2 * index.keys.length)
      if w3.buf.length > 256 * 1024 ∨ since clk.check st.lastFlush > 2 * 1000000000 then
        match Writer.Flush d3 f3 w3 with
        | (d4, f4, w4, _) =>
          (d4, { file := f4, writer := w4, index := index, lines := lines,
                 lastFlush := clk.flushed }, none, launch)
      else
        (d3, { file := f3, writer := w3, index := index, lines := lines,
               lastFlush := st.lastFlush }, none, launch)

/-- The method `put`: the collection is opened first, then the value is
checked, then the record is marshalled and appended under the lock. -/
def put (env : Env) (clk : PutClock) (s : store) (d : Disk)
    (collection key value : GoString) : PutResult :=
  let collection := defaultName collection
  match openCollection env s d collection with
  | .error e => { s := s, d := d, err := some e, compactLaunched := false }
  | .ok (s1, d1, st) =>
    if !env.Valid value then
      { s := s1, d := d1, err := some Error.invalidValue, compactLaunched := false }
    else
      let b := env.Marshal
        { Collection := collection, Key := key, Value := value, TS := clk.ts,
          Tombstone := false }
      match putLocked clk b key value st d1 with
      | (d2, st2, err, launched) =>
        { s := { s1 with cols := s1.cols.insert collection st2 }, d := d2, err := err,
          compactLaunched := launched }

/-- The outcome of `get`: the store and disk afterwards (the call may open
the collection), the value and the found flag. -/
structure GetResult where
  s : store
  d : Disk
  value : GoString
  found : Bool
  deriving DecidableEq

/-- The method `get`. -/
def get (env : Env) (s : store) (d : Disk) (collection key : GoString) : GetResult :=
  let collection := defaultName collection
  match openCollection env s d collection with
  | .error _ => { s := s, d := d, value := [], found := false }
  | .ok (s1, d1, st) =>
    match st.index.lookup key with
    | some e => { s := s1, d := d1, value := e.Value, found := true }
    | none => { s := s1, d := d1, value := [], found := false }

/-! ## Listing -/

/-- The loop variables of `list` and what reached the sink: the bytes
written to `w`, the items encoded so far, `wrote`, `first` and `skipped`. -/
structure ListState where
  out : GoString
  items : List listItem
  wrote : Nat
  first : Bool
  skipped : Nat
  deriving DecidableEq

/-- The item `list` builds for the key `k` of the collection `c`: the key,
the value `st.index[k].Value`, and the collection name when it is asked for. -/
def mkItem (includeCollection : Bool) (c : GoString) (index : GoMap entry) (k : GoString) :
    listItem :=
  { Collection := if includeCollection then c else [], Key := k,
    Value := ((index.lookup k).map entry.Value).getD [] }

/-- The inner loop of `list` over the sorted keys of one collection. A key is
skipped while `skipped < offset`; the loop breaks when `wrote >= limit`;
otherwise the item is encoded after a separating comma. The flag tells that
`enc.Encode` failed, which ends `list` at once. -/
def listKeys (env : Env) (limit offset : Int) (includeCollection : Bool) (c : GoString)
    (index : GoMap entry) : List GoString → ListState → ListState × Bool
  | [], ls => (ls, false)
  | k :: ks, ls =>
    if (ls.skipped : Int) < offset then
      listKeys env limit offset includeCollection c index ks { ls with skipped := ls.skipped + 1 }
    else if (ls.wrote : Int) ≥ limit then (ls, false)
    else
      let item := mkItem includeCollection c index k
      let out1 := if !ls.first then ls.out ++ ascii "," else ls.out
      match env.Encode item with
      | none => ({ ls with out := out1, first := false }, true)
      | some bs =>
        listKeys env limit offset includeCollection c index ks
          { out := out1 ++ bs, items := ls.items ++ [item], wrote := ls.wrote + 1,
            first := false, skipped := ls.skipped }

/-- The keys of an index that `list` walks for a prefix: those starting with
the prefix (all of them when it is empty), sorted. -/
def selectKeys (pre : GoString) (index : GoMap entry) : List GoString :=
  sortStrings (index.keys.filter (fun k => decide (pre = []) || hasPrefix k pre))

/-- The outer loop of `list` over the collection names: a collection that
fails to open is passed over, and the loop breaks when `wrote >= limit`. -/
def listCols (env : Env) (limit offset : Int) (includeCollection : Bool) (pre : GoString) :
    List GoString → store → Disk → ListState → store × Disk × ListState × Bool
  | [], s, d, ls => (s, d, ls, false)
  | c :: cs, s, d, ls =>
    match openCollection env s d c with
    | .error _ => listCols env limit offset includeCollection pre cs s d ls
    | .ok (s1, d1, st) =>
      match listKeys env limit offset includeCollection c st.index (selectKeys pre st.index) ls with
      | (ls1, true) => (s1, d1, ls1, true)
      | (ls1, false) =>
        if (ls1.wrote : Int) ≥ limit then (s1, d1, ls1, false)
        else listCols env limit offset includeCollection pre cs s1 d1 ls1

/-- The outcome of `list`: the store and disk afterwards (the call may open
the named collection), the bytes written to the sink, the items encoded and
whether an error was returned. -/
structure ListResult where
  s : store
  d : Disk
  out : GoString
  items : List listItem
  err : Bool
  deriving DecidableEq

/-- The limit `list` works with: 100 for a limit that is not positive, and
at most 10000. -/
def effLimit (limit : Int) : Int :=
  let limit := if limit ≤ 0 then 100 else limit
  if limit > 10000 then 10000 else limit

/-- The collections `list` walks: the named one, or every registered
collection in sorted order when no name is given. -/
def listNames (s : store) (collection : GoString) : List GoString :=
  if collection ≠ [] then [collection] else sortStrings s.cols.keys

/-- The method `list`, writing to an empty sink. -/
def list (env : Env) (s : store) (d : Disk) (collection pre : GoString) (limit offset : Int)
    (includeCollection : Bool) : ListResult :=
  let limit := effLimit limit
  let cols := listNames s collection
  let ls0 : ListState := { out := ascii "[", items := [], wrote := 0, first := true, skipped := 0 }
  match listCols env limit offset includeCollection pre cols s d ls0 with
  | (s1, d1, ls, true) => { s := s1, d := d1, out := ls.out, items := ls.items, err := true }
  | (s1, d1, ls, false) =>
    { s := s1, d := d1, out := ls.out ++ ascii "]", items := ls.items, err := false }

/-! ## Compaction -/

/-- The step of `compact` at which the operating system fails, if any:
creating the temporary file, writing it (`writeTmp n`: the file takes the
first `n` bytes only), renaming it over the log, reopening the log. -/
inductive CompactFault where
  | none
  | openTmp
  | writeTmp (n : Nat)
  | rename
  | reopen
  deriving DecidableEq

/-- The records `compact` writes: one per entry of the index, in the
iteration order of the map, stamped `now`, never a tombstone. -/
def compactRecords (collection : GoString) (now : Time) (index : GoMap entry) : List record :=
  index.entries.map (fun p =>
    { Collection := collection, Key := p.1, Value := p.2.Value, TS := now, Tombstone := false })

/-- The bytes of a sequence of records as lines of a log: each record
marshalled and followed by a newline. -/
def encodeLines (env : Env) (rs : List record) : GoString :=
  (rs.map (fun r => env.Marshal r ++ [10])).flatten

/-- The method `compact`. The temporary file is written through a buffered
writer of its own whose errors are not looked at: the file ends up with all
the bytes, or with the first `n` of them under the fault `writeTmp n`, and the
steps that follow run all the same. `now` stamps the records, `flushed` is
the later reading stored as the time of the last flush. -/
def compact (env : Env) (flt : CompactFault) (now flushed : Time) (s : store) (d : Disk)
    (collection : GoString) : store × Disk :=
  match openCollection env s d collection with
  | .error _ => (s, d)
  | .ok (s1, d1, st) =>
    let tmp := tmpPath s.dir collection
    if flt = CompactFault.openTmp then (s1, d1)
    else
      let data := encodeLines env (compactRecords collection now st.index)
      let written := match flt with
        | CompactFault.writeTmp n => data.take n
        | _ => data
      let d2 : Disk := d1.insert tmp written
      let oldPath := logPath s.dir collection
      if flt = CompactFault.rename then (s1, d2)
      else
        let d3 : Disk := (d2.erase tmp).insert oldPath written
        let closedFile : File := { st.file with closed := true }
        if flt = CompactFault.reopen then
          ({ s1 with cols := s1.cols.insert collection { st with file := closedFile } }, d3)
        else
          let newf : File := { path := oldPath, pos := 0, closed := false }
          let st5 : collectionState :=
            { file := newf, writer := Writer.new, index := st.index,
              lines := st.index.keys.length, lastFlush := flushed }
          ({ s1 with cols := s1.cols.insert collection st5 }, d3)

/-! ## A sample JSON library -/

/-- Splits a byte sequence at the first byte `sep`. -/
def splitAt1 (sep : Nat) : GoString → Option (GoString × GoString)
  | [] => none
  | b :: r =>
    if b = sep then some ([], r)
    else (splitAt1 sep r).map (fun p => (b :: p.1, p.2))

/-- A small line format standing in for the JSON library at concrete inputs:
a record is written as `+key=value` (`-key=value` for a tombstone), an item
as `key=value` and a newline, and every value without a newline is valid.
Every log opens. -/
def sampleEnv : Env where
  Marshal r := (if r.Tombstone then 45 else 43) :: (r.Key ++ 61 :: r.Value)
  Unmarshal line :=
    match line with
    | [] => none
    | t :: rest =>
      if t = 43 ∨ t = 45 then
        (splitAt1 61 rest).map (fun p =>
          { Collection := [], Key := p.1, Value := p.2, TS := 0, Tombstone := decide (t = 45) })
      else none
  Valid v := !v.contains 10
  Encode it := some (it.Collection ++ it.Key ++ 61 :: it.Value ++ [10])
  OpenFile _ := OpenFault.none

/-! ## Definitions used to state the properties -/

/-- The records the scan loop applies for a sequence of tokens: those of the
lines that are not blank and decode, in order. -/
def decoded (env : Env) (toks : List GoString) : List record :=
  toks.filterMap (fun l => if isBlank l then none else env.Unmarshal l)

/-- Last record wins: the entry of `k` after a sequence of records is the
value of the last record for `k` when that record is not a tombstone, and
no entry when it is a tombstone or there is no record for `k`. -/
def lastWins (rs : List record) (k : GoString) : Option entry :=
  match (rs.filter (fun r => decide (r.Key = k))).getLast? with
  | some r => if r.Tombstone then none else some { Value := r.Value }
  | none => none

/-- A log handle and its writer in working order on the data `data`: the
handle is open and at the end of its file, the writer has no error, and the
file followed by the pending bytes is `data`. -/
def Healthy (d : Disk) (f : File) (w : Writer) (data : GoString) : Prop :=
  f.closed = false ∧ w.err = false ∧ f.pos = (content d f.path).length ∧
    content d f.path ++ w.buf = data

/-- One `put` of a sequence: the key, the value and the clock readings. -/
structure PutOp where
  key : GoString
  value : GoString
  clk : PutClock
  deriving DecidableEq

/-- The record `put` marshals for an operation on the collection `c`. -/
def putRecord (c : GoString) (op : PutOp) : record :=
  { Collection := c, Key := op.key, Value := op.value, TS := op.clk.ts, Tombstone := false }

/-- A sequence of `put` calls on one collection, each of which succeeds:
the store and disk after the last one, `none` when some call fails. -/
def puts (env : Env) (c : GoString) : List PutOp → store → Disk → Option (store × Disk)
  | [], s, d => some (s, d)
  | op :: ops, s, d =>
    let r := put env op.clk s d c op.key op.value
    if r.err = none then puts env c ops r.s r.d else none

/-- The index held in memory for a collection; empty when the collection is
not open. -/
def memIndex (s : store) (name : GoString) : GoMap entry :=
  match s.cols.lookup name with
  | some st => st.index
  | none => ∅

/-- Closing and reopening a collection: the pending bytes are flushed and
the log is opened by a store that starts with an empty registry. -/
def reopen (env : Env) (s : store) (d : Disk) (name : GoString) : Except Error collectionState :=
  let d1 : Disk :=
    match s.cols.lookup name with
    | some st => (Writer.Flush d st.file st.writer).1
    | none => d
  match openCollection env { dir := s.dir, cols := ∅ } d1 name with
  | .ok (_, _, st) => .ok st
  | .error e => .error e

/-- What replay needs of the JSON library for a record it wrote: the line
has no newline in it, its token is not blank, and the token decodes to a
record with the same key, value and tombstone flag. -/
def roundTrips (env : Env) (r : record) : Bool :=
  !(env.Marshal r).contains 10 && !isBlank (dropCR (env.Marshal r)) &&
    match env.Unmarshal (dropCR (env.Marshal r)) with
    | some r2 => r2.Key == r.Key && r2.Value == r.Value && r2.Tombstone == r.Tombstone
    | none => false

/-- The line of a record fits the buffer of the scanner. -/
def fitsScanner (env : Env) (r : record) : Bool :=
  decide ((env.Marshal r).length < maxTokenSize)

/-- The index built by applying records in order to an index. -/
def applyRecords (rs : List record) (m : GoMap entry) : GoMap entry :=
  rs.foldl (fun m r => if r.Tombstone then m.erase r.Key else m.insert r.Key { Value := r.Value }) m

/-- The collection `name` is open and in working order, the lines of the
records `rs` are what its log and write buffer hold, and its index is what
applying `rs` to an empty index gives. -/
def LogIs (env : Env) (s : store) (d : Disk) (name : GoString) (rs : List record) : Prop :=
  ∃ st, s.cols.lookup name = some st ∧ st.file.path = logPath s.dir name ∧
    Healthy d st.file st.writer (encodeLines env rs) ∧ st.index = applyRecords rs ∅

/-! ## Sample states -/

/-- A store that has opened nothing yet, over the directory `data`. -/
def sampleStore : store := { dir := ascii "data", cols := ∅ }

/-- Two puts of the key `a`, three seconds apart. -/
def sampleOps : List PutOp :=
  [{ key := ascii "a", value := ascii "1", clk := ⟨1000000000, 1000000000, 1000000000⟩ },
   { key := ascii "a", value := ascii "2", clk := ⟨4000000000, 4000000000, 4000000000⟩ }]

/-- A JSON string of 10 MiB: as many bytes `x` as the scanner takes at most,
between double quotes. -/
def longValue : GoString := 34 :: (List.replicate maxTokenSize 120 ++ [34])

/-- A put of the 10 MiB value under the key `k`. -/
def longOp : PutOp := { key := ascii "k", value := longValue, clk := ⟨1, 1, 1⟩ }

/-- The store and disk after the sample puts on a new store. -/
def sampleAfter : store × Disk :=
  (puts sampleEnv [] sampleOps sampleStore ∅).getD (sampleStore, ∅)

/-- The store and disk after one put of `a = 1` on a new store (the put
flushes, the collection never having been flushed). -/
def onePut : PutResult :=
  put sampleEnv ⟨1000000000, 1000000000, 1000000000⟩ sampleStore ∅ [] (ascii "a") (ascii "1")

/-- The store and disk after a compaction without fault following `onePut`. -/
def onePutCompacted : store × Disk :=
  compact sampleEnv CompactFault.none 2000000000 2000000000 onePut.s onePut.d (ascii "default")

/-- The put of `b = 2` three seconds after that compaction. -/
def putAfterCompact : PutResult :=
  put sampleEnv ⟨5000000000, 5000000000, 5000000000⟩ onePutCompacted.1 onePutCompacted.2 []
    (ascii "b") (ascii "2")

/-- The store and disk after the puts `k = 0` and `a = 111111111111` on a new
store and a compaction without fault. -/
def twoKeysCompacted : store × Disk :=
  let r1 := put sampleEnv ⟨1000000000, 1000000000, 1000000000⟩ sampleStore ∅ []
    (ascii "k") (ascii "0")
  let r2 := put sampleEnv ⟨1000000001, 1000000001, 1000000001⟩ r1.s r1.d []
    (ascii "a") (ascii "111111111111")
  compact sampleEnv CompactFault.none 2000000000 2000000000 r2.s r2.d (ascii "default")

/-- The put `k = 1` after `twoKeysCompacted`. -/
def overwrite1 : PutResult :=
  put sampleEnv ⟨5000000000, 5000000000, 5000000000⟩ twoKeysCompacted.1 twoKeysCompacted.2 []
    (ascii "k") (ascii "1")

/-- The collection state registered by `onePut`. -/
def onePutState : collectionState :=
  { file := { path := logPath (ascii "data") (ascii "default"), pos := 5, closed := false },
    writer := { buf := [], err := false },
    index := (∅ : GoMap entry).insert (ascii "a") { Value := ascii "1" },
    lines := 1, lastFlush := 1000000000 }

/-! ## The reference definition of `list` -/

/-- The index of a collection as `list` sees it: the index of the collection
once opened, and no entry when it fails to open. -/
def indexOf (env : Env) (s : store) (d : Disk) (c : GoString) : GoMap entry :=
  match openCollection env s d c with
  | .ok (_, _, st) => st.index
  | .error _ => ∅

/-- The items of one collection for a prefix: its keys that start with the
prefix (all keys when the prefix is empty) in ascending order, each with its
value in the index. -/
def collectionItems (includeCollection : Bool) (pre c : GoString) (index : GoMap entry) :
    List listItem :=
  (selectKeys pre index).map (mkItem includeCollection c index)

/-- The sequence `L` of all the items of the selected collections: the named
collection, or all collections in sorted name order when no name is given. -/
def allItems (env : Env) (s : store) (d : Disk) (collection pre : GoString)
    (includeCollection : Bool) : List listItem :=
  (listNames s collection).flatMap
    (fun c => collectionItems includeCollection pre c (indexOf env s d c))

/-- The reference definition of `list`: `take(limit', drop(offset', L))`, where
`limit'` is the effective limit and `offset'` is the offset floored at zero,
both counted across the collections. -/
def listSpec (env : Env) (s : store) (d : Disk) (collection pre : GoString) (limit offset : Int)
    (includeCollection : Bool) : List listItem :=
  ((allItems env s d collection pre includeCollection).drop offset.toNat).take
    (effLimit limit).toNat

/-- A store with the keys `b` and `a` in the collection `default` and the key
`c` in the collection `x`. -/
def listSample : PutResult :=
  let r1 := put sampleEnv ⟨1000000000, 1000000000, 1000000000⟩ sampleStore ∅ []
    (ascii "b") (ascii "2")
  let r2 := put sampleEnv ⟨2000000000, 2000000000, 2000000000⟩ r1.s r1.d []
    (ascii "a") (ascii "1")
  put sampleEnv ⟨3000000000, 3000000000, 3000000000⟩ r2.s r2.d (ascii "x")
    (ascii "c") (ascii "3")

/-- The key number `i` of the large index: `i` times the byte `a`. -/
def bigKey (i : Nat) : GoString := List.replicate i 97

/-- An index with 10001 keys. -/
def bigIndex : GoMap entry where
  entries := (List.range 10001).map (fun i => ⟨bigKey i, { Value := ascii "0" }⟩)
  nodupKeys := by
    unfold List.NodupKeys List.keys
    rw [List.map_map]
    refine (List.nodup_range 10001).map ?_
    intro i j h
    have := congrArg List.length h
    simpa [bigKey] using this

/-- A collection that holds the large index. -/
def bigState : collectionState :=
  { file := { path := logPath (ascii "data") (ascii "default"), pos := 0, closed := false },
    writer := Writer.new, index := bigIndex, lines := 10001, lastFlush := 0 }

/-- A store whose collection `default` holds the large index. -/
def bigStore : store :=
  { dir := ascii "data",
    cols := (∅ : GoMap collectionState).insert (ascii "default") bigState }

/-- A collection with one key and 1000 log lines. -/
def busyState : collectionState :=
  { file := { path := logPath (ascii "data") (ascii "default"), pos := 0, closed := false },
    writer := Writer.new,
    index := (∅ : GoMap entry).insert (ascii "a") { Value := ascii "1" },
    lines := 1000, lastFlush := 0 }

/-- A store whose collection `default` is `busyState`. -/
def busyStore : store :=
  { dir := ascii "data", cols := (∅ : GoMap collectionState).insert (ascii "default") busyState }

/-- The state of a collection right after a compaction without fault: a new
handle on the log at offset 0, an empty write buffer, the index as it was,
as many lines as keys, and the time of the last flush set. -/
def compactedState (dir c : GoString) (index : GoMap entry) (fl : Time) : collectionState :=
  { file := { path := logPath dir c, pos := 0, closed := false }, writer := Writer.new,
    index := index, lines := index.keys.length, lastFlush := fl }

/-- The states a store passes through: a store that has opened nothing, over
any disk, and every state that follows one of these by opening a collection
(as `get` and `list` do), by a `put` (successful or not) or by a `compact`
(with or without a fault). -/
inductive Reachable (env : Env) : store → Disk → Prop where
  | init (dir : GoString) (d : Disk) : Reachable env { dir := dir, cols := ∅ } d
  | opened (s : store) (d : Disk) (name : GoString) (s1 : store) (d1 : Disk)
      (st : collectionState) :
      Reachable env s d → openCollection env s d name = .ok (s1, d1, st) → Reachable env s1 d1
  | put (s : store) (d : Disk) (clk : PutClock) (c key value : GoString) :
      Reachable env s d →
        Reachable env (put env clk s d c key value).s (put env clk s d c key value).d
  | compact (s : store) (d : Disk) (flt : CompactFault) (now fl : Time) (c : GoString) :
      Reachable env s d →
        Reachable env (compact env flt now fl s d c).1 (compact env flt now fl s d c).2

/-- The line counter of every registered collection is at least the number
of keys of its index. -/
def LinesCoverKeys (s : store) : Prop :=
  ∀ n st, s.cols.lookup n = some st → st.index.keys.length ≤ st.lines

/-- The state `openCollection` builds for a collection whose log holds `c`:
the handle at the end of the log, an empty write buffer, the index and the
line count of the scan loop, and the zero time as the time of the last
flush. -/
def openedState (env : Env) (dir name c : GoString) : collectionState :=
  { file := { path := logPath dir name, pos := c.length, closed := false },
    writer := Writer.new,
    index := (scanLoop env { index := ∅, lines := 0, skipped := 0 } (tokens c)).index,
    lines := (scanLoop env { index := ∅, lines := 0, skipped := 0 } (tokens c)).lines,
    lastFlush := zeroTime }

/-- The two writes of `put` under the lock: the marshalled record, then a
newline when the first write succeeds. The flag is the error. -/
def appendRecord (b : GoString) (st : collectionState) (d : Disk) :
    Disk × File × Writer × Bool :=
  match Writer.Write d st.file st.writer b with
  | (d2, f2, w2, true) => (d2, f2, w2, true)
  | (d2, f2, w2, false) => Writer.Write d2 f2 w2 [10]

/-- The test of the flush policy on the writer `w` as the record was
appended to it: more than 256 KiB pending, or the last flush more than two
seconds before the clock reading. -/
def flushDue (clk : PutClock) (st : collectionState) (w : Writer) : Prop :=
  w.buf.length > 256 * 1024 ∨ since clk.check st.lastFlush > 2 * 1000000000

/-- The record `put` marshals. -/
def recordOf (c key value : GoString) (clk : PutClock) : record :=
  { Collection := defaultName c, Key := key, Value := value, TS := clk.ts, Tombstone := false }

/-- The store and disk after a compaction of `sampleAfter` that fails to
reopen the log: the handle of the collection is closed. -/
def closedHandle : store × Disk :=
  compact sampleEnv CompactFault.reopen 5000000000 5000000000 sampleAfter.1 sampleAfter.2
    (ascii "default")

/-- A put of `b = 3` on `closedHandle`, five seconds after the last flush. -/
def putOnClosed : PutResult :=
  put sampleEnv ⟨9000000000, 9000000000, 9000000000⟩ closedHandle.1 closedHandle.2 []
    (ascii "b") (ascii "3")

/-! ## The scenario of three puts and a listing -/

/-- The value `{"x":1}`. -/
def valueX1 : GoString := ascii "\x7b\"x\":1\x7d"

/-- The value `{"x":2}`. -/
def valueX2 : GoString := ascii "\x7b\"x\":2\x7d"

/-- The value `{"y":true}`. -/
def valueYTrue : GoString := ascii "\x7b\"y\":true\x7d"

/-- The bytes `enc.Encode(item)` sends to the sink for an item whose key is
made of plain ASCII letters and whose value is compact JSON without `<`, `>`
and `&`: the object with the members `collection` (left out when empty, the
field being `omitempty`), `key` and `value`, followed by a newline. -/
def plainEncode (it : listItem) : Option GoString :=
  some (ascii "\x7b" ++
    (if it.Collection = [] then [] else ascii "\"collection\":\"" ++ it.Collection ++ ascii "\",") ++
    ascii "\"key\":\"" ++ it.Key ++ ascii "\",\"value\":" ++ it.Value ++ ascii "\x7d\n")

/-- The sample library with the encoder of items replaced by `plainEncode`. -/
def plainEnv : Env :=
  { Marshal := sampleEnv.Marshal, Unmarshal := sampleEnv.Unmarshal, Valid := sampleEnv.Valid,
    Encode := plainEncode, OpenFile := sampleEnv.OpenFile }

/-- The three puts of the scenario on a store that has opened nothing, over
the directory `dir` and an empty disk. -/
def scenarioPut1 (env : Env) (dir : GoString) (clk : PutClock) : PutResult :=
  put env clk (store.mk dir ∅) ∅ (ascii "default") (ascii "a") valueX1

def scenarioPut2 (env : Env) (dir : GoString) (clk1 clk2 : PutClock) : PutResult :=
  put env clk2 (scenarioPut1 env dir clk1).s (scenarioPut1 env dir clk1).d (ascii "default")
    (ascii "a") valueX2

def scenarioPut3 (env : Env) (dir : GoString) (clk1 clk2 clk3 : PutClock) : PutResult :=
  put env clk3 (scenarioPut2 env dir clk1 clk2).s (scenarioPut2 env dir clk1 clk2).d
    (ascii "default") (ascii "b") valueYTrue

/-- The listing of the scenario: `list("default", "", 10, 0, false)` after
the three puts. -/
def scenarioList (env : Env) (dir : GoString) (clk1 clk2 clk3 : PutClock) : ListResult :=
  list env (scenarioPut3 env dir clk1 clk2 clk3).s (scenarioPut3 env dir clk1 clk2 clk3).d
    (ascii "default") [] 10 0 false

/-! ## The lines of `encoding/json` -/

/-- The `w` low decimal digits of `n`, the most significant first. -/
def decimal : Nat → Nat → GoString
  | 0, _ => []
  | w + 1, n => decimal w (n / 10) ++ [48 + n % 10]

/-- The year, month and day of the day number `z`, counted from March 1 of
year 0 in the proleptic Gregorian calendar. -/
def civilFromDays (z : Nat) : Nat × Nat × Nat :=
  let era := z / 146097
  let doe := z % 146097
  let yoe := (doe - doe / 1460 + doe / 36524 - doe / 146096) / 365
  let doy := doe - (365 * yoe + yoe / 4 - yoe / 100)
  let mp := (5 * doy + 2) / 153
  let m := if mp < 10 then mp + 3 else mp - 9
  (yoe + era * 400 + (if m ≤ 2 then 1 else 0), m, doy - (153 * mp + 2) / 5 + 1)

/-- The day number of a date of the year 1 or later, counted from January 1
of year 1. -/
def daysFromCivil (y m d : Nat) : Nat :=
  let y1 := if m ≤ 2 then y - 1 else y
  let yoe := y1 % 400
  let mp := if m > 2 then m - 3 else m + 9
  y1 / 400 * 146097 + (yoe * 365 + yoe / 4 - yoe / 100 + ((153 * mp + 2) / 5 + d - 1)) - 306

/-- The year of an instant in UTC, for the instants from year 1 on. -/
def yearOf (t : Time) : Nat :=
  (civilFromDays ((t - zeroTime).toNat / 1000000000 / 86400 + 306)).1

/-- A sequence of digits without its trailing zeros. -/
def trimZeros (l : GoString) : GoString := (l.reverse.dropWhile (fun b => b == 48)).reverse

/-- The layout `time.RFC3339Nano` of an instant in UTC, as `Time.MarshalJSON`
writes it between quotes, for the instants of the years 1 to 9999: date,
`T`, time of day, the fraction of the second without trailing zeros when it
is not zero, and `Z`. -/
def rfc3339Nano (t : Time) : GoString :=
  let n := (t - zeroTime).toNat
  let sod := n / 1000000000 % 86400
  let date := civilFromDays (n / 1000000000 / 86400 + 306)
  decimal 4 date.1 ++ [45] ++ decimal 2 date.2.1 ++ [45] ++ decimal 2 date.2.2 ++ [84] ++
    decimal 2 (sod / 3600) ++ [58] ++ decimal 2 (sod / 60 % 60) ++ [58] ++
    decimal 2 (sod % 60) ++
    (if n % 1000000000 = 0 then [] else 46 :: trimZeros (decimal 9 (n % 1000000000))) ++ [90]

/-- The bytes that `encoding/json` writes as they are inside a string:
printable ASCII other than the double quote, the backslash and the
characters `<`, `>` and `&`, which it escapes. -/
def plainByte (b : Nat) : Bool :=
  decide (32 ≤ b) && decide (b ≤ 126) && b != 34 && b != 92 && b != 60 && b != 62 && b != 38

/-- The JSON values of the evaluations: `true`, `false`, `null`, a number
written with digits alone, or a string of plain bytes between double
quotes. They are well-formed and compact, and `json.Marshal` writes such a
`RawMessage` back as it is. -/
def plainValue (v : GoString) : Bool :=
  v == ascii "true" || v == ascii "false" || v == ascii "null" ||
    (v != [] && v.all (fun b => decide (48 ≤ b) && decide (b ≤ 57)) &&
      (v.length == 1 || v.head? != some 48)) ||
    (decide (2 ≤ v.length) && v.head? == some 34 && v.getLast? == some 34 &&
      (v.drop 1).dropLast.all plainByte)

/-- The line `json.Marshal(rec)` for a record whose collection and key are
made of plain bytes, whose value is a plain value and whose time is of the
years 1 to 9999: the object with the members `collection`, `key`, `value`,
`ts` and `tombstone` in the order of the struct. A time of a year after 9999
makes the call fail, so that no byte is written. -/
def goMarshal (r : record) : GoString :=
  if 9999 < yearOf r.TS then []
  else
    ascii "\x7b\"collection\":\"" ++ r.Collection ++ ascii "\",\"key\":\"" ++ r.Key ++
      ascii "\",\"value\":" ++ r.Value ++ ascii ",\"ts\":\"" ++ rfc3339Nano r.TS ++
      ascii "\",\"tombstone\":" ++ (if r.Tombstone then ascii "true" else ascii "false") ++
      ascii "\x7d"

/-- What is left of `l` after the leading `p`, when `l` starts with `p`. -/
def stripPrefix (p l : GoString) : Option GoString :=
  if p.isPrefixOf l then some (l.drop p.length) else none

/-- What is left of `l` before the trailing `p`, when `l` ends with `p`. -/
def stripSuffix (p l : GoString) : Option GoString :=
  (stripPrefix p.reverse l.reverse).map List.reverse

/-- A string of plain bytes up to its closing double quote, and what follows
the quote. -/
def plainString : GoString → Option (GoString × GoString)
  | [] => none
  | b :: r =>
    if b = 34 then some ([], r)
    else if plainByte b then (plainString r).map (fun p => (b :: p.1, p.2))
    else none

/-- The number written by a sequence of digits. -/
def natOfDigits (l : GoString) : Option Nat :=
  l.foldl (fun acc b => acc.bind (fun n =>
    if 48 ≤ b ∧ b ≤ 57 then some (n * 10 + (b - 48)) else none)) (some 0)

/-- The number of days of a month. -/
def daysIn (y m : Nat) : Nat :=
  if m = 2 then (if y % 4 = 0 ∧ (y % 100 ≠ 0 ∨ y % 400 = 0) then 29 else 28)
  else if m = 4 ∨ m = 6 ∨ m = 9 ∨ m = 11 then 30
  else 31

/-- The instant that a time in the layout of `rfc3339Nano` denotes: four
digits of year (1 or later), month, day, `T`, hour, minute, second, an
optional fraction of one to nine digits, and `Z`. -/
def parseTime (s : GoString) : Option Time :=
  match s with
  | y1 :: y2 :: y3 :: y4 :: 45 :: m1 :: m2 :: 45 :: d1 :: d2 :: 84 :: h1 :: h2 :: 58 ::
      n1 :: n2 :: 58 :: s1 :: s2 :: rest =>
    let frac : Option Nat :=
      match rest with
      | [90] => some 0
      | 46 :: f =>
        if f.getLast? = some 90 ∧ 2 ≤ f.length ∧ f.length ≤ 10 then
          natOfDigits (f.dropLast ++ List.replicate (10 - f.length) 48)
        else none
      | _ => none
    match natOfDigits [y1, y2, y3, y4], natOfDigits [m1, m2], natOfDigits [d1, d2],
      natOfDigits [h1, h2], natOfDigits [n1, n2], natOfDigits [s1, s2], frac with
    | some y, some m, some d, some h, some n, some sec, some ns =>
      if 1 ≤ y ∧ 1 ≤ m ∧ m ≤ 12 ∧ 1 ≤ d ∧ d ≤ daysIn y m ∧ h < 24 ∧ n < 60 ∧ sec < 60 then
        some (zeroTime +
          (((daysFromCivil y m d * 86400 + h * 3600 + n * 60 + sec) * 1000000000 + ns : Nat) : Int))
      else none
    | _, _, _, _, _, _, _ => none
  | _ => none

/-- The record `json.Unmarshal(line, &r)` yields for a line as `goMarshal`
writes it; any other line is refused. The library also takes objects
written otherwise (members in another order or missing, white space,
escapes, other values): no line of the evaluations below is one. -/
def goUnmarshal (line : GoString) : Option record :=
  (stripPrefix (ascii "\x7b\"collection\":\"") line).bind fun l1 =>
  (plainString l1).bind fun c =>
  (stripPrefix (ascii ",\"key\":\"") c.2).bind fun l3 =>
  (plainString l3).bind fun k =>
  (stripPrefix (ascii ",\"value\":") k.2).bind fun l5 =>
  (match stripSuffix (ascii ",\"tombstone\":false\x7d") l5 with
    | some l => some (false, l)
    | none => (stripSuffix (ascii ",\"tombstone\":true\x7d") l5).map (fun l => (true, l))).bind
  fun tb =>
  (stripSuffix [34] tb.2).bind fun l7 =>
  (stripSuffix (ascii ",\"ts\":\"")
    (l7.take (l7.length - (l7.reverse.takeWhile (fun b => b != 34)).length))).bind fun v =>
  (parseTime (l7.reverse.takeWhile (fun b => b != 34)).reverse).bind fun t =>
  if plainValue v then
    some { Collection := c.1, Key := k.1, Value := v, TS := t, Tombstone := tb.1 }
  else none

/-- The JSON library on plain names and values, with the lines it really
writes; every log opens. -/
def goEnv : Env :=
  { Marshal := goMarshal, Unmarshal := goUnmarshal, Valid := plainValue, Encode := plainEncode,
    OpenFile := fun _ => OpenFault.none }

/-- A JSON string of 120 bytes `x`, between double quotes. -/
def wideValue : GoString := 34 :: (List.replicate 120 120 ++ [34])

/-- The store and disk, with the lines of `encoding/json`, after the puts
`k = 0` and `a = wideValue` on a new store and a compaction without fault,
which writes the record of `a` (221 bytes) before that of `k` (100 bytes). -/
def goTwoKeys : store × Disk :=
  let r1 := put goEnv ⟨1762214400123456789, 1762214400123456789, 1762214400123456789⟩
    sampleStore ∅ [] (ascii "k") (ascii "0")
  let r2 := put goEnv ⟨1762214401123456789, 1762214401123456789, 1762214401123456789⟩
    r1.s r1.d [] (ascii "a") wideValue
  compact goEnv CompactFault.none 1762214402123456789 1762214402123456789 r2.s r2.d
    (ascii "default")

/-- The put `k = 1` after `goTwoKeys`. -/
def goWrite1 : PutResult :=
  put goEnv ⟨1762214405123456789, 1762214405123456789, 1762214405123456789⟩
    goTwoKeys.1 goTwoKeys.2 [] (ascii "k") (ascii "1")

/-- The put `k = 2` four seconds after `goWrite1`. -/
def goWrite2 : PutResult :=
  put goEnv ⟨1762214409123456789, 1762214409123456789, 1762214409123456789⟩
    goWrite1.s goWrite1.d [] (ascii "k") (ascii "2")

/-! ## Opening a collection that is not registered -/

/-- The disk after `os.OpenFile(fp, os.O_CREATE|os.O_RDWR, 0o644)` succeeds:
the file at `fp` exists, empty when it was missing. -/
def createFile (d : Disk) (fp : GoString) : Disk := if fp ∈ d then d else d.insert fp []

/-- The log of the collection `name` can be opened: the operating system
opens it and seeks in it, and it holds no line too long for the scanner. -/
def canOpen (env : Env) (s : store) (d : Disk) (name : GoString) : Bool :=
  decide (env.OpenFile (logPath s.dir name) = OpenFault.none) &&
    !tooLong (content d (logPath s.dir name))

/-- The sample library over a data directory `data` without subdirectories:
`os.OpenFile` fails on a path with a slash after the one that follows `data`,
as for the collection `a/b`. -/
def flatEnv : Env :=
  { Marshal := sampleEnv.Marshal, Unmarshal := sampleEnv.Unmarshal, Valid := sampleEnv.Valid,
    Encode := sampleEnv.Encode,
    OpenFile := fun fp => if 1 < fp.count 47 then OpenFault.openFile else OpenFault.none }

/-- The put of `a = 2` on `busyStore`: the collection then has 1001 lines
and one key, and the put launches a compaction. -/
def busyPut : PutResult := put sampleEnv ⟨1, 1, 1⟩ busyStore ∅ [] (ascii "a") (ascii "2")

/-- The put of `b = 2` after the put of `a = 1` and a compaction without
fault, on a new store, with the lines of `encoding/json`. -/
def goPutAfterCompact : PutResult :=
  let r1 := put goEnv ⟨1762214400123456789, 1762214400123456789, 1762214400123456789⟩
    sampleStore ∅ [] (ascii "a") (ascii "1")
  let c := compact goEnv CompactFault.none 1762214402123456789 1762214402123456789 r1.s r1.d
    (ascii "default")
  put goEnv ⟨1762214405123456789, 1762214405123456789, 1762214405123456789⟩ c.1 c.2 []
    (ascii "b") (ascii "2")

/-- The put of `k = 1` after the puts `k = 0` and `a = 111111111111` and a
compaction without fault, on a new store, with the lines of
`encoding/json`. -/
def goOverwrite1 : PutResult :=
  let r1 := put goEnv ⟨1762214400123456789, 1762214400123456789, 1762214400123456789⟩
    sampleStore ∅ [] (ascii "k") (ascii "0")
  let r2 := put goEnv ⟨1762214401123456789, 1762214401123456789, 1762214401123456789⟩
    r1.s r1.d [] (ascii "a") (ascii "111111111111")
  let c := compact goEnv CompactFault.none 1762214402123456789 1762214402123456789 r2.s r2.d
    (ascii "default")
  put goEnv ⟨1762214405123456789, 1762214405123456789, 1762214405123456789⟩ c.1 c.2 []
    (ascii "k") (ascii "1")

/-! # Theorems -/

/-! ## Replay -/

theorem scanLoop_cons (env : Env) (s : ScanState) (t : GoString) (ts : List GoString) :
    scanLoop env s (t :: ts) = scanLoop env (scanStep env s t) ts := rfl

/-- The index after the scan loop, from any starting index: the last record
for a key decides, and a key without a record keeps what it had. -/
theorem scanLoop_lookup (env : Env) (toks : List GoString) (s : ScanState) (k : GoString) :
    (scanLoop env s toks).index.lookup k =
      match ((decoded env toks).filter (fun r => decide (r.Key = k))).getLast? with
      | some r => if r.Tombstone then none else some { Value := r.Value }
      | none => s.index.lookup k := by
  induction toks generalizing s with
  | nil => simp [scanLoop, decoded]
  | cons t ts ih =>
    rw [scanLoop_cons, ih]
    by_cases hb : isBlank t = true
    · simp [decoded, scanStep, hb]
    · cases hu : env.Unmarshal t with
      | none => simp [decoded, scanStep, hb, hu]
      | some r =>
        have hd : decoded env (t :: ts) = r :: decoded env ts := by
          simp [decoded, hb, hu]
        rw [hd]
        by_cases hk : r.Key = k
        · simp only [List.filter_cons, hk, decide_True, if_true, List.getLast?_cons]
          cases hl : ((decoded env ts).filter (fun r => decide (r.Key = k))).getLast? with
          | none =>
            subst hk
            cases ht : r.Tombstone <;>
              simp [scanStep, hb, hu, ht, AList.lookup_insert, AList.lookup_erase]
          | some r2 => simp
        · have hk2 : k ≠ r.Key := fun h => hk h.symm
          simp only [List.filter_cons, hk, decide_False, Bool.false_eq_true, if_false]
          cases hl : ((decoded env ts).filter (fun r => decide (r.Key = k))).getLast? with
          | none =>
            cases ht : r.Tombstone <;>
              simp [scanStep, hb, hu, ht, AList.lookup_insert_ne hk2, AList.lookup_erase_ne hk2]
          | some r2 => rfl

/-- C1. Replay computes last-record-wins: after the scan loop of
`openCollection`, started on an empty index, the index maps every key to the
value of the last decoded record for that key when that record is not a
tombstone, and has no entry for the key when the last record for it is a
tombstone or no record for it exists. -/
theorem replay_last_record_wins (env : Env) (n sk : Nat) (toks : List GoString)
    (k : GoString) :
    (scanLoop env { index := ∅, lines := n, skipped := sk } toks).index.lookup k =
      lastWins (decoded env toks) k := by
  rw [scanLoop_lookup, lastWins]
  cases ((decoded env toks).filter (fun r => decide (r.Key = k))).getLast? <;> simp

/-! ## Files and writers in working order -/

theorem writeAt_end (c p : GoString) : writeAt c c.length p = c ++ p := by
  simp [writeAt]

theorem content_insert (d : Disk) (p c : GoString) : content (d.insert p c) p = c := by
  simp [content]

theorem content_insert_ne (d : Disk) (p q c : GoString) (h : q ≠ p) :
    content (d.insert p c) q = content d q := by
  simp [content, AList.lookup_insert_ne h]

theorem FileWrite_atEnd (d : Disk) (f : File) (p : GoString) (hc : f.closed = false)
    (hp : f.pos = (content d f.path).length) :
    File.Write d f p =
      (d.insert f.path (content d f.path ++ p), { f with pos := f.pos + p.length }, false) := by
  simp [File.Write, hc, hp, writeAt_end]

theorem Healthy_FileWrite (d : Disk) (f : File) (w : Writer) (data p : GoString)
    (h : Healthy d f w data) (hb : w.buf = []) :
    Healthy (d.insert f.path (content d f.path ++ p)) { f with pos := f.pos + p.length } w
      (data ++ p) := by
  obtain ⟨hc, he, hp, hd⟩ := h
  refine ⟨hc, he, ?_, ?_⟩
  · simp [content_insert, hp]
  · simp [content_insert, hb, ← hd]

theorem Flush_healthy (d : Disk) (f : File) (w : Writer) (data : GoString)
    (h : Healthy d f w data) :
    ∃ d1 f1 w1, Writer.Flush d f w = (d1, f1, w1, false) ∧ f1.path = f.path ∧
      Healthy d1 f1 w1 data ∧ w1.buf = [] ∧ content d1 f.path = data ∧
      ∀ q, q ≠ f.path → content d1 q = content d q := by
  have h0 := h
  obtain ⟨hc, he, hp, hd⟩ := h
  by_cases hb : w.buf = []
  · refine ⟨d, f, w, by simp [Writer.Flush, he, hb], rfl, h0, hb, ?_, fun _ _ => rfl⟩
    simpa [hb] using hd
  · refine ⟨d.insert f.path (content d f.path ++ w.buf), { f with pos := f.pos + w.buf.length },
      { w with buf := [] }, ?_, rfl, ?_, rfl, ?_, fun q hq => content_insert_ne _ _ _ _ hq⟩
    · simp [Writer.Flush, he, hb, FileWrite_atEnd d f w.buf hc hp]
    · refine ⟨hc, he, ?_, ?_⟩
      · simp [content_insert, hp]
      · simp [content_insert, hd]
    · simp [content_insert, hd]

theorem Write_healthy (d : Disk) (f : File) (w : Writer) (data p : GoString)
    (h : Healthy d f w data) :
    ∃ d1 f1 w1, Writer.Write d f w p = (d1, f1, w1, false) ∧ f1.path = f.path ∧
      Healthy d1 f1 w1 (data ++ p) ∧ ∀ q, q ≠ f.path → content d1 q = content d q := by
  have h0 := h
  obtain ⟨hc, he, hp, hd⟩ := h
  have hne : ¬ (w.err = true) := by simp [he]
  have hw : ∀ b, ({ buf := b, err := w.err } : Writer) = { buf := b, err := false } := by
    intro b; rw [he]
  by_cases hfit : p.length ≤ bufSize - w.buf.length
  · refine ⟨d, f, { w with buf := w.buf ++ p }, ?_, rfl, ⟨hc, he, hp, ?_⟩, fun _ _ => rfl⟩
    · unfold Writer.Write; rw [if_neg hne, if_pos hfit]
    · simp [← hd]
  · by_cases hb : w.buf = []
    · refine ⟨d.insert f.path (content d f.path ++ p), { f with pos := f.pos + p.length }, w,
        ?_, rfl, Healthy_FileWrite d f w data p h0 hb, fun q hq => content_insert_ne _ _ _ _ hq⟩
      unfold Writer.Write
      rw [if_neg hne, if_neg hfit, if_pos hb, FileWrite_atEnd d f p hc hp]
      cases w; simp_all
    · have hfill : Healthy d f { buf := w.buf ++ p.take (bufSize - w.buf.length), err := w.err }
          (data ++ p.take (bufSize - w.buf.length)) := ⟨hc, he, hp, by simp [← hd]⟩
      obtain ⟨d1, f1, w1, hfl, hpath, hh1, hbuf1, _, hoth⟩ := Flush_healthy _ _ _ _ hfill
      have hstep : Writer.Write d f w p =
          if (p.drop (bufSize - w.buf.length)).length ≤ bufSize then
            (d1, f1, { w1 with buf := p.drop (bufSize - w.buf.length) }, false)
          else
            match File.Write d1 f1 (p.drop (bufSize - w.buf.length)) with
            | (d2, f2, e) => (d2, f2, { w1 with err := e }, e) := by
        unfold Writer.Write
        rw [if_neg hne, if_neg hfit, if_neg hb]
        simp only [hfl]
      rw [hstep]
      by_cases hrest : (p.drop (bufSize - w.buf.length)).length ≤ bufSize
      · refine ⟨d1, f1, { w1 with buf := p.drop (bufSize - w.buf.length) }, ?_, hpath, ?_, hoth⟩
        · rw [if_pos hrest]
        · obtain ⟨hc1, he1, hp1, hd1⟩ := hh1
          refine ⟨hc1, he1, hp1, ?_⟩
          rw [hbuf1, List.append_nil] at hd1
          simp [hd1, List.append_assoc]
      · refine ⟨d1.insert f1.path (content d1 f1.path ++ p.drop (bufSize - w.buf.length)),
          { f1 with pos := f1.pos + (p.drop (bufSize - w.buf.length)).length }, w1, ?_, hpath,
          ?_, ?_⟩
        · rw [if_neg hrest, FileWrite_atEnd d1 f1 _ hh1.1 hh1.2.2.1]
          have he1 := hh1.2.1
          cases w1; simp_all
        · have := Healthy_FileWrite d1 f1 w1 _ (p.drop (bufSize - w.buf.length)) hh1 hbuf1
          simpa [List.append_assoc] using this
        · intro q hq
          rw [content_insert_ne _ _ _ _ (by rw [hpath]; exact hq)]
          exact hoth q hq

theorem putLocked_healthy (clk : PutClock) (b key value : GoString) (st : collectionState)
    (d : Disk) (data : GoString) (h : Healthy d st.file st.writer data) :
    ∃ d1 st1 launched, putLocked clk b key value st d = (d1, st1, none, launched) ∧
      st1.file.path = st.file.path ∧ Healthy d1 st1.file st1.writer (data ++ b ++ [10]) ∧
      st1.index = st.index.insert key { Value := value } ∧ st1.lines = st.lines + 1 ∧
      ∀ q, q ≠ st.file.path → content d1 q = content d q := by
  obtain ⟨d2, f2, w2, hw2, hp2, hh2, ho2⟩ := Write_healthy d st.file st.writer data b h
  obtain ⟨d3, f3, w3, hw3, hp3, hh3, ho3⟩ := Write_healthy d2 f2 w2 (data ++ b) [10] hh2
  have ho3b : ∀ q, q ≠ st.file.path → content d3 q = content d q := fun q hq => by
    rw [ho3 q (by rw [hp2]; exact hq), ho2 q hq]
  by_cases hfl : w3.buf.length > 256 * 1024 ∨ since clk.check st.lastFlush > 2 * 1000000000
  · obtain ⟨d4, f4, w4, hw4, hp4, hh4, _, _, ho4⟩ := Flush_healthy d3 f3 w3 _ hh3
    refine ⟨d4, collectionState.mk f4 w4 (st.index.insert key (entry.mk value)) (st.lines + 1)
      clk.flushed, decide (st.lines + 1 > 1000 ∧
        st.lines + 1 > 2 * (st.index.insert key (entry.mk value)).keys.length),
      ?_, ?_, ?_, rfl, rfl, ?_⟩
    · unfold putLocked
      simp only [hw2, hw3, hw4, if_pos hfl]
    · simp [hp4, hp3, hp2]
    · exact hh4
    · intro q hq
      rw [ho4 q (by rw [hp3, hp2]; exact hq), ho3b q hq]
  · refine ⟨d3, collectionState.mk f3 w3 (st.index.insert key (entry.mk value)) (st.lines + 1)
      st.lastFlush, decide (st.lines + 1 > 1000 ∧
        st.lines + 1 > 2 * (st.index.insert key (entry.mk value)).keys.length),
      ?_, ?_, ?_, rfl, rfl, ho3b⟩
    · unfold putLocked
      simp only [hw2, hw3, if_neg hfl]
    · simp [hp3, hp2]
    · exact hh3

/-! ## Opening a collection -/

theorem openCollection_registered (env : Env) (s : store) (d : Disk) (name : GoString)
    (st : collectionState) (h : s.cols.lookup name = some st) :
    openCollection env s d name = .ok (s, d, st) := by
  simp [openCollection, h]

/-- The state `openCollection` builds for a collection that is not
registered, and what it leaves on disk. -/
theorem openCollection_new (env : Env) (s : store) (d : Disk) (name : GoString)
    (h : s.cols.lookup name = none) (hof : env.OpenFile (logPath s.dir name) = OpenFault.none)
    (hlen : tooLong (content d (logPath s.dir name)) = false) :
    ∃ d1 st, openCollection env s d name =
        .ok ({ s with cols := s.cols.insert name st }, d1, st) ∧
      content d1 (logPath s.dir name) = content d (logPath s.dir name) ∧
      (∀ q, q ≠ logPath s.dir name → content d1 q = content d q) ∧
      st.file = { path := logPath s.dir name, pos := (content d (logPath s.dir name)).length,
                  closed := false } ∧
      st.writer = Writer.new ∧
      st.index = (scanLoop env { index := ∅, lines := 0, skipped := 0 }
        (tokens (content d (logPath s.dir name)))).index := by
  have hc : content (if logPath s.dir name ∈ d then d else d.insert (logPath s.dir name) [])
      (logPath s.dir name) = content d (logPath s.dir name) := by
    by_cases hm : logPath s.dir name ∈ d
    · rw [if_pos hm]
    · rw [if_neg hm, content_insert]
      have : d.lookup (logPath s.dir name) = none := AList.lookup_eq_none.2 hm
      simp [content, this]
  refine ⟨if logPath s.dir name ∈ d then d else d.insert (logPath s.dir name) [],
    collectionState.mk ⟨logPath s.dir name, (content d (logPath s.dir name)).length, false⟩
      Writer.new (scanLoop env { index := ∅, lines := 0, skipped := 0 }
        (tokens (content d (logPath s.dir name)))).index
      (scanLoop env { index := ∅, lines := 0, skipped := 0 }
        (tokens (content d (logPath s.dir name)))).lines zeroTime,
    ?_, hc, ?_, rfl, rfl, rfl⟩
  · simp only [openCollection, h, hof, hc, hlen]
    rfl
  · intro q hq
    by_cases hm : logPath s.dir name ∈ d
    · rw [if_pos hm]
    · rw [if_neg hm, content_insert_ne _ _ _ _ hq]

/-! ## The lines of a log written by the store -/

theorem rawLines_line (l rest : GoString) (h : 10 ∉ l) :
    rawLines (l ++ 10 :: rest) = l :: rawLines rest := by
  induction l with
  | nil => simp [rawLines]
  | cons b l ih =>
    have hb : b ≠ 10 := fun e => h (by simp [e])
    have hl : 10 ∉ l := fun e => h (by simp [e])
    simp [rawLines, hb, ih hl]

theorem rawLines_encodeLines (env : Env) (rs : List record)
    (h : ∀ r ∈ rs, 10 ∉ env.Marshal r) :
    rawLines (encodeLines env rs) = rs.map env.Marshal := by
  induction rs with
  | nil => simp [encodeLines, rawLines]
  | cons r rs ih =>
    have h1 : 10 ∉ env.Marshal r := h r (by simp)
    have h2 : ∀ r ∈ rs, 10 ∉ env.Marshal r := fun x hx => h x (by simp [hx])
    have e : encodeLines env (r :: rs) = env.Marshal r ++ 10 :: encodeLines env rs := by
      simp [encodeLines]
    rw [e, rawLines_line _ _ h1, ih h2, List.map_cons]

theorem roundTrips_noNewline (env : Env) (r : record) (h : roundTrips env r = true) :
    10 ∉ env.Marshal r := by
  unfold roundTrips at h
  simp only [Bool.and_eq_true, Bool.not_eq_true'] at h
  intro hm
  have : (env.Marshal r).contains 10 = true := by simpa using hm
  rw [this] at h
  exact absurd h.1.1 (by simp)

theorem tooLong_encodeLines (env : Env) (rs : List record)
    (h : ∀ r ∈ rs, roundTrips env r = true) (hf : ∀ r ∈ rs, fitsScanner env r = true) :
    tooLong (encodeLines env rs) = false := by
  unfold tooLong
  rw [rawLines_encodeLines env rs (fun r hr => roundTrips_noNewline env r (h r hr))]
  rw [List.any_eq_false]
  intro l hl
  obtain ⟨r, hr, rfl⟩ := List.mem_map.1 hl
  have := hf r hr
  simp only [fitsScanner, decide_eq_true_eq] at this
  simp only [decide_eq_true_eq, not_le]
  exact this

theorem scanStep_roundTrips (env : Env) (s : ScanState) (r : record)
    (h : roundTrips env r = true) :
    scanStep env s (dropCR (env.Marshal r)) =
      { index := if r.Tombstone then s.index.erase r.Key
                 else s.index.insert r.Key { Value := r.Value },
        lines := s.lines + 1, skipped := s.skipped } := by
  unfold roundTrips at h
  simp only [Bool.and_eq_true, Bool.not_eq_true'] at h
  obtain ⟨⟨_, hb⟩, hu⟩ := h
  cases hd : env.Unmarshal (dropCR (env.Marshal r)) with
  | none => rw [hd] at hu; exact absurd hu (by simp)
  | some r2 =>
    rw [hd] at hu
    simp only [Bool.and_eq_true, beq_iff_eq] at hu
    obtain ⟨⟨hk, hv⟩, ht⟩ := hu
    unfold scanStep
    rw [hb, hd]
    cases hT : r.Tombstone <;> simp [hk, hv, ht, hT]

theorem scanLoop_roundTrips (env : Env) (rs : List record) (s : ScanState)
    (h : ∀ r ∈ rs, roundTrips env r = true) :
    scanLoop env s (rs.map (fun r => dropCR (env.Marshal r))) =
      { index := applyRecords rs s.index, lines := s.lines + rs.length,
        skipped := s.skipped } := by
  induction rs generalizing s with
  | nil => simp [scanLoop, applyRecords]
  | cons r rs ih =>
    have h1 := h r (by simp)
    have h2 : ∀ r ∈ rs, roundTrips env r = true := fun x hx => h x (by simp [hx])
    rw [List.map_cons, scanLoop_cons, scanStep_roundTrips env s r h1, ih _ h2]
    simp only [applyRecords, List.foldl_cons, List.length_cons]
    congr 1
    omega

theorem tokens_encodeLines (env : Env) (rs : List record)
    (h : ∀ r ∈ rs, roundTrips env r = true) :
    tokens (encodeLines env rs) = rs.map (fun r => dropCR (env.Marshal r)) := by
  unfold tokens
  rw [rawLines_encodeLines env rs (fun r hr => roundTrips_noNewline env r (h r hr))]
  simp [List.map_map]

theorem encodeLines_append (env : Env) (rs ss : List record) :
    encodeLines env (rs ++ ss) = encodeLines env rs ++ encodeLines env ss := by
  simp [encodeLines]

theorem applyRecords_append (rs ss : List record) (m : GoMap entry) :
    applyRecords (rs ++ ss) m = applyRecords ss (applyRecords rs m) := by
  simp [applyRecords, List.foldl_append]

/-! ## Sequences of puts and reopening -/

theorem content_create (d : Disk) (p : GoString) :
    content (if p ∈ d then d else d.insert p []) p = content d p := by
  by_cases hm : p ∈ d
  · rw [if_pos hm]
  · rw [if_neg hm, content_insert]
    have : d.lookup p = none := AList.lookup_eq_none.2 hm
    simp [content, this]

theorem openCollection_tooLong (env : Env) (s : store) (d : Disk) (name : GoString)
    (h : s.cols.lookup name = none) (hof : env.OpenFile (logPath s.dir name) = OpenFault.none)
    (hlen : tooLong (content d (logPath s.dir name)) = true) :
    openCollection env s d name = .error Error.scan := by
  simp only [openCollection, h, hof, content_create, hlen, if_true]
  rfl

/-- A log that the operating system does not open, or in which it does not
seek, makes `openCollection` fail. -/
theorem openCollection_fault (env : Env) (s : store) (d : Disk) (name : GoString)
    (h : s.cols.lookup name = none) (hof : env.OpenFile (logPath s.dir name) ≠ OpenFault.none) :
    ∃ e, openCollection env s d name = .error e := by
  cases hf : env.OpenFile (logPath s.dir name) with
  | none => exact absurd hf hof
  | openFile => exact ⟨Error.openFile, by simp [openCollection, h, hf]⟩
  | seek => exact ⟨Error.seek, by simp [openCollection, h, hf]⟩

theorem openCollection_lookup (env : Env) (s : store) (d : Disk) (name : GoString)
    (s1 : store) (d1 : Disk) (st : collectionState)
    (h : openCollection env s d name = .ok (s1, d1, st)) :
    s1.cols.lookup name = some st ∧ s1.dir = s.dir := by
  cases hl : s.cols.lookup name with
  | some st0 =>
    rw [openCollection_registered env s d name st0 hl] at h
    simp only [Except.ok.injEq, Prod.mk.injEq] at h
    obtain ⟨rfl, _, rfl⟩ := h
    exact ⟨hl, rfl⟩
  | none =>
    by_cases hof : env.OpenFile (logPath s.dir name) = OpenFault.none
    case neg =>
      obtain ⟨e, he⟩ := openCollection_fault env s d name hl hof
      rw [he] at h
      exact absurd h (by simp)
    cases ht : tooLong (content d (logPath s.dir name)) with
    | true =>
      rw [openCollection_tooLong env s d name hl hof ht] at h
      exact absurd h (by simp)
    | false =>
      obtain ⟨d2, st2, ho, _⟩ := openCollection_new env s d name hl hof ht
      rw [ho] at h
      simp only [Except.ok.injEq, Prod.mk.injEq] at h
      obtain ⟨rfl, _, rfl⟩ := h
      exact ⟨AList.lookup_insert _, rfl⟩

theorem put_open (env : Env) (clk : PutClock) (s : store) (d : Disk) (c key value : GoString)
    (s1 : store) (d1 : Disk) (st : collectionState)
    (h : openCollection env s d (defaultName c) = .ok (s1, d1, st)) :
    put env clk s d c key value = put env clk s1 d1 c key value := by
  have h1 := openCollection_registered env s1 d1 (defaultName c) st
    (openCollection_lookup env s d _ s1 d1 st h).1
  unfold put
  simp only [h, h1]

theorem put_LogIs_valid (env : Env) (clk : PutClock) (s : store) (d : Disk)
    (c key value : GoString) (rs : List record) (h : LogIs env s d (defaultName c) rs)
    (hv : env.Valid value = true) :
    (put env clk s d c key value).err = none ∧
      LogIs env (put env clk s d c key value).s (put env clk s d c key value).d (defaultName c)
        (rs ++ [putRecord (defaultName c) { key := key, value := value, clk := clk }]) ∧
      (put env clk s d c key value).s.dir = s.dir := by
  obtain ⟨st, hl, hp, hh, hi⟩ := h
  have ho := openCollection_registered env s d (defaultName c) st hl
  obtain ⟨d1, st1, launched, hpl, hp1, hh1, hi1, _, _⟩ :=
    putLocked_healthy clk (env.Marshal (putRecord (defaultName c)
      { key := key, value := value, clk := clk })) key value st d _ hh
  have e : put env clk s d c key value =
      { s := { s with cols := s.cols.insert (defaultName c) st1 }, d := d1, err := none,
        compactLaunched := launched } := by
    unfold put
    simp only [ho, hv, Bool.not_true, Bool.false_eq_true, if_false]
    unfold putRecord at hpl
    simp only [hpl]
  rw [e]
  refine ⟨rfl, ⟨st1, AList.lookup_insert _, ?_, ?_, ?_⟩, rfl⟩
  · rw [hp1, hp]
  · rw [encodeLines_append]
    have : encodeLines env [putRecord (defaultName c) { key := key, value := value, clk := clk }]
        = env.Marshal (putRecord (defaultName c) { key := key, value := value, clk := clk })
          ++ [10] := by simp [encodeLines]
    rw [this, ← List.append_assoc]
    exact hh1
  · rw [hi1, hi, applyRecords_append]
    simp [applyRecords, putRecord]

theorem put_LogIs (env : Env) (clk : PutClock) (s : store) (d : Disk) (c key value : GoString)
    (rs : List record) (h : LogIs env s d (defaultName c) rs)
    (hok : (put env clk s d c key value).err = none) :
    LogIs env (put env clk s d c key value).s (put env clk s d c key value).d (defaultName c)
        (rs ++ [putRecord (defaultName c) { key := key, value := value, clk := clk }]) ∧
      (put env clk s d c key value).s.dir = s.dir := by
  by_cases hv : env.Valid value = true
  · exact (put_LogIs_valid env clk s d c key value rs h hv).2
  · exfalso
    obtain ⟨st, hl, _⟩ := h
    have ho := openCollection_registered env s d (defaultName c) st hl
    have e : (put env clk s d c key value).err = some Error.invalidValue := by
      unfold put
      simp only [ho]
      simp [hv]
    rw [e] at hok
    exact absurd hok (by simp)

theorem puts_LogIs (env : Env) (c : GoString) (ops : List PutOp) (s : store) (d : Disk)
    (s2 : store) (d2 : Disk) (rs : List record) (h : LogIs env s d (defaultName c) rs)
    (hputs : puts env c ops s d = some (s2, d2)) :
    LogIs env s2 d2 (defaultName c) (rs ++ ops.map (putRecord (defaultName c))) ∧
      s2.dir = s.dir := by
  induction ops generalizing s d rs with
  | nil =>
    simp only [puts, Option.some.injEq, Prod.mk.injEq] at hputs
    obtain ⟨rfl, rfl⟩ := hputs
    simpa using h
  | cons op ops ih =>
    simp only [puts] at hputs
    by_cases hok : (put env op.clk s d c op.key op.value).err = none
    · rw [if_pos hok] at hputs
      obtain ⟨h1, hd1⟩ := put_LogIs env op.clk s d c op.key op.value rs h hok
      obtain ⟨h2, hd2⟩ := ih _ _ _ h1 hputs
      refine ⟨?_, hd2.trans hd1⟩
      simpa [List.append_assoc] using h2
    · rw [if_neg hok] at hputs
      exact absurd hputs (by simp)

theorem reopen_LogIs (env : Env) (s : store) (d : Disk) (name : GoString) (rs : List record)
    (h : LogIs env s d name rs) (hof : env.OpenFile (logPath s.dir name) = OpenFault.none)
    (hrt : ∀ r ∈ rs, roundTrips env r = true)
    (hfit : ∀ r ∈ rs, fitsScanner env r = true) :
    ∃ st, reopen env s d name = .ok st ∧ st.index = memIndex s name := by
  obtain ⟨st0, hl, hp, hh, hi⟩ := h
  obtain ⟨d1, f1, w1, hfl, _, _, _, hc1, _⟩ := Flush_healthy d st0.file st0.writer _ hh
  rw [hp] at hc1
  have hnone : (({ dir := s.dir, cols := ∅ } : store).cols.lookup name) = none :=
    AList.lookup_empty _
  obtain ⟨d2, st, ho, _, _, _, _, hidx⟩ := openCollection_new env { dir := s.dir, cols := ∅ } d1
    name hnone hof (by simp only [hc1]; exact tooLong_encodeLines env rs hrt hfit)
  refine ⟨st, ?_, ?_⟩
  · unfold reopen
    simp only [hl, hfl, ho]
  · simp only [hc1, tokens_encodeLines env rs hrt, scanLoop_roundTrips env rs _ hrt] at hidx
    rw [hidx, memIndex, hl]
    exact hi.symm

theorem LogIs_open (env : Env) (s : store) (d : Disk) (name : GoString)
    (hreg : s.cols.lookup name = none) (hof : env.OpenFile (logPath s.dir name) = OpenFault.none)
    (hfresh : content d (logPath s.dir name) = []) :
    ∃ s1 d1 st, openCollection env s d name = .ok (s1, d1, st) ∧ LogIs env s1 d1 name [] := by
  have ht : tooLong (content d (logPath s.dir name)) = false := by
    rw [hfresh]; rfl
  obtain ⟨d1, st, ho, hc, _, hf, hw, hi⟩ := openCollection_new env s d name hreg hof ht
  refine ⟨_, d1, st, ho, st, AList.lookup_insert _, ?_, ⟨?_, ?_, ?_, ?_⟩, ?_⟩
  · rw [hf]
  · rw [hf]
  · rw [hw]; rfl
  · rw [hf]; simp only; rw [hc]
  · rw [hf, hw]; simp only [Writer.new, List.append_nil]; rw [hc, hfresh]; rfl
  · rw [hi, hfresh]; rfl

theorem puts_open (env : Env) (c : GoString) (ops : List PutOp) (s : store) (d : Disk)
    (s1 : store) (d1 : Disk) (st : collectionState) (hne : ops ≠ [])
    (h : openCollection env s d (defaultName c) = .ok (s1, d1, st)) :
    puts env c ops s d = puts env c ops s1 d1 := by
  cases ops with
  | nil => exact absurd rfl hne
  | cons op ops => simp only [puts, put_open env op.clk s d c op.key op.value s1 d1 st h]

/-- C2 (amended). Replay equivalence: for every sequence of successful puts
applied to a new collection (not open, its log empty or missing and opened
by the operating system), when every line written is shorter than the
10 MiB the scanner takes and the JSON library frames and round-trips each
record, flushing and reopening replays the log into an index identical to the
one held in memory. -/
theorem replay_equivalence (env : Env) (c : GoString) (ops : List PutOp) (s : store) (d : Disk)
    (s2 : store) (d2 : Disk)
    (hreg : s.cols.lookup (defaultName c) = none)
    (hof : env.OpenFile (logPath s.dir (defaultName c)) = OpenFault.none)
    (hfresh : content d (logPath s.dir (defaultName c)) = [])
    (hputs : puts env c ops s d = some (s2, d2))
    (hrt : ∀ op ∈ ops, roundTrips env (putRecord (defaultName c) op) = true)
    (hfit : ∀ op ∈ ops, fitsScanner env (putRecord (defaultName c) op) = true) :
    ∃ st, reopen env s2 d2 (defaultName c) = .ok st ∧
      st.index = memIndex s2 (defaultName c) := by
  obtain ⟨s1, d1, st1, ho, hlog⟩ := LogIs_open env s d (defaultName c) hreg hof hfresh
  by_cases hne : ops = []
  · subst hne
    simp only [puts, Option.some.injEq, Prod.mk.injEq] at hputs
    obtain ⟨rfl, rfl⟩ := hputs
    have hnone : (({ dir := s.dir, cols := ∅ } : store).cols.lookup (defaultName c)) = none :=
      AList.lookup_empty _
    obtain ⟨d3, st, ho3, _, _, _, _, hidx⟩ := openCollection_new env { dir := s.dir, cols := ∅ }
      d (defaultName c) hnone hof (by simp only [hfresh]; rfl)
    refine ⟨st, ?_, ?_⟩
    · unfold reopen
      simp only [hreg, ho3]
    · rw [hidx, memIndex, hreg]
      simp only [hfresh]
      rfl
  · rw [puts_open env c ops s d s1 d1 st1 hne ho] at hputs
    obtain ⟨h2, hd2⟩ := puts_LogIs env c ops s1 d1 s2 d2 [] hlog hputs
    rw [List.nil_append] at h2
    have hd1 : s1.dir = s.dir := (openCollection_lookup env s d _ s1 d1 st1 ho).2
    exact reopen_LogIs env s2 d2 (defaultName c) _ h2 (by rw [hd2, hd1]; exact hof)
      (fun r hr => by obtain ⟨op, hop, rfl⟩ := List.mem_map.1 hr; exact hrt op hop)
      (fun r hr => by obtain ⟨op, hop, rfl⟩ := List.mem_map.1 hr; exact hfit op hop)

theorem reopen_tooLong (env : Env) (s : store) (d : Disk) (name : GoString) (rs : List record)
    (h : LogIs env s d name rs) (hof : env.OpenFile (logPath s.dir name) = OpenFault.none)
    (hlong : tooLong (encodeLines env rs) = true) :
    reopen env s d name = .error Error.scan := by
  obtain ⟨st0, hl, hp, hh, _⟩ := h
  obtain ⟨d1, f1, w1, hfl, _, _, _, hc1, _⟩ := Flush_healthy d st0.file st0.writer _ hh
  rw [hp] at hc1
  have hnone : (({ dir := s.dir, cols := ∅ } : store).cols.lookup name) = none :=
    AList.lookup_empty _
  have ho := openCollection_tooLong env { dir := s.dir, cols := ∅ } d1 name hnone hof
    (by simp only [hc1]; exact hlong)
  unfold reopen
  simp only [hl, hfl, ho]

theorem dropCR_of_not_mem (l : GoString) (h : 13 ∉ l) : dropCR l = l := by
  unfold dropCR
  rw [if_neg]
  intro hl
  exact h (List.mem_of_getLast?_eq_some hl)

theorem contains_eq_false (l : GoString) (b : Nat) (h : b ∉ l) : l.contains b = false := by
  rw [Bool.eq_false_iff]
  intro hc
  exact h (by simpa using hc)

theorem sampleEnv_Valid (v : GoString) : sampleEnv.Valid v = !v.contains 10 := rfl

theorem sampleEnv_Marshal (c k v : GoString) (t : Time) :
    sampleEnv.Marshal { Collection := c, Key := k, Value := v, TS := t, Tombstone := false } =
      43 :: (k ++ 61 :: v) := rfl

theorem longValue_length : longValue.length = maxTokenSize + 2 := by
  unfold longValue
  rw [List.length_cons, List.length_append, List.length_replicate]
  rfl

theorem longValue_mem (b : Nat) (h : b ∈ longValue) : b = 34 ∨ b = 120 := by
  unfold longValue at h
  rcases List.mem_cons.1 h with h | h
  · exact Or.inl h
  · rcases List.mem_append.1 h with h | h
    · exact Or.inr (List.mem_replicate.1 h).2
    · exact Or.inl (List.mem_singleton.1 h)

theorem longOp_marshal :
    sampleEnv.Marshal (putRecord (ascii "default") longOp) = 43 :: 107 :: 61 :: longValue := by
  unfold putRecord longOp
  rw [sampleEnv_Marshal]
  rfl

theorem longLine_not_mem (b : Nat) (h1 : b ≠ 43) (h2 : b ≠ 107) (h3 : b ≠ 61) (h4 : b ≠ 120)
    (h5 : b ≠ 34) : b ∉ (43 :: 107 :: 61 :: longValue) := by
  intro h
  simp only [List.mem_cons] at h
  rcases h with h | h | h | h
  · exact h1 h
  · exact h2 h
  · exact h3 h
  · rcases longValue_mem b h with h | h
    · exact h5 h
    · exact h4 h

theorem longOp_roundTrips : roundTrips sampleEnv (putRecord (ascii "default") longOp) = true := by
  have h13 := longLine_not_mem 13 (by omega) (by omega) (by omega) (by omega) (by omega)
  have h10 := contains_eq_false _ 10
    (longLine_not_mem 10 (by omega) (by omega) (by omega) (by omega) (by omega))
  have hu : sampleEnv.Unmarshal (43 :: 107 :: 61 :: longValue) =
      some { Collection := [], Key := [107], Value := longValue, TS := 0, Tombstone := false } := by
    simp [sampleEnv, splitAt1]
  have hb : isBlank (43 :: 107 :: 61 :: longValue) = false := by
    simp [isBlank, asciiSpace]
  unfold roundTrips
  rw [longOp_marshal, dropCR_of_not_mem _ h13, h10, hu, hb]
  simp only [putRecord, longOp]
  simp [ascii]

theorem longOp_tooLong :
    tooLong (encodeLines sampleEnv [putRecord (ascii "default") longOp]) = true := by
  have e : encodeLines sampleEnv [putRecord (ascii "default") longOp] =
      (43 :: 107 :: 61 :: longValue) ++ 10 :: [] := by
    unfold encodeLines
    rw [List.map_cons, longOp_marshal]
    simp only [List.map_nil, List.flatten, List.append_nil]
  have h10 := longLine_not_mem 10 (by omega) (by omega) (by omega) (by omega) (by omega)
  unfold tooLong
  rw [e, rawLines_line _ _ h10]
  have hr : rawLines [] = [] := by unfold rawLines; rfl
  rw [hr, List.any_cons, List.any_nil, Bool.or_false]
  have hl : (43 :: 107 :: 61 :: longValue).length = maxTokenSize + 5 := by
    rw [List.length_cons, List.length_cons, List.length_cons, longValue_length]
  rw [hl]
  exact decide_eq_true (Nat.le_add_right _ _)

theorem longOp_valid : sampleEnv.Valid longOp.value = true := by
  have h10 : longValue.contains 10 = false :=
    contains_eq_false _ 10 (fun h => by rcases longValue_mem 10 h with h | h <;> omega)
  unfold longOp
  rw [sampleEnv_Valid]
  simp only [h10]
  rfl

theorem replay_equivalence_witness :
    ∃ st, reopen sampleEnv sampleAfter.1 sampleAfter.2 (defaultName []) = .ok st ∧
      st.index = memIndex sampleAfter.1 (defaultName []) :=
  replay_equivalence sampleEnv [] sampleOps sampleStore ∅ sampleAfter.1 sampleAfter.2
    (by decide) (by decide) (by decide) (by decide) (by decide) (by decide)

/-- C2, counterexample. A put of a JSON string of 10 MiB on a new collection
succeeds and its record round-trips through the JSON library, yet reopening
the collection fails: the line is too long for the scanner. -/
theorem replay_fails_on_long_line :
    ∃ s2 d2, puts sampleEnv [] [longOp] sampleStore ∅ = some (s2, d2) ∧
      roundTrips sampleEnv (putRecord (defaultName []) longOp) = true ∧
      reopen sampleEnv s2 d2 (defaultName []) = .error Error.scan := by
  have hname : defaultName [] = ascii "default" := rfl
  obtain ⟨s1, d1, st, ho, hlog⟩ :=
    LogIs_open sampleEnv sampleStore ∅ (defaultName []) (by decide) (by decide) (by decide)
  have hp := put_open sampleEnv longOp.clk sampleStore ∅ [] longOp.key longOp.value s1 d1 st ho
  obtain ⟨herr, hlog2, _⟩ :=
    put_LogIs_valid sampleEnv longOp.clk s1 d1 [] longOp.key longOp.value [] hlog longOp_valid
  rw [← hp] at herr hlog2
  refine ⟨(put sampleEnv longOp.clk sampleStore ∅ [] longOp.key longOp.value).s,
    (put sampleEnv longOp.clk sampleStore ∅ [] longOp.key longOp.value).d, ?_, ?_, ?_⟩
  · simp only [puts, herr, if_true]
  · rw [hname]; exact longOp_roundTrips
  · rw [List.nil_append] at hlog2
    apply reopen_tooLong sampleEnv _ _ _ _ hlog2 rfl
    rw [hname]
    exact longOp_tooLong

/-! ## Compaction -/

/-- C3, evaluated. After one put of `a = 1`, a compaction leaves the log
`+a=1`; the put of `b = 2` that follows succeeds, and the log then holds the
line `+b=2` alone: the new handle starts at offset 0, so the record is written
over the compacted one instead of after it. The index in memory still has
`a`; the index of the reopened collection does not. -/
theorem compact_then_put_overwrites :
    content onePutCompacted.2 (logPath (ascii "data") (ascii "default")) = ascii "+a=1\n" ∧
      putAfterCompact.err = none ∧
      content putAfterCompact.d (logPath (ascii "data") (ascii "default")) = ascii "+b=2\n" ∧
      ((memIndex putAfterCompact.s (ascii "default")).lookup (ascii "a")
        = some { Value := ascii "1" }) ∧
      (reopen sampleEnv putAfterCompact.s putAfterCompact.d (ascii "default")).toOption.map
        (fun st => st.index.lookup (ascii "a")) = some none := by
  decide

set_option maxRecDepth 100000 in
/-- C4, evaluated on the lines of `encoding/json`. With `k = 0` and a value
of 122 bytes for `a` compacted in that order of the map (the record of `a`,
221 bytes, then that of `k`, 100 bytes), the puts `k = 1` and `k = 2` succeed
and `get` returns `2`; their two lines, 202 bytes, are written over the start
of the record of `a`, whose last 19 bytes stay behind as a line that does not
decode, and the compacted record `k = 0` stays behind them as the last record
of `k`: after reopening, the index maps `k` to `0`. -/
theorem last_write_lost_after_compact :
    content goTwoKeys.2 (logPath (ascii "data") (ascii "default")) =
        goMarshal ⟨ascii "default", ascii "a", wideValue, 1762214402123456789, false⟩ ++ [10] ++
          goMarshal ⟨ascii "default", ascii "k", ascii "0", 1762214402123456789, false⟩ ++ [10] ∧
      (goMarshal ⟨ascii "default", ascii "a", wideValue, 1762214402123456789, false⟩).length
        = 221 ∧
      goMarshal ⟨ascii "default", ascii "k", ascii "0", 1762214402123456789, false⟩ =
        ascii ("\x7b\"collection\":\"default\",\"key\":\"k\",\"value\":0," ++
          "\"ts\":\"2025-11-04T00:00:02.123456789Z\",\"tombstone\":false\x7d") ∧
      goWrite1.err = none ∧ goWrite2.err = none ∧
      (get goEnv goWrite2.s goWrite2.d [] (ascii "k")).value = ascii "2" ∧
      (get goEnv goWrite2.s goWrite2.d [] (ascii "k")).found = true ∧
      content goWrite2.d (logPath (ascii "data") (ascii "default")) =
        goMarshal ⟨ascii "default", ascii "k", ascii "1", 1762214405123456789, false⟩ ++ [10] ++
          goMarshal ⟨ascii "default", ascii "k", ascii "2", 1762214409123456789, false⟩ ++ [10] ++
          ascii ",\"tombstone\":false\x7d\n" ++
          goMarshal ⟨ascii "default", ascii "k", ascii "0", 1762214402123456789, false⟩ ++ [10] ∧
      (reopen goEnv goWrite2.s goWrite2.d (ascii "default")).toOption.map
        (fun st => st.index.lookup (ascii "k")) = some (some { Value := ascii "0" }) := by
  decide

theorem compact_error (env : Env) (flt : CompactFault) (now fl : Time) (s : store) (d : Disk)
    (c : GoString) (e : Error) (h : openCollection env s d c = .error e) :
    compact env flt now fl s d c = (s, d) := by
  unfold compact
  rw [h]

/-- The collection after `compact`, at whatever step it stops: registered,
with the index it had when the call opened it. -/
theorem compact_index (env : Env) (flt : CompactFault) (now fl : Time) (s : store) (d : Disk)
    (c : GoString) (s1 : store) (d1 : Disk) (st : collectionState)
    (h : openCollection env s d c = .ok (s1, d1, st)) :
    ∃ st2, (compact env flt now fl s d c).1.cols.lookup c = some st2 ∧ st2.index = st.index := by
  have hl := (openCollection_lookup env s d c s1 d1 st h).1
  unfold compact
  rw [h]
  cases flt with
  | none => exact ⟨_, AList.lookup_insert _, rfl⟩
  | openTmp => exact ⟨st, hl, rfl⟩
  | writeTmp n => exact ⟨_, AList.lookup_insert _, rfl⟩
  | rename => exact ⟨st, hl, rfl⟩
  | reopen => exact ⟨_, AList.lookup_insert _, rfl⟩

theorem get_registered (env : Env) (s : store) (d : Disk) (c k : GoString)
    (st : collectionState) (h : s.cols.lookup (defaultName c) = some st) :
    (get env s d c k).value = ((st.index.lookup k).map entry.Value).getD [] ∧
      (get env s d c k).found = (st.index.lookup k).isSome := by
  simp only [get, openCollection_registered env s d _ st h]
  cases st.index.lookup k <;> exact ⟨rfl, rfl⟩

theorem get_opened (env : Env) (s : store) (d : Disk) (c k : GoString)
    (s1 : store) (d1 : Disk) (st : collectionState)
    (h : openCollection env s d (defaultName c) = .ok (s1, d1, st)) :
    (get env s d c k).value = ((st.index.lookup k).map entry.Value).getD [] ∧
      (get env s d c k).found = (st.index.lookup k).isSome := by
  simp only [get, h]
  cases st.index.lookup k <;> exact ⟨rfl, rfl⟩

/-- C5. Compaction preserves the visible state: for every store and disk,
every collection and every key, `get` returns the same value and the same
found flag right after `compact` (whatever step of it fails, if any) as right
before it. -/
theorem compact_preserves_get (env : Env) (flt : CompactFault) (now fl : Time) (s : store)
    (d : Disk) (c k : GoString) :
    (get env (compact env flt now fl s d (defaultName c)).1
        (compact env flt now fl s d (defaultName c)).2 c k).value = (get env s d c k).value ∧
      (get env (compact env flt now fl s d (defaultName c)).1
        (compact env flt now fl s d (defaultName c)).2 c k).found = (get env s d c k).found := by
  cases h : openCollection env s d (defaultName c) with
  | error e =>
    rw [compact_error env flt now fl s d _ e h]
    exact ⟨rfl, rfl⟩
  | ok r =>
    obtain ⟨s1, d1, st⟩ := r
    obtain ⟨st2, hl2, hi2⟩ := compact_index env flt now fl s d _ s1 d1 st h
    obtain ⟨a1, a2⟩ := get_registered env _ (compact env flt now fl s d (defaultName c)).2 c k st2 hl2
    obtain ⟨b1, b2⟩ := get_opened env s d c k s1 d1 st h
    rw [a1, a2, b1, b2, hi2]
    exact ⟨rfl, rfl⟩

theorem tmpPath_ne_logPath (dir c : GoString) : tmpPath dir c ≠ logPath dir c := by
  unfold tmpPath logPath filepathJoin
  intro h
  have h1 := List.append_cancel_left (List.append_cancel_left h)
  exact absurd h1 (by decide)

theorem compactRecords_keys (c : GoString) (now : Time) (index : GoMap entry) :
    (compactRecords c now index).map record.Key = index.keys := by
  simp [compactRecords, AList.keys, List.keys, List.map_map, Function.comp_def]

/-- C6. The log written by a successful `compact` (the collection opens and
no step fails) holds the lines of exactly one record per key of the index, in
the order of the map: the keys of the records are the keys of the index, each
once, no record is a tombstone, each carries the current value of its key;
and the line counter afterwards is the number of keys. -/
theorem compact_log (env : Env) (now fl : Time) (s : store) (d : Disk) (c : GoString)
    (s1 : store) (d1 : Disk) (st : collectionState)
    (h : openCollection env s d c = .ok (s1, d1, st)) :
    content (compact env CompactFault.none now fl s d c).2 (logPath s.dir c) =
        encodeLines env (compactRecords c now st.index) ∧
      (compactRecords c now st.index).map record.Key = st.index.keys ∧
      ((compactRecords c now st.index).map record.Key).Nodup ∧
      (∀ r ∈ compactRecords c now st.index,
        r.Tombstone = false ∧ st.index.lookup r.Key = some { Value := r.Value }) ∧
      ∃ st2, (compact env CompactFault.none now fl s d c).1.cols.lookup c = some st2 ∧
        st2.lines = st.index.keys.length ∧ st2.index = st.index := by
  refine ⟨?_, compactRecords_keys c now st.index, ?_, ?_, ?_⟩
  · unfold compact
    rw [h]
    exact content_insert _ _ _
  · rw [compactRecords_keys]
    exact st.index.keys_nodup
  · intro r hr
    unfold compactRecords at hr
    obtain ⟨p, hp, rfl⟩ := List.mem_map.1 hr
    refine ⟨rfl, ?_⟩
    have : p.2 ∈ st.index.lookup p.1 := AList.mem_lookup_iff.2 (by cases p; exact hp)
    exact this
  · unfold compact
    rw [h]
    exact ⟨_, AList.lookup_insert _, rfl, rfl⟩

theorem compact_log_witness :
    content (compact sampleEnv CompactFault.none 2000000000 2000000000 onePut.s onePut.d
        (ascii "default")).2 (logPath onePut.s.dir (ascii "default")) =
        encodeLines sampleEnv (compactRecords (ascii "default") 2000000000 onePutState.index) ∧
      (compactRecords (ascii "default") 2000000000 onePutState.index).map record.Key
        = onePutState.index.keys ∧
      ((compactRecords (ascii "default") 2000000000 onePutState.index).map record.Key).Nodup ∧
      (∀ r ∈ compactRecords (ascii "default") 2000000000 onePutState.index,
        r.Tombstone = false ∧ onePutState.index.lookup r.Key = some { Value := r.Value }) ∧
      ∃ st2, (compact sampleEnv CompactFault.none 2000000000 2000000000 onePut.s onePut.d
          (ascii "default")).1.cols.lookup (ascii "default") = some st2 ∧
        st2.lines = onePutState.index.keys.length ∧ st2.index = onePutState.index :=
  compact_log sampleEnv 2000000000 2000000000 onePut.s onePut.d (ascii "default")
    onePut.s onePut.d onePutState
    (openCollection_registered sampleEnv onePut.s onePut.d (ascii "default") onePutState
      (by decide))

/-- What `compact` leaves when creating the temporary file or renaming it
fails: the collection as it was opened and the log as it was. -/
theorem compact_abort (env : Env) (flt : CompactFault) (now fl : Time) (s : store) (d : Disk)
    (c : GoString) (s1 : store) (d1 : Disk) (st : collectionState)
    (h : openCollection env s d c = .ok (s1, d1, st))
    (hf : flt = CompactFault.openTmp ∨ flt = CompactFault.rename) :
    (compact env flt now fl s d c).1 = s1 ∧
      content (compact env flt now fl s d c).2 (logPath s.dir c) = content d1 (logPath s.dir c) := by
  rcases hf with rfl | rfl
  · unfold compact
    rw [h]
    exact ⟨rfl, rfl⟩
  · unfold compact
    rw [h]
    exact ⟨rfl, content_insert_ne _ _ _ _ (tmpPath_ne_logPath s.dir c).symm⟩

/-- C7, evaluated. When writing the temporary file fails at once, `compact`
goes on and renames the empty file over the log: the log of `onePut`, which
held the record of `a`, is empty afterwards. When reopening fails, the log
has been replaced by the compacted one and the handle of the collection is
closed. -/
theorem compact_failure_changes_log :
    content onePut.d (logPath (ascii "data") (ascii "default")) = ascii "+a=1\n" ∧
      content (compact sampleEnv (CompactFault.writeTmp 0) 2000000000 2000000000 onePut.s
        onePut.d (ascii "default")).2 (logPath (ascii "data") (ascii "default")) = [] ∧
      content sampleAfter.2 (logPath (ascii "data") (ascii "default")) = ascii "+a=1\n+a=2\n" ∧
      (sampleAfter.1.cols.lookup (ascii "default")).map (fun st => st.file.closed)
        = some false ∧
      content (compact sampleEnv CompactFault.reopen 5000000000 5000000000 sampleAfter.1
        sampleAfter.2 (ascii "default")).2 (logPath (ascii "data") (ascii "default"))
        = ascii "+a=2\n" ∧
      ((compact sampleEnv CompactFault.reopen 5000000000 5000000000 sampleAfter.1
        sampleAfter.2 (ascii "default")).1.cols.lookup (ascii "default")).map
          (fun st => st.file.closed) = some true := by
  decide

/-! ## Listing -/

/-- What the inner loop of `list` adds when no encoding fails: the items of
the keys, without the first `offset - skipped` of them, up to `limit - wrote`. -/
theorem listKeys_spec (env : Env) (limit offset : Int) (incl : Bool) (c : GoString)
    (index : GoMap entry) (ks : List GoString) (ls : ListState)
    (h : (listKeys env limit offset incl c index ks ls).2 = false) :
    (listKeys env limit offset incl c index ks ls).1.items =
        ls.items ++ (((ks.map (mkItem incl c index)).drop (offset.toNat - ls.skipped)).take
          (limit.toNat - ls.wrote)) ∧
      (listKeys env limit offset incl c index ks ls).1.wrote =
        ls.wrote + (((ks.map (mkItem incl c index)).drop (offset.toNat - ls.skipped)).take
          (limit.toNat - ls.wrote)).length ∧
      (listKeys env limit offset incl c index ks ls).1.skipped =
        ls.skipped + min ks.length (offset.toNat - ls.skipped) := by
  induction ks generalizing ls with
  | nil => simp [listKeys]
  | cons k ks ih =>
    unfold listKeys at h ⊢
    by_cases hs : (ls.skipped : Int) < offset
    · rw [if_pos hs] at h ⊢
      obtain ⟨h1, h2, h3⟩ := ih _ h
      have e : offset.toNat - ls.skipped = (offset.toNat - (ls.skipped + 1)) + 1 := by omega
      simp only [h1, h2, h3, List.map_cons, List.length_cons]
      rw [e, List.drop_succ_cons]
      refine ⟨rfl, rfl, ?_⟩
      omega
    · rw [if_neg hs] at h ⊢
      have e : offset.toNat - ls.skipped = 0 := by omega
      by_cases hw : (ls.wrote : Int) ≥ limit
      · rw [if_pos hw]
        have e2 : limit.toNat - ls.wrote = 0 := by omega
        simp [e, e2]
      · rw [if_neg hw] at h ⊢
        cases hE : env.Encode (mkItem incl c index k) with
        | none => simp only [hE] at h; exact absurd h (by simp)
        | some bs =>
          simp only [hE] at h ⊢
          obtain ⟨h1, h2, h3⟩ := ih _ h
          have e2 : limit.toNat - ls.wrote = (limit.toNat - (ls.wrote + 1)) + 1 := by omega
          simp only [h1, h2, h3, List.map_cons, List.length_cons]
          rw [e, e2]
          simp only [List.drop_zero, List.take_succ_cons, List.append_assoc, List.singleton_append,
            List.length_cons, Nat.zero_min, Nat.min_zero]
          refine ⟨trivial, ?_, trivial⟩
          omega

theorem take_drop_append {α : Type} (M A : Nat) (X Y : List α) :
    ((X ++ Y).drop A).take M =
      ((X.drop A).take M) ++
        ((Y.drop (A - min X.length A)).take (M - ((X.drop A).take M).length)) := by
  rw [List.drop_append_eq_append_drop, List.take_append_eq_append_take]
  have e1 : A - min X.length A = A - X.length := by omega
  have e2 : M - ((X.drop A).take M).length = M - (X.drop A).length := by
    rw [List.length_take]; omega
  rw [e1, e2]

/-- One turn of the outer loop of `list` on a collection that opens, when
`list` returns no error. -/
theorem listCols_step (env : Env) (limit offset : Int) (incl : Bool) (pre c : GoString)
    (cs : List GoString) (s : store) (d : Disk) (ls : ListState) (s1 : store) (d1 : Disk)
    (st : collectionState) (ho : openCollection env s d c = .ok (s1, d1, st))
    (h : (listCols env limit offset incl pre (c :: cs) s d ls).2.2.2 = false) :
    ∃ ls1, listKeys env limit offset incl c st.index (selectKeys pre st.index) ls = (ls1, false) ∧
      listCols env limit offset incl pre (c :: cs) s d ls =
        if (ls1.wrote : Int) ≥ limit then (s1, d1, ls1, false)
        else listCols env limit offset incl pre cs s1 d1 ls1 := by
  cases hk : listKeys env limit offset incl c st.index (selectKeys pre st.index) ls with
  | mk ls1 flag =>
    cases flag with
    | true =>
      simp only [listCols, ho, hk] at h
      exact absurd h (by simp)
    | false =>
      refine ⟨ls1, rfl, ?_⟩
      simp only [listCols, ho, hk]

theorem indexOf_opened (env : Env) (s : store) (d : Disk) (c : GoString) (s1 : store)
    (d1 : Disk) (st : collectionState) (ho : openCollection env s d c = .ok (s1, d1, st)) :
    indexOf env s d c = st.index := by
  simp only [indexOf, ho]

/-- The items after one collection and what is left of the limit and of the
offset for the collections that follow. -/
theorem listKeys_then (env : Env) (limit offset : Int) (incl : Bool) (pre c : GoString)
    (index : GoMap entry) (ls ls1 : ListState) (Y : List listItem)
    (hk : listKeys env limit offset incl c index (selectKeys pre index) ls = (ls1, false)) :
    ls.items ++ ((collectionItems incl pre c index ++ Y).drop (offset.toNat - ls.skipped)).take
        (limit.toNat - ls.wrote) =
      ls1.items ++ (Y.drop (offset.toNat - ls1.skipped)).take (limit.toNat - ls1.wrote) := by
  have hsp := listKeys_spec env limit offset incl c index (selectKeys pre index) ls
    (by rw [hk])
  rw [hk] at hsp
  obtain ⟨h1, h2, h3⟩ := hsp
  simp only at h1 h2 h3
  rw [take_drop_append, h1, List.append_assoc]
  have e1 : offset.toNat - ls1.skipped =
      offset.toNat - ls.skipped
        - min (collectionItems incl pre c index).length (offset.toNat - ls.skipped) := by
    rw [h3]; simp only [collectionItems, List.length_map]; omega
  have e2 : limit.toNat - ls1.wrote =
      limit.toNat - ls.wrote
        - (((collectionItems incl pre c index).drop (offset.toNat - ls.skipped)).take
            (limit.toNat - ls.wrote)).length := by
    rw [h2]; simp only [collectionItems]; omega
  rw [e1, e2]
  rfl

/-- The outer loop of `list` over collections that are all registered, when
`list` returns no error: the store and disk stay as they are and the items
added are those of the reference definition. -/
theorem listCols_registered (env : Env) (limit offset : Int) (incl : Bool) (pre : GoString)
    (cs : List GoString) (s : store) (d : Disk) (ls : ListState)
    (hreg : ∀ c ∈ cs, ∃ st, s.cols.lookup c = some st)
    (h : (listCols env limit offset incl pre cs s d ls).2.2.2 = false) :
    (listCols env limit offset incl pre cs s d ls).1 = s ∧
      (listCols env limit offset incl pre cs s d ls).2.1 = d ∧
      (listCols env limit offset incl pre cs s d ls).2.2.1.items =
        ls.items ++ ((cs.flatMap (fun c => collectionItems incl pre c (indexOf env s d c))).drop
          (offset.toNat - ls.skipped)).take (limit.toNat - ls.wrote) := by
  induction cs generalizing ls with
  | nil => simp [listCols]
  | cons c cs ih =>
    obtain ⟨st, hl⟩ := hreg c (by simp)
    have ho := openCollection_registered env s d c st hl
    obtain ⟨ls1, hk, hstep⟩ := listCols_step env limit offset incl pre c cs s d ls s d st ho h
    have hthen := listKeys_then env limit offset incl pre c st.index ls ls1
      (cs.flatMap (fun c => collectionItems incl pre c (indexOf env s d c))) hk
    rw [List.flatMap_cons, indexOf_opened env s d c s d st ho, hthen]
    rw [hstep] at h ⊢
    by_cases hw : (ls1.wrote : Int) ≥ limit
    · rw [if_pos hw]
      have e : limit.toNat - ls1.wrote = 0 := by omega
      simp [e]
    · rw [if_neg hw] at h ⊢
      exact ih ls1 (fun c hc => hreg c (by simp [hc])) h

/-- The outer loop of `list` over one named collection, when `list` returns
no error. -/
theorem listCols_single (env : Env) (limit offset : Int) (incl : Bool) (pre c : GoString)
    (s : store) (d : Disk) (ls : ListState)
    (h : (listCols env limit offset incl pre [c] s d ls).2.2.2 = false) :
    (listCols env limit offset incl pre [c] s d ls).2.2.1.items =
      ls.items ++ ((collectionItems incl pre c (indexOf env s d c)).drop
        (offset.toNat - ls.skipped)).take (limit.toNat - ls.wrote) := by
  cases ho : openCollection env s d c with
  | error e =>
    have : collectionItems incl pre c (indexOf env s d c) = [] := by
      simp only [indexOf, ho]; rfl
    simp [listCols, ho, this]
  | ok r =>
    obtain ⟨s1, d1, st⟩ := r
    obtain ⟨ls1, hk, hstep⟩ := listCols_step env limit offset incl pre c [] s d ls s1 d1 st ho h
    have hthen := listKeys_then env limit offset incl pre c st.index ls ls1 [] hk
    simp only [List.append_nil, List.drop_nil, List.take_nil] at hthen
    rw [indexOf_opened env s d c s1 d1 st ho, hthen, hstep]
    by_cases hw : (ls1.wrote : Int) ≥ limit
    · rw [if_pos hw]
    · rw [if_neg hw]; rfl

theorem list_proj (env : Env) (s : store) (d : Disk) (collection pre : GoString)
    (limit offset : Int) (incl : Bool) :
    (list env s d collection pre limit offset incl).err =
        (listCols env (effLimit limit) offset incl pre (listNames s collection) s d
          { out := ascii "[", items := [], wrote := 0, first := true, skipped := 0 }).2.2.2 ∧
      (list env s d collection pre limit offset incl).items =
        (listCols env (effLimit limit) offset incl pre (listNames s collection) s d
          { out := ascii "[", items := [], wrote := 0, first := true, skipped := 0 }).2.2.1.items := by
  simp only [list]
  cases listCols env (effLimit limit) offset incl pre (listNames s collection) s d
      { out := ascii "[", items := [], wrote := 0, first := true, skipped := 0 } with
  | mk s1 r1 =>
    obtain ⟨d1, ls, flag⟩ := r1
    cases flag <;> exact ⟨rfl, rfl⟩

theorem mem_sortStrings (l : List GoString) (a : GoString) : a ∈ sortStrings l ↔ a ∈ l :=
  (List.perm_insertionSort _ l).mem_iff

theorem listNames_registered (s : store) (c : GoString) (hc : c ∈ listNames s []) :
    ∃ st, s.cols.lookup c = some st := by
  have h1 : c ∈ s.cols.keys := by
    simpa [listNames, mem_sortStrings] using hc
  have h2 : (s.cols.lookup c).isSome := AList.lookup_isSome.2 (AList.mem_keys.2 h1)
  exact Option.isSome_iff_exists.1 h2

/-- The items of a call of `list` that returns no error. -/
theorem list_items (env : Env) (s : store) (d : Disk) (collection pre : GoString)
    (limit offset : Int) (incl : Bool)
    (h : (list env s d collection pre limit offset incl).err = false) :
    (list env s d collection pre limit offset incl).items =
      listSpec env s d collection pre limit offset incl := by
  obtain ⟨he, hi⟩ := list_proj env s d collection pre limit offset incl
  rw [he] at h
  rw [hi]
  unfold listSpec allItems
  by_cases hc : collection = []
  · subst hc
    have := (listCols_registered env (effLimit limit) offset incl pre (listNames s []) s d _
      (fun c hc => listNames_registered s c hc) h).2.2
    simpa using this
  · have hn : listNames s collection = [collection] := by
      simp [listNames, hc]
    rw [hn] at h ⊢
    have := listCols_single env (effLimit limit) offset incl pre collection s d _ h
    simpa using this

/-! ### The order of the keys -/

theorem strLE_total (a b : GoString) : strLE a b = true ∨ strLE b a = true := by
  induction a generalizing b with
  | nil => left; cases b <;> rfl
  | cons x xs ih =>
    cases b with
    | nil => right; rfl
    | cons y ys =>
      unfold strLE
      rcases Nat.lt_trichotomy x y with h | h | h
      · left; simp [h]
      · subst h; simpa using ih ys
      · right; simp [h]

theorem strLE_trans (a b c : GoString) (h1 : strLE a b = true) (h2 : strLE b c = true) :
    strLE a c = true := by
  induction a generalizing b c with
  | nil => cases c <;> rfl
  | cons x xs ih =>
    cases b with
    | nil => simp [strLE] at h1
    | cons y ys =>
      cases c with
      | nil => simp [strLE] at h2
      | cons z zs =>
        unfold strLE at h1 h2 ⊢
        by_cases hxy : x < y
        · by_cases hyz : y < z
          · have : x < z := Nat.lt_trans hxy hyz
            simp [this]
          · by_cases hzy : z < y
            · simp [hyz, hzy] at h2
            · have : y = z := by omega
              subst this
              simp [hxy]
        · by_cases hyx : y < x
          · simp [hxy, hyx] at h1
          · have hxy2 : x = y := by omega
            subst hxy2
            simp only [hxy, if_false] at h1
            by_cases hyz : x < z
            · simp [hyz]
            · by_cases hzy : z < x
              · simp [hyz, hzy] at h2
              · simp only [hyz, hzy, if_false] at h2 ⊢
                exact ih ys zs h1 h2

/-- The keys `list` walks in a collection are in ascending order, without
repetition, and are the keys of the index that start with the prefix (all
keys when the prefix is empty). -/
theorem selectKeys_spec (pre : GoString) (index : GoMap entry) :
    (selectKeys pre index).Sorted (fun a b => strLE a b = true) ∧
      (selectKeys pre index).Nodup ∧
      ∀ k, k ∈ selectKeys pre index ↔ k ∈ index.keys ∧ (pre = [] ∨ pre <+: k) := by
  haveI : IsTotal GoString (fun a b => strLE a b = true) := ⟨strLE_total⟩
  haveI : IsTrans GoString (fun a b => strLE a b = true) := ⟨strLE_trans⟩
  refine ⟨List.sorted_insertionSort _ _, ?_, ?_⟩
  · exact (List.perm_insertionSort _ _).nodup_iff.2 (index.keys_nodup.filter _)
  · intro k
    unfold selectKeys
    rw [mem_sortStrings, List.mem_filter]
    simp [hasPrefix, List.isPrefixOf_iff_prefix]

theorem collectionItems_keys (incl : Bool) (pre c : GoString) (index : GoMap entry) :
    (collectionItems incl pre c index).map listItem.Key = selectKeys pre index := by
  simp [collectionItems, mkItem, List.map_map, Function.comp_def]

/-- C8. `list` equals its reference definition: the items emitted by a call
that returns no error are `take(limit', drop(offset', L))`, where `L` is the
concatenation over the selected collections (the named one, or all of them
in sorted name order) of the items of the collection, limit and offset being
counted across collections; and the items of a collection are its keys that
start with the prefix (all keys when the prefix is empty), in ascending
bytewise order, each with the value the index holds for it. -/
theorem list_refines_listSpec (env : Env) (s : store) (d : Disk) (collection pre : GoString)
    (limit offset : Int) (includeCollection : Bool)
    (h : (list env s d collection pre limit offset includeCollection).err = false) :
    (list env s d collection pre limit offset includeCollection).items =
        listSpec env s d collection pre limit offset includeCollection ∧
      ∀ c, (((collectionItems includeCollection pre c (indexOf env s d c)).map
            listItem.Key).Sorted (fun a b => strLE a b = true)) ∧
        (∀ k, k ∈ (collectionItems includeCollection pre c (indexOf env s d c)).map listItem.Key ↔
          k ∈ (indexOf env s d c).keys ∧ (pre = [] ∨ pre <+: k)) ∧
        ∀ it ∈ collectionItems includeCollection pre c (indexOf env s d c),
          (indexOf env s d c).lookup it.Key = some { Value := it.Value } := by
  refine ⟨list_items env s d collection pre limit offset includeCollection h, fun c => ?_⟩
  obtain ⟨h1, _, h3⟩ := selectKeys_spec pre (indexOf env s d c)
  rw [collectionItems_keys]
  refine ⟨h1, h3, ?_⟩
  intro it hit
  obtain ⟨k, hk, rfl⟩ := List.mem_map.1 hit
  have hmem : k ∈ (indexOf env s d c) := AList.mem_keys.2 ((h3 k).1 hk).1
  obtain ⟨e, he⟩ := Option.isSome_iff_exists.1 (AList.lookup_isSome.2 hmem)
  simp [mkItem, he]

theorem list_refines_listSpec_witness :
    (list sampleEnv listSample.s listSample.d [] [] 2 1 true).items =
        listSpec sampleEnv listSample.s listSample.d [] [] 2 1 true ∧
      ∀ c, (((collectionItems true [] c (indexOf sampleEnv listSample.s listSample.d c)).map
            listItem.Key).Sorted (fun a b => strLE a b = true)) ∧
        (∀ k, k ∈ (collectionItems true [] c
            (indexOf sampleEnv listSample.s listSample.d c)).map listItem.Key ↔
          k ∈ (indexOf sampleEnv listSample.s listSample.d c).keys ∧
            (([] : GoString) = [] ∨ [] <+: k)) ∧
        ∀ it ∈ collectionItems true [] c (indexOf sampleEnv listSample.s listSample.d c),
          (indexOf sampleEnv listSample.s listSample.d c).lookup it.Key
            = some { Value := it.Value } :=
  list_refines_listSpec sampleEnv listSample.s listSample.d [] [] 2 1 true (by decide)

/-- The pages of `take(l, drop(i*l, L))` for `i < n` make up the first `n*l`
elements of `L`. -/
theorem pages_take {α : Type} (l : Nat) (L : List α) (n : Nat) :
    (List.range n).flatMap (fun i => (L.drop (i * l)).take l) = L.take (n * l) := by
  induction n with
  | zero => simp
  | succ n ih =>
    rw [List.range_succ, List.flatMap_append, ih]
    simp only [List.flatMap_cons, List.flatMap_nil, List.append_nil]
    rw [Nat.succ_mul, List.take_add]

theorem effLimit_of_range (limit : Int) (h1 : 1 ≤ limit) (h2 : limit ≤ 10000) :
    effLimit limit = limit := by
  unfold effLimit
  simp only
  rw [if_neg (by omega), if_neg (by omega)]

theorem effLimit_bounds (limit : Int) : 1 ≤ effLimit limit ∧ effLimit limit ≤ 10000 := by
  unfold effLimit
  simp only
  split <;> split <;> omega

/-- C9 (amended). Pagination partitions the filtered items: for a fixed
store and prefix and a limit between 1 and 10000, the items of the calls of
`list` with the offsets 0, limit, 2*limit, ... (each returning no error), put
one after the other, are the full sequence of items once the offsets pass
its length; and in one named collection no key occurs twice in it. -/
theorem pages_partition (env : Env) (s : store) (d : Disk) (collection pre : GoString)
    (limit : Int) (includeCollection : Bool) (n : Nat) (h1 : 1 ≤ limit) (h2 : limit ≤ 10000)
    (hn : (allItems env s d collection pre includeCollection).length ≤ n * limit.toNat)
    (hok : ∀ i < n,
      (list env s d collection pre limit ((i : Int) * limit) includeCollection).err = false) :
    (List.range n).flatMap (fun i =>
        (list env s d collection pre limit ((i : Int) * limit) includeCollection).items) =
        allItems env s d collection pre includeCollection ∧
      (collection ≠ [] →
        ((allItems env s d collection pre includeCollection).map listItem.Key).Nodup) := by
  constructor
  · have hpage : ∀ i ∈ List.range n,
        (list env s d collection pre limit ((i : Int) * limit) includeCollection).items =
          ((allItems env s d collection pre includeCollection).drop (i * limit.toNat)).take
            limit.toNat := by
      intro i hi
      rw [list_items env s d collection pre limit _ includeCollection
        (hok i (List.mem_range.1 hi))]
      unfold listSpec
      rw [effLimit_of_range limit h1 h2]
      have : ((i : Int) * limit).toNat = i * limit.toNat := by
        have hl : (limit.toNat : Int) = limit := Int.toNat_of_nonneg (by omega)
        rw [← Int.toNat_ofNat (i * limit.toNat)]
        congr 1
        push_cast
        rw [hl]
      rw [this]
    rw [List.flatMap_congr hpage, pages_take, List.take_of_length_le hn]
  · intro hc
    have hn : listNames s collection = [collection] := by simp [listNames, hc]
    unfold allItems
    rw [hn]
    simp only [List.flatMap_cons, List.flatMap_nil, List.append_nil, collectionItems_keys]
    exact (selectKeys_spec pre _).2.1

theorem pages_partition_witness :
    (List.range 2).flatMap (fun i =>
        (list sampleEnv listSample.s listSample.d [] [] 2 ((i : Int) * 2) true).items) =
        allItems sampleEnv listSample.s listSample.d [] [] true ∧
      (([] : GoString) ≠ [] →
        ((allItems sampleEnv listSample.s listSample.d [] [] true).map listItem.Key).Nodup) :=
  pages_partition sampleEnv listSample.s listSample.d [] [] 2 true 2 (by decide) (by decide)
    (by decide) (by decide)

theorem listKeys_noerr (env : Env) (limit offset : Int) (incl : Bool) (c : GoString)
    (index : GoMap entry) (ks : List GoString) (ls : ListState)
    (hE : ∀ it, (env.Encode it).isSome = true) :
    (listKeys env limit offset incl c index ks ls).2 = false := by
  induction ks generalizing ls with
  | nil => rfl
  | cons k ks ih =>
    unfold listKeys
    split
    · exact ih _
    · split
      · rfl
      · obtain ⟨bs, hbs⟩ := Option.isSome_iff_exists.1 (hE (mkItem incl c index k))
        simp only [hbs]
        exact ih _

theorem listCols_noerr (env : Env) (limit offset : Int) (incl : Bool) (pre : GoString)
    (cs : List GoString) (s : store) (d : Disk) (ls : ListState)
    (hE : ∀ it, (env.Encode it).isSome = true) :
    (listCols env limit offset incl pre cs s d ls).2.2.2 = false := by
  induction cs generalizing s d ls with
  | nil => rfl
  | cons c cs ih =>
    unfold listCols
    cases ho : openCollection env s d c with
    | error e => exact ih _ _ _
    | ok r =>
      obtain ⟨s1, d1, st⟩ := r
      simp only
      have hk := listKeys_noerr env limit offset incl c st.index (selectKeys pre st.index) ls hE
      cases hr : listKeys env limit offset incl c st.index (selectKeys pre st.index) ls with
      | mk ls1 flag =>
        rw [hr] at hk
        simp only at hk
        subst hk
        simp only
        split
        · rfl
        · exact ih _ _ _

theorem list_noerr (env : Env) (s : store) (d : Disk) (collection pre : GoString)
    (limit offset : Int) (incl : Bool) (hE : ∀ it, (env.Encode it).isSome = true) :
    (list env s d collection pre limit offset incl).err = false := by
  rw [(list_proj env s d collection pre limit offset incl).1]
  exact listCols_noerr env _ _ _ _ _ _ _ _ hE

theorem bigIndex_keys_length : bigIndex.keys.length = 10001 := by
  unfold AList.keys List.keys bigIndex
  rw [List.length_map, List.length_map, List.length_range]

theorem bigStore_allItems_length :
    (allItems sampleEnv bigStore ∅ (ascii "default") [] false).length = 10001 := by
  have hl : bigStore.cols.lookup (ascii "default") = some bigState := AList.lookup_insert _
  have hi : indexOf sampleEnv bigStore ∅ (ascii "default") = bigState.index :=
    indexOf_opened sampleEnv bigStore ∅ (ascii "default") bigStore ∅ bigState
      (openCollection_registered sampleEnv bigStore ∅ (ascii "default") bigState hl)
  have hb : bigState.index = bigIndex := rfl
  rw [hb] at hi
  have hn : listNames bigStore (ascii "default") = [ascii "default"] := by
    unfold listNames
    rw [if_pos (by decide)]
  unfold allItems
  rw [hn, List.flatMap_cons, List.flatMap_nil, List.append_nil, hi]
  unfold collectionItems selectKeys sortStrings
  rw [List.length_map, List.length_insertionSort]
  have hf : bigIndex.keys.filter (fun k => decide (([] : GoString) = []) || hasPrefix k []) =
      bigIndex.keys := List.filter_eq_self.2 (fun _ _ => rfl)
  rw [hf, bigIndex_keys_length]

/-- C9, counterexample. With the limit 10001 on a collection of 10001 keys,
the pages at the offsets 0, 10001, 2*10001, ... never make up the full
sequence: every call emits at most 10000 items, so the first page stops one
key short and the second starts after it. -/
theorem pages_leave_gap :
    ¬ ∃ n : Nat, (List.range n).flatMap (fun i =>
        (list sampleEnv bigStore ∅ (ascii "default") [] 10001 ((i : Int) * 10001) false).items) =
      allItems sampleEnv bigStore ∅ (ascii "default") [] false := by
  rintro ⟨n, hn⟩
  have hE : ∀ it, (sampleEnv.Encode it).isSome = true := fun _ => rfl
  have hpage : ∀ i : Nat,
      (list sampleEnv bigStore ∅ (ascii "default") [] 10001 ((i : Int) * 10001) false).items =
        ((allItems sampleEnv bigStore ∅ (ascii "default") [] false).drop (i * 10001)).take
          10000 := by
    intro i
    rw [list_items _ _ _ _ _ _ _ _ (list_noerr _ _ _ _ _ _ _ _ hE)]
    unfold listSpec
    have e1 : (effLimit 10001).toNat = 10000 := by decide
    have e2 : ((i : Int) * 10001).toNat = i * 10001 := by
      rw [← Int.toNat_ofNat (i * 10001)]
      congr 1
    rw [e1, e2]
  have hlen : ∀ m : Nat, ((List.range m).flatMap (fun i =>
      (list sampleEnv bigStore ∅ (ascii "default") [] 10001 ((i : Int) * 10001) false).items)).length
        ≤ 10000 := by
    intro m
    induction m with
    | zero => simp
    | succ m ih =>
      rw [List.range_succ, List.flatMap_append, List.length_append]
      simp only [List.flatMap_cons, List.flatMap_nil, List.append_nil]
      rw [hpage m, List.length_take, List.length_drop, bigStore_allItems_length]
      cases m with
      | zero => simp
      | succ k =>
        have : 10001 - (k + 1) * 10001 = 0 := by
          have : 10001 ≤ (k + 1) * 10001 := Nat.le_mul_of_pos_left _ (Nat.succ_pos k)
          omega
        rw [this]
        simpa using ih
  have := hlen n
  rw [hn, bigStore_allItems_length] at this
  omega

/-! ### The cap on the limit and the floor of the offset -/

theorem listKeys_bound (env : Env) (limit offset : Int) (incl : Bool) (c : GoString)
    (index : GoMap entry) (ks : List GoString) (ls : ListState)
    (h : ls.items.length = ls.wrote ∧ ls.wrote ≤ limit.toNat) :
    (listKeys env limit offset incl c index ks ls).1.items.length =
        (listKeys env limit offset incl c index ks ls).1.wrote ∧
      (listKeys env limit offset incl c index ks ls).1.wrote ≤ limit.toNat := by
  induction ks generalizing ls with
  | nil => exact h
  | cons k ks ih =>
    unfold listKeys
    split
    · exact ih _ h
    · split
      · exact h
      · rename_i hw
        cases hE : env.Encode (mkItem incl c index k) with
        | none => simp only [hE]; exact h
        | some bs =>
          simp only [hE]
          apply ih
          simp only [List.length_append, List.length_cons, List.length_nil]
          omega

theorem listCols_bound (env : Env) (limit offset : Int) (incl : Bool) (pre : GoString)
    (cs : List GoString) (s : store) (d : Disk) (ls : ListState)
    (h : ls.items.length = ls.wrote ∧ ls.wrote ≤ limit.toNat) :
    (listCols env limit offset incl pre cs s d ls).2.2.1.items.length ≤ limit.toNat := by
  induction cs generalizing s d ls with
  | nil => exact h.1 ▸ h.2
  | cons c cs ih =>
    unfold listCols
    cases ho : openCollection env s d c with
    | error e => exact ih _ _ _ h
    | ok r =>
      obtain ⟨s1, d1, st⟩ := r
      simp only
      have hk := listKeys_bound env limit offset incl c st.index (selectKeys pre st.index) ls h
      cases hr : listKeys env limit offset incl c st.index (selectKeys pre st.index) ls with
      | mk ls1 flag =>
        rw [hr] at hk
        simp only at hk
        cases flag with
        | true => exact hk.1 ▸ hk.2
        | false =>
          simp only
          split
          · exact hk.1 ▸ hk.2
          · exact ih _ _ _ hk

theorem listKeys_offset_neg (env : Env) (limit offset : Int) (incl : Bool) (c : GoString)
    (index : GoMap entry) (ks : List GoString) (ls : ListState) (h : offset < 0) :
    listKeys env limit offset incl c index ks ls = listKeys env limit 0 incl c index ks ls := by
  induction ks generalizing ls with
  | nil => rfl
  | cons k ks ih =>
    unfold listKeys
    have h1 : ¬ ((ls.skipped : Int) < offset) := by omega
    have h2 : ¬ ((ls.skipped : Int) < 0) := by omega
    rw [if_neg h1, if_neg h2]
    split
    · rfl
    · cases hE : env.Encode (mkItem incl c index k) with
      | none => simp only [hE]
      | some bs => simp only [hE]; exact ih _

theorem listCols_offset_neg (env : Env) (limit offset : Int) (incl : Bool) (pre : GoString)
    (cs : List GoString) (s : store) (d : Disk) (ls : ListState) (h : offset < 0) :
    listCols env limit offset incl pre cs s d ls = listCols env limit 0 incl pre cs s d ls := by
  induction cs generalizing s d ls with
  | nil => rfl
  | cons c cs ih =>
    unfold listCols
    cases ho : openCollection env s d c with
    | error e => exact ih _ _ _
    | ok r =>
      obtain ⟨s1, d1, st⟩ := r
      simp only
      rw [listKeys_offset_neg env limit offset incl c st.index _ ls h]
      cases hr : listKeys env limit 0 incl c st.index (selectKeys pre st.index) ls with
      | mk ls1 flag =>
        cases flag with
        | true => rfl
        | false =>
          simp only
          split
          · rfl
          · exact ih _ _ _

/-- C10. For every store and every limit and offset the caller gives,
`list` emits at most 10000 items, and a call with a negative offset does
exactly what the call with offset 0 does. -/
theorem list_caps_limit_floors_offset (env : Env) (s : store) (d : Disk)
    (collection pre : GoString) (limit offset : Int) (includeCollection : Bool) :
    (list env s d collection pre limit offset includeCollection).items.length ≤ 10000 ∧
      (offset < 0 →
        list env s d collection pre limit offset includeCollection =
          list env s d collection pre limit 0 includeCollection) := by
  constructor
  · rw [(list_proj env s d collection pre limit offset includeCollection).2]
    have hb := listCols_bound env (effLimit limit) offset includeCollection pre
      (listNames s collection) s d
      { out := ascii "[", items := [], wrote := 0, first := true, skipped := 0 }
      ⟨rfl, Nat.zero_le _⟩
    have := (effLimit_bounds limit).2
    omega
  · intro h
    unfold list
    simp only
    rw [listCols_offset_neg env (effLimit limit) offset includeCollection pre _ s d _ h]

theorem list_caps_limit_floors_offset_witness :
    (-5 : Int) < 0 ∧
      (list sampleEnv listSample.s listSample.d [] [] 1000000 (-5) true).items.length ≤ 10000 ∧
      list sampleEnv listSample.s listSample.d [] [] 1000000 (-5) true =
        list sampleEnv listSample.s listSample.d [] [] 1000000 0 true :=
  ⟨by decide,
    (list_caps_limit_floors_offset sampleEnv listSample.s listSample.d [] [] 1000000 (-5) true).1,
    (list_caps_limit_floors_offset sampleEnv listSample.s listSample.d [] [] 1000000 (-5) true).2
      (by decide)⟩

/-- Last record wins for `openCollection` itself: a collection that is not
registered, whose log the operating system opens and has no line too long
for the scanner, opens with the index that the decoded lines of its log
determine. -/
theorem openCollection_last_record_wins (env : Env) (s : store) (d : Disk) (name : GoString)
    (h : s.cols.lookup name = none) (hof : env.OpenFile (logPath s.dir name) = OpenFault.none)
    (hlen : tooLong (content d (logPath s.dir name)) = false) :
    ∃ s1 d1 st, openCollection env s d name = .ok (s1, d1, st) ∧
      ∀ k, st.index.lookup k =
        lastWins (decoded env (tokens (content d (logPath s.dir name)))) k := by
  obtain ⟨d1, st, ho, _, _, _, _, hi⟩ := openCollection_new env s d name h hof hlen
  refine ⟨_, d1, st, ho, fun k => ?_⟩
  rw [hi, scanLoop_lookup, lastWins]
  cases ((decoded env (tokens (content d (logPath s.dir name)))).filter
    (fun r => decide (r.Key = k))).getLast? <;> simp

/-- Where a compaction without fault leaves the handle of the log: at
offset 0 of a log that holds the lines of the compacted records. -/
theorem compact_handle_at_start (env : Env) (now fl : Time) (s : store) (d : Disk)
    (c : GoString) (s1 : store) (d1 : Disk) (st : collectionState)
    (h : openCollection env s d c = .ok (s1, d1, st)) :
    ∃ st2, (compact env CompactFault.none now fl s d c).1.cols.lookup c = some st2 ∧
      st2.file.pos = 0 ∧ st2.file.path = logPath s.dir c ∧
      (content (compact env CompactFault.none now fl s d c).2 (logPath s.dir c)).length =
        (encodeLines env (compactRecords c now st.index)).length := by
  unfold compact
  rw [h]
  exact ⟨_, AList.lookup_insert _, rfl, rfl, congrArg List.length (content_insert _ _ _)⟩

/-! ## What a successful put leaves in the index -/

theorem putLocked_ok (clk : PutClock) (b key value : GoString) (st : collectionState) (d : Disk)
    (h : (putLocked clk b key value st d).2.2.1 = none) :
    (putLocked clk b key value st d).2.1.index = st.index.insert key { Value := value } ∧
      (putLocked clk b key value st d).2.1.lines = st.lines + 1 := by
  unfold putLocked at h ⊢
  rcases h1 : Writer.Write d st.file st.writer b with ⟨d2, f2, w2, e2⟩
  rw [h1] at h
  cases e2 with
  | true => exact absurd h (by simp)
  | false =>
    rcases h2 : Writer.Write d2 f2 w2 [10] with ⟨d3, f3, w3, e3⟩
    simp only [h2] at h ⊢
    cases e3 with
    | true => exact absurd h (by simp)
    | false =>
      simp only
      split <;> exact ⟨rfl, rfl⟩

theorem put_ok_index (env : Env) (clk : PutClock) (s : store) (d : Disk) (c key value : GoString)
    (h : (put env clk s d c key value).err = none) :
    ∃ st, (put env clk s d c key value).s.cols.lookup (defaultName c) = some st ∧
      st.index.lookup key = some { Value := value } := by
  unfold put at h ⊢
  simp only at h ⊢
  cases ho : openCollection env s d (defaultName c) with
  | error e => rw [ho] at h; exact absurd h (by simp)
  | ok r =>
    obtain ⟨s1, d1, st⟩ := r
    rw [ho] at h
    simp only at h ⊢
    by_cases hv : env.Valid value = true
    · simp only [hv, Bool.not_true, Bool.false_eq_true, if_false] at h ⊢
      have hp := putLocked_ok clk (env.Marshal
        { Collection := defaultName c, Key := key, Value := value, TS := clk.ts,
          Tombstone := false }) key value st d1 h
      refine ⟨_, AList.lookup_insert _, ?_⟩
      rw [hp.1]
      exact AList.lookup_insert _
    · simp only [hv, Bool.not_false, if_true] at h
      exact absurd h (by simp)

/-- Last write wins in memory: after two successful puts of the same key,
`get` returns the second value, found. -/
theorem put_put_get (env : Env) (clk1 clk2 : PutClock) (s : store) (d : Disk)
    (c k v1 v2 : GoString)
    (_h1 : (put env clk1 s d c k v1).err = none)
    (h2 : (put env clk2 (put env clk1 s d c k v1).s (put env clk1 s d c k v1).d c k v2).err = none) :
    (get env (put env clk2 (put env clk1 s d c k v1).s (put env clk1 s d c k v1).d c k v2).s
        (put env clk2 (put env clk1 s d c k v1).s (put env clk1 s d c k v1).d c k v2).d c k).value
        = v2 ∧
      (get env (put env clk2 (put env clk1 s d c k v1).s (put env clk1 s d c k v1).d c k v2).s
        (put env clk2 (put env clk1 s d c k v1).s (put env clk1 s d c k v1).d c k v2).d c k).found
        = true := by
  obtain ⟨st, hl, hi⟩ := put_ok_index env clk2 _ _ c k v2 h2
  obtain ⟨a, b⟩ := get_registered env _
    (put env clk2 (put env clk1 s d c k v1).s (put env clk1 s d c k v1).d c k v2).d c k st hl
  rw [a, b, hi]
  exact ⟨rfl, rfl⟩

/-! ## The default collection -/

/-- C15. An empty collection name stands for `default`: `put` with the empty
name has the same outcome (store, disk, error, launch of a compaction) as
`put` with the name `default`, and `get` with the empty name has the same
outcome as `get` with the name `default`. -/
theorem empty_name_is_default (env : Env) (clk : PutClock) (s : store) (d : Disk)
    (key value : GoString) :
    put env clk s d [] key value = put env clk s d (ascii "default") key value ∧
      get env s d [] key = get env s d (ascii "default") key := by
  have h1 : defaultName [] = ascii "default" := rfl
  have h2 : defaultName (ascii "default") = ascii "default" := by decide
  constructor
  · simp only [put, h1, h2]
  · simp only [get, h1, h2]

/-! ## The compaction trigger -/

theorem putLocked_launch (clk : PutClock) (b key value : GoString) (st : collectionState)
    (d : Disk) (h : (putLocked clk b key value st d).2.2.1 = none) :
    (putLocked clk b key value st d).2.2.2 =
      decide ((putLocked clk b key value st d).2.1.lines > 1000 ∧
        (putLocked clk b key value st d).2.1.lines >
          2 * (putLocked clk b key value st d).2.1.index.keys.length) := by
  unfold putLocked at h ⊢
  rcases h1 : Writer.Write d st.file st.writer b with ⟨d2, f2, w2, e2⟩
  rw [h1] at h
  cases e2 with
  | true => exact absurd h (by simp)
  | false =>
    rcases h2 : Writer.Write d2 f2 w2 [10] with ⟨d3, f3, w3, e3⟩
    simp only [h2] at h ⊢
    cases e3 with
    | true => exact absurd h (by simp)
    | false =>
      simp only
      split <;> rfl

/-- What a successful `put` is made of: the collection opens, the value is
valid and the part under the lock returns no error; the collection is then
registered in the state that part leaves it in. -/
theorem put_ok_parts (env : Env) (clk : PutClock) (s : store) (d : Disk)
    (c key value : GoString) (h : (put env clk s d c key value).err = none) :
    ∃ s1 d1 st, openCollection env s d (defaultName c) = .ok (s1, d1, st) ∧
      env.Valid value = true ∧
      (putLocked clk (env.Marshal
        { Collection := defaultName c, Key := key, Value := value, TS := clk.ts,
          Tombstone := false }) key value st d1).2.2.1 = none ∧
      put env clk s d c key value =
        { s := { s1 with cols := s1.cols.insert (defaultName c) (putLocked clk (env.Marshal
            { Collection := defaultName c, Key := key, Value := value, TS := clk.ts,
              Tombstone := false }) key value st d1).2.1 },
          d := (putLocked clk (env.Marshal
            { Collection := defaultName c, Key := key, Value := value, TS := clk.ts,
              Tombstone := false }) key value st d1).1,
          err := none,
          compactLaunched := (putLocked clk (env.Marshal
            { Collection := defaultName c, Key := key, Value := value, TS := clk.ts,
              Tombstone := false }) key value st d1).2.2.2 } := by
  unfold put at h ⊢
  simp only at h ⊢
  cases ho : openCollection env s d (defaultName c) with
  | error e => rw [ho] at h; exact absurd h (by simp)
  | ok r =>
    obtain ⟨s1, d1, st⟩ := r
    rw [ho] at h
    simp only at h ⊢
    by_cases hv : env.Valid value = true
    · simp only [hv, Bool.not_true, Bool.false_eq_true, if_false] at h ⊢
      refine ⟨s1, d1, st, rfl, trivial, h, ?_⟩
      rw [h]
    · simp only [hv, Bool.not_false, if_true] at h
      exact absurd h (by simp)

/-- C16. The compaction trigger: a successful `put` launches a compaction
exactly when, with the index and the line counter as the put leaves them, the
collection has more than 1000 lines and more than twice as many lines as
keys. -/
theorem compaction_trigger (env : Env) (clk : PutClock) (s : store) (d : Disk)
    (c key value : GoString) (h : (put env clk s d c key value).err = none) :
    ∃ st, (put env clk s d c key value).s.cols.lookup (defaultName c) = some st ∧
      ((put env clk s d c key value).compactLaunched = true ↔
        st.lines > 1000 ∧ st.lines > 2 * st.index.keys.length) := by
  obtain ⟨s1, d1, st, _, _, hpl, hput⟩ := put_ok_parts env clk s d c key value h
  rw [hput]
  refine ⟨_, AList.lookup_insert _, ?_⟩
  simp only
  rw [putLocked_launch clk _ key value st d1 hpl, decide_eq_true_eq]

theorem compaction_trigger_witness :
    ∃ st, (put sampleEnv ⟨1, 1, 1⟩ busyStore ∅ [] (ascii "a") (ascii "2")).s.cols.lookup
        (defaultName []) = some st ∧
      ((put sampleEnv ⟨1, 1, 1⟩ busyStore ∅ [] (ascii "a") (ascii "2")).compactLaunched = true ↔
        st.lines > 1000 ∧ st.lines > 2 * st.index.keys.length) :=
  compaction_trigger sampleEnv ⟨1, 1, 1⟩ busyStore ∅ [] (ascii "a") (ascii "2") (by decide)

/-! ## What opening a collection changes -/

/-- The frame of `openCollection`: a registered collection is returned with
store and disk as they are; otherwise every collection that was registered
keeps its state, no file changes its contents, and the directory is the
same. -/
theorem openCollection_frame (env : Env) (s : store) (d : Disk) (name : GoString)
    (s1 : store) (d1 : Disk) (st : collectionState)
    (h : openCollection env s d name = .ok (s1, d1, st)) :
    (∀ st0, s.cols.lookup name = some st0 → s1 = s ∧ d1 = d ∧ st = st0) ∧
      (∀ n st0, s.cols.lookup n = some st0 → s1.cols.lookup n = some st0) ∧
      (∀ q, content d1 q = content d q) ∧ s1.dir = s.dir := by
  cases hl : s.cols.lookup name with
  | some st0 =>
    rw [openCollection_registered env s d name st0 hl] at h
    simp only [Except.ok.injEq, Prod.mk.injEq] at h
    obtain ⟨rfl, rfl, rfl⟩ := h
    exact ⟨fun st1 h1 => ⟨rfl, rfl, (Option.some.inj h1)⟩, fun _ _ h => h, fun _ => rfl, rfl⟩
  | none =>
    by_cases hof : env.OpenFile (logPath s.dir name) = OpenFault.none
    case neg =>
      obtain ⟨e, he⟩ := openCollection_fault env s d name hl hof
      rw [he] at h
      exact absurd h (by simp)
    cases ht : tooLong (content d (logPath s.dir name)) with
    | true =>
      rw [openCollection_tooLong env s d name hl hof ht] at h
      exact absurd h (by simp)
    | false =>
      obtain ⟨d2, st2, ho, hc, hoth, _⟩ := openCollection_new env s d name hl hof ht
      rw [ho] at h
      simp only [Except.ok.injEq, Prod.mk.injEq] at h
      obtain ⟨rfl, rfl, rfl⟩ := h
      refine ⟨fun st1 h1 => absurd h1 (by simp), ?_, ?_, rfl⟩
      · intro n st0 hn
        have hne : n ≠ name := fun e => by rw [e, hl] at hn; exact absurd hn (by simp)
        simp only
        rw [AList.lookup_insert_ne hne]
        exact hn
      · intro q
        by_cases hq : q = logPath s.dir name
        · rw [hq]; exact hc
        · exact hoth q hq

/-! ## Opening a collection that is not registered -/

/-- A collection that is not registered and whose log can be opened: the
log file exists afterwards (created empty when it was missing) and the
collection is registered with the state replayed from its log. -/
theorem openCollection_opens (env : Env) (s : store) (d : Disk) (name : GoString)
    (h : s.cols.lookup name = none) (hc : canOpen env s d name = true) :
    openCollection env s d name =
      .ok (store.mk s.dir
              (s.cols.insert name (openedState env s.dir name (content d (logPath s.dir name)))),
           createFile d (logPath s.dir name),
           openedState env s.dir name (content d (logPath s.dir name))) := by
  unfold canOpen at hc
  simp only [Bool.and_eq_true, decide_eq_true_eq, Bool.not_eq_true'] at hc
  unfold createFile
  simp only [openCollection, h, hc.1, content_create, hc.2]
  rfl

/-- A collection that is not registered and whose log cannot be opened:
`openCollection` fails. -/
theorem openCollection_fails (env : Env) (s : store) (d : Disk) (name : GoString)
    (h : s.cols.lookup name = none) (hc : canOpen env s d name = false) :
    ∃ e, openCollection env s d name = .error e := by
  by_cases hof : env.OpenFile (logPath s.dir name) = OpenFault.none
  · have ht : tooLong (content d (logPath s.dir name)) = true := by
      unfold canOpen at hc
      simpa [hof] using hc
    exact ⟨Error.scan, openCollection_tooLong env s d name h hof ht⟩
  · exact openCollection_fault env s d name h hof

/-! ## Rejection of an invalid value -/

/-- C11 (amended). An invalid value is rejected before any record is
written: `put` returns an error and launches no compaction, every collection
that was registered keeps its state (log handle, write buffer, index, line
counter), no file changes its contents and the directory is the same. When
the named collection is registered, or is not and cannot be opened, the store
and the disk are exactly as before. When it is not registered and can be
opened, `put` has opened it before checking the value: the error is the one
of the invalid value, the log file exists (created empty when it was missing)
and the registry has one more entry, the collection with the state replayed
from its log. -/
theorem put_invalid_value (env : Env) (clk : PutClock) (s : store) (d : Disk)
    (c key value : GoString) (hv : env.Valid value = false) :
    (put env clk s d c key value).err ≠ none ∧
      (put env clk s d c key value).compactLaunched = false ∧
      (∀ st, s.cols.lookup (defaultName c) = some st →
        (put env clk s d c key value).s = s ∧ (put env clk s d c key value).d = d) ∧
      (s.cols.lookup (defaultName c) = none → canOpen env s d (defaultName c) = false →
        (put env clk s d c key value).s = s ∧ (put env clk s d c key value).d = d) ∧
      (s.cols.lookup (defaultName c) = none → canOpen env s d (defaultName c) = true →
        (put env clk s d c key value).err = some Error.invalidValue ∧
          (put env clk s d c key value).s = store.mk s.dir (s.cols.insert (defaultName c)
            (openedState env s.dir (defaultName c)
              (content d (logPath s.dir (defaultName c))))) ∧
          (put env clk s d c key value).d = createFile d (logPath s.dir (defaultName c))) ∧
      (∀ n st, s.cols.lookup n = some st →
        (put env clk s d c key value).s.cols.lookup n = some st) ∧
      (∀ q, content (put env clk s d c key value).d q = content d q) ∧
      (put env clk s d c key value).s.dir = s.dir := by
  cases ho : openCollection env s d (defaultName c) with
  | error e =>
    have e1 : put env clk s d c key value =
        { s := s, d := d, err := some e, compactLaunched := false } := by
      simp only [put, ho]
    rw [e1]
    refine ⟨by simp, rfl, fun _ _ => ⟨rfl, rfl⟩, fun _ _ => ⟨rfl, rfl⟩, ?_, fun _ _ h => h,
      fun _ => rfl, rfl⟩
    intro hl hc
    rw [openCollection_opens env s d _ hl hc] at ho
    exact absurd ho (by simp)
  | ok r =>
    obtain ⟨s1, d1, st⟩ := r
    have e1 : put env clk s d c key value =
        { s := s1, d := d1, err := some Error.invalidValue, compactLaunched := false } := by
      simp only [put, ho, hv, Bool.not_false, if_true]
    obtain ⟨f1, f2, f3, f4⟩ := openCollection_frame env s d _ s1 d1 st ho
    rw [e1]
    refine ⟨by simp, rfl, fun st0 h0 => ⟨(f1 st0 h0).1, (f1 st0 h0).2.1⟩, ?_, ?_, f2, f3, f4⟩
    · intro hl hc
      obtain ⟨e, he⟩ := openCollection_fails env s d _ hl hc
      rw [he] at ho
      exact absurd ho (by simp)
    · intro hl hc
      rw [openCollection_opens env s d _ hl hc] at ho
      simp only [Except.ok.injEq, Prod.mk.injEq] at ho
      exact ⟨rfl, ho.1.symm, ho.2.1.symm⟩

theorem put_invalid_value_witness :
    (put sampleEnv ⟨1, 1, 1⟩ sampleStore ∅ (ascii "x") (ascii "k") [10]).err
        = some Error.invalidValue ∧
      (put sampleEnv ⟨1, 1, 1⟩ sampleStore ∅ (ascii "x") (ascii "k") [10]).s =
        store.mk sampleStore.dir (sampleStore.cols.insert (defaultName (ascii "x"))
          (openedState sampleEnv sampleStore.dir (defaultName (ascii "x"))
            (content ∅ (logPath sampleStore.dir (defaultName (ascii "x")))))) ∧
      (put sampleEnv ⟨1, 1, 1⟩ sampleStore ∅ (ascii "x") (ascii "k") [10]).d =
        createFile ∅ (logPath sampleStore.dir (defaultName (ascii "x"))) :=
  (put_invalid_value sampleEnv ⟨1, 1, 1⟩ sampleStore ∅ (ascii "x") (ascii "k") [10]
    (by decide)).2.2.2.2.1 (by decide) (by decide)

/-- C11, counterexample. On a store that has not opened the collection `x`,
a `put` of an invalid value into `x` returns an error, yet afterwards `x` is
registered and its log file exists: the collection is opened before the value
is checked. -/
theorem put_invalid_value_opens_collection :
    sampleEnv.Valid [10] = false ∧
      (put sampleEnv ⟨1, 1, 1⟩ sampleStore ∅ (ascii "x") (ascii "k") [10]).err
        = some Error.invalidValue ∧
      sampleStore.cols.lookup (ascii "x") = none ∧
      ((put sampleEnv ⟨1, 1, 1⟩ sampleStore ∅ (ascii "x") (ascii "k") [10]).s.cols.lookup
        (ascii "x")).isSome = true ∧
      (put sampleEnv ⟨1, 1, 1⟩ sampleStore ∅ (ascii "x") (ascii "k") [10]).s ≠ sampleStore ∧
      (∅ : Disk).lookup (ascii "data/x.jsonl") = none ∧
      (put sampleEnv ⟨1, 1, 1⟩ sampleStore ∅ (ascii "x") (ascii "k") [10]).d.lookup
        (ascii "data/x.jsonl") = some [] := by
  decide

/-! ## Reads -/

/-- C13 (amended). `get` on a collection that is registered is a pure read:
it returns the entry of the key in the index of the collection (found exactly
when the key is in the index) and leaves the store and the disk as they are.
On a collection that is not registered, `get` opens it first: when it cannot
be opened nothing is found and the store and the disk are as they are;
otherwise the log file exists afterwards (created empty when it was
missing), the registry has one more entry, the collection with the state
replayed from its log, and the result is the entry of the key in the replayed
index. In every case the collections that were registered keep their state
and no file changes its contents. -/
theorem get_reads_index (env : Env) (s : store) (d : Disk) (c k : GoString) :
    (∀ st, s.cols.lookup (defaultName c) = some st →
      get env s d c k =
        GetResult.mk s d (((st.index.lookup k).map entry.Value).getD [])
          (st.index.lookup k).isSome) ∧
      (s.cols.lookup (defaultName c) = none → canOpen env s d (defaultName c) = false →
        get env s d c k = GetResult.mk s d [] false) ∧
      (s.cols.lookup (defaultName c) = none → canOpen env s d (defaultName c) = true →
        get env s d c k =
          GetResult.mk
            (store.mk s.dir (s.cols.insert (defaultName c)
              (openedState env s.dir (defaultName c)
                (content d (logPath s.dir (defaultName c))))))
            (createFile d (logPath s.dir (defaultName c)))
            ((((openedState env s.dir (defaultName c)
              (content d (logPath s.dir (defaultName c)))).index.lookup k).map
                entry.Value).getD [])
            ((openedState env s.dir (defaultName c)
              (content d (logPath s.dir (defaultName c)))).index.lookup k).isSome) ∧
      (∀ n st, s.cols.lookup n = some st → (get env s d c k).s.cols.lookup n = some st) ∧
      (∀ q, content (get env s d c k).d q = content d q) := by
  have hopen : ∀ s1 d1 st, openCollection env s d (defaultName c) = .ok (s1, d1, st) →
      get env s d c k = GetResult.mk s1 d1 (((st.index.lookup k).map entry.Value).getD [])
        (st.index.lookup k).isSome := by
    intro s1 d1 st ho
    simp only [get, ho]
    cases st.index.lookup k <;> rfl
  have hfail : ∀ e, openCollection env s d (defaultName c) = .error e →
      get env s d c k = GetResult.mk s d [] false := by
    intro e ho
    simp only [get, ho]
  refine ⟨fun st hl => hopen s d st (openCollection_registered env s d _ st hl), ?_, ?_, ?_, ?_⟩
  · intro hl hc
    obtain ⟨e, he⟩ := openCollection_fails env s d _ hl hc
    exact hfail e he
  · intro hl hc
    exact hopen _ _ _ (openCollection_opens env s d _ hl hc)
  · intro n st hn
    cases ho : openCollection env s d (defaultName c) with
    | error e =>
      rw [hfail e ho]; exact hn
    | ok r =>
      obtain ⟨s1, d1, st1⟩ := r
      rw [hopen s1 d1 st1 ho]
      exact (openCollection_frame env s d _ s1 d1 st1 ho).2.1 n st hn
  · intro q
    cases ho : openCollection env s d (defaultName c) with
    | error e =>
      rw [hfail e ho]
    | ok r =>
      obtain ⟨s1, d1, st1⟩ := r
      rw [hopen s1 d1 st1 ho]
      exact (openCollection_frame env s d _ s1 d1 st1 ho).2.2.1 q

theorem get_reads_index_witness :
    get sampleEnv onePut.s onePut.d [] (ascii "a") =
      GetResult.mk onePut.s onePut.d
        (((onePutState.index.lookup (ascii "a")).map entry.Value).getD [])
        (onePutState.index.lookup (ascii "a")).isSome :=
  (get_reads_index sampleEnv onePut.s onePut.d [] (ascii "a")).1 onePutState (by decide)

/-- C13, counterexample. On a store that has not opened the collection `x`,
`get` on `x` finds nothing, and afterwards `x` is registered and its log file
exists. -/
theorem get_opens_collection :
    (get sampleEnv sampleStore ∅ (ascii "x") (ascii "k")).found = false ∧
      sampleStore.cols.lookup (ascii "x") = none ∧
      ((get sampleEnv sampleStore ∅ (ascii "x") (ascii "k")).s.cols.lookup
        (ascii "x")).isSome = true ∧
      (get sampleEnv sampleStore ∅ (ascii "x") (ascii "k")).s ≠ sampleStore ∧
      (∅ : Disk).lookup (ascii "data/x.jsonl") = none ∧
      (get sampleEnv sampleStore ∅ (ascii "x") (ascii "k")).d.lookup (ascii "data/x.jsonl")
        = some [] := by
  decide

/-- A collection that the operating system does not open: over a data
directory without subdirectories, `put` into the collection `a/b` returns the
error of `os.OpenFile`, `get` finds nothing, and both leave the registry and
the disk as they are; `list` passes the collection over. -/
theorem unopenable_collection :
    (put flatEnv ⟨1, 1, 1⟩ sampleStore ∅ (ascii "a/b") (ascii "k") (ascii "1")) =
        PutResult.mk sampleStore ∅ (some Error.openFile) false ∧
      get flatEnv sampleStore ∅ (ascii "a/b") (ascii "k") = GetResult.mk sampleStore ∅ [] false ∧
      list flatEnv sampleStore ∅ (ascii "a/b") [] 10 0 false =
        ListResult.mk sampleStore ∅ (ascii "[]") [] false ∧
      compact flatEnv CompactFault.none 1 1 sampleStore ∅ (ascii "a/b") = (sampleStore, ∅) ∧
      (put flatEnv ⟨1, 1, 1⟩ sampleStore ∅ (ascii "ab") (ascii "k") (ascii "1")).err = none := by
  decide

/-! ## Corrupt lines -/

theorem scanLoop_append (env : Env) (s : ScanState) (ts us : List GoString) :
    scanLoop env s (ts ++ us) = scanLoop env (scanLoop env s ts) us := by
  simp [scanLoop, List.foldl_append]

theorem scanStep_corrupt (env : Env) (s : ScanState) (b : GoString) (hb : isBlank b = false)
    (hbad : env.Unmarshal b = none) :
    scanStep env s b = { s with skipped := s.skipped + 1 } := by
  simp only [scanStep, hb, hbad, Bool.false_eq_true, if_false]

theorem scanStep_skipped (env : Env) (s : ScanState) (t : GoString) (n : Nat) :
    scanStep env { s with skipped := s.skipped + n } t =
      { scanStep env s t with skipped := (scanStep env s t).skipped + n } := by
  unfold scanStep
  split
  · rfl
  · split
    · simp only [ScanState.mk.injEq, true_and]; omega
    · split <;> rfl

theorem scanLoop_skipped (env : Env) (ts : List GoString) (s : ScanState) (n : Nat) :
    scanLoop env { s with skipped := s.skipped + n } ts =
      { scanLoop env s ts with skipped := (scanLoop env s ts).skipped + n } := by
  induction ts generalizing s with
  | nil => rfl
  | cons t ts ih => rw [scanLoop_cons, scanLoop_cons, scanStep_skipped, ih]

/-- The scan loop on a log with one more line that does not decode: the same
index and line count, one more message. -/
theorem scanLoop_insert_corrupt (env : Env) (s : ScanState) (xs ys : List GoString)
    (b : GoString) (hb : isBlank b = false) (hbad : env.Unmarshal b = none) :
    scanLoop env s (xs ++ b :: ys) =
      { scanLoop env s (xs ++ ys) with skipped := (scanLoop env s (xs ++ ys)).skipped + 1 } := by
  rw [scanLoop_append, scanLoop_cons, scanStep_corrupt env _ b hb hbad, scanLoop_skipped,
    ← scanLoop_append]

theorem scanLoop_valid (env : Env) (ts : List GoString) (s : ScanState)
    (hvalid : ∀ t ∈ ts, isBlank t = false ∧ (env.Unmarshal t).isSome = true) :
    (scanLoop env s ts).lines = s.lines + ts.length ∧ (scanLoop env s ts).skipped = s.skipped := by
  induction ts generalizing s with
  | nil => exact ⟨rfl, rfl⟩
  | cons t ts ih =>
    obtain ⟨hb, hu⟩ := hvalid t (by simp)
    obtain ⟨r, hr⟩ := Option.isSome_iff_exists.1 hu
    obtain ⟨h1, h2⟩ := ih (scanStep env s t) (fun x hx => hvalid x (by simp [hx]))
    rw [scanLoop_cons, h1, h2]
    have e : (scanStep env s t).lines = s.lines + 1 ∧ (scanStep env s t).skipped = s.skipped := by
      simp only [scanStep, hb, hr, Bool.false_eq_true, if_false]
      split <;> exact ⟨rfl, rfl⟩
    rw [e.1, e.2, List.length_cons]
    exact ⟨by omega, rfl⟩

/-- C12. Corrupt-line tolerance: for every sequence of N valid record lines
(not blank, decoding to a record) and every position, the scan loop of
`openCollection` over the lines with one more line that fails to decode put in
at that position builds exactly the index that it builds over the N valid
lines alone and counts the same N lines, and it logs exactly one skipped line
where the valid lines alone give none. -/
theorem corrupt_line_tolerance (env : Env) (ts : List GoString) (b : GoString) (i : Nat)
    (hvalid : ∀ t ∈ ts, isBlank t = false ∧ (env.Unmarshal t).isSome = true)
    (hb : isBlank b = false) (hbad : env.Unmarshal b = none) :
    (scanLoop env { index := ∅, lines := 0, skipped := 0 } (ts.take i ++ b :: ts.drop i)).index =
        (scanLoop env { index := ∅, lines := 0, skipped := 0 } ts).index ∧
      (scanLoop env { index := ∅, lines := 0, skipped := 0 } (ts.take i ++ b :: ts.drop i)).lines
        = ts.length ∧
      (scanLoop env { index := ∅, lines := 0, skipped := 0 } ts).lines = ts.length ∧
      (scanLoop env { index := ∅, lines := 0, skipped := 0 } (ts.take i ++ b :: ts.drop i)).skipped
        = 1 ∧
      (scanLoop env { index := ∅, lines := 0, skipped := 0 } ts).skipped = 0 := by
  obtain ⟨h1, h2⟩ := scanLoop_valid env ts { index := ∅, lines := 0, skipped := 0 } hvalid
  rw [scanLoop_insert_corrupt env _ _ _ b hb hbad, List.take_append_drop]
  refine ⟨rfl, ?_, h1.trans (Nat.zero_add _), ?_, h2⟩
  · exact h1.trans (Nat.zero_add _)
  · show (scanLoop env { index := ∅, lines := 0, skipped := 0 } ts).skipped + 1 = 1
    rw [h2]

theorem corrupt_line_tolerance_witness :
    (scanLoop sampleEnv { index := ∅, lines := 0, skipped := 0 }
        ([ascii "+a=1", ascii "-a=", ascii "+b=2"].take 1 ++ ascii "garbage" ::
          [ascii "+a=1", ascii "-a=", ascii "+b=2"].drop 1)).index =
        (scanLoop sampleEnv { index := ∅, lines := 0, skipped := 0 }
          [ascii "+a=1", ascii "-a=", ascii "+b=2"]).index ∧
      (scanLoop sampleEnv { index := ∅, lines := 0, skipped := 0 }
        ([ascii "+a=1", ascii "-a=", ascii "+b=2"].take 1 ++ ascii "garbage" ::
          [ascii "+a=1", ascii "-a=", ascii "+b=2"].drop 1)).lines
        = [ascii "+a=1", ascii "-a=", ascii "+b=2"].length ∧
      (scanLoop sampleEnv { index := ∅, lines := 0, skipped := 0 }
        [ascii "+a=1", ascii "-a=", ascii "+b=2"]).lines
        = [ascii "+a=1", ascii "-a=", ascii "+b=2"].length ∧
      (scanLoop sampleEnv { index := ∅, lines := 0, skipped := 0 }
        ([ascii "+a=1", ascii "-a=", ascii "+b=2"].take 1 ++ ascii "garbage" ::
          [ascii "+a=1", ascii "-a=", ascii "+b=2"].drop 1)).skipped = 1 ∧
      (scanLoop sampleEnv { index := ∅, lines := 0, skipped := 0 }
        [ascii "+a=1", ascii "-a=", ascii "+b=2"]).skipped = 0 :=
  corrupt_line_tolerance sampleEnv [ascii "+a=1", ascii "-a=", ascii "+b=2"] (ascii "garbage") 1
    (by decide) (by decide) (by decide)

/-! ## Compacting twice -/

/-- The outcome of a compaction without fault on a collection that opens. -/
theorem compact_none (env : Env) (now fl : Time) (s : store) (d : Disk) (c : GoString)
    (s1 : store) (d1 : Disk) (st : collectionState)
    (h : openCollection env s d c = .ok (s1, d1, st)) :
    compact env CompactFault.none now fl s d c =
      ({ s1 with cols := s1.cols.insert c (compactedState s.dir c st.index fl) },
       ((d1.insert (tmpPath s.dir c) (encodeLines env (compactRecords c now st.index))).erase
          (tmpPath s.dir c)).insert (logPath s.dir c)
            (encodeLines env (compactRecords c now st.index))) := by
  unfold compact
  rw [h]
  rfl

/-- Two compactions without fault in a row, on a collection that opens,
leave the same index and the same line counter as one, and logs whose
records have the same keys and values in the same order (they differ in
their timestamps); and after each of them the trigger condition (more than
1000 lines and more than twice as many lines as keys) is false. -/
theorem compact_none_twice (env : Env) (now1 fl1 now2 fl2 : Time) (s : store) (d : Disk)
    (c : GoString) (s1 : store) (d1 : Disk) (st : collectionState)
    (h : openCollection env s d c = .ok (s1, d1, st)) :
    ∃ st1 st2,
      (compact env CompactFault.none now1 fl1 s d c).1.cols.lookup c = some st1 ∧
      (compact env CompactFault.none now2 fl2 (compact env CompactFault.none now1 fl1 s d c).1
        (compact env CompactFault.none now1 fl1 s d c).2 c).1.cols.lookup c = some st2 ∧
      st2.index = st1.index ∧ st2.lines = st1.lines ∧
      content (compact env CompactFault.none now1 fl1 s d c).2 (logPath s.dir c) =
        encodeLines env (compactRecords c now1 st1.index) ∧
      content (compact env CompactFault.none now2 fl2 (compact env CompactFault.none now1 fl1 s d c).1
        (compact env CompactFault.none now1 fl1 s d c).2 c).2 (logPath s.dir c) =
        encodeLines env (compactRecords c now2 st1.index) ∧
      (compactRecords c now2 st1.index).map (fun r => (r.Key, r.Value, r.Tombstone)) =
        (compactRecords c now1 st1.index).map (fun r => (r.Key, r.Value, r.Tombstone)) ∧
      ¬ (st1.lines > 1000 ∧ st1.lines > 2 * st1.index.keys.length) ∧
      ¬ (st2.lines > 1000 ∧ st2.lines > 2 * st2.index.keys.length) := by
  have hdir : s1.dir = s.dir := (openCollection_lookup env s d c s1 d1 st h).2
  have e1 := compact_none env now1 fl1 s d c s1 d1 st h
  have hl1 : (compact env CompactFault.none now1 fl1 s d c).1.cols.lookup c =
      some (compactedState s.dir c st.index fl1) := by
    rw [e1]; exact AList.lookup_insert _
  have ho2 := openCollection_registered env (compact env CompactFault.none now1 fl1 s d c).1
    (compact env CompactFault.none now1 fl1 s d c).2 c _ hl1
  have e2 := compact_none env now2 fl2 _ _ c _ _ _ ho2
  have hdir2 : (compact env CompactFault.none now1 fl1 s d c).1.dir = s.dir := by
    rw [e1]; exact hdir
  refine ⟨compactedState s.dir c st.index fl1, compactedState s.dir c st.index fl2, hl1, ?_,
    rfl, rfl, ?_, ?_, ?_, ?_, ?_⟩
  · rw [e2, hdir2]; exact AList.lookup_insert _
  · rw [e1]; exact content_insert _ _ _
  · rw [e2, hdir2]; exact content_insert _ _ _
  · simp [compactRecords, List.map_map, Function.comp_def]
  · simp only [compactedState]; omega
  · simp only [compactedState]; omega

/-- A compaction that stops at a failed step (creating the temporary file,
renaming it over the log, reopening the log) leaves the index and the line
counter of the collection as they were. -/
theorem compact_stopped (env : Env) (flt : CompactFault) (now fl : Time) (s : store) (d : Disk)
    (c : GoString) (s1 : store) (d1 : Disk) (st : collectionState)
    (h : openCollection env s d c = .ok (s1, d1, st))
    (hf : flt = CompactFault.openTmp ∨ flt = CompactFault.rename ∨ flt = CompactFault.reopen) :
    ∃ st3, (compact env flt now fl s d c).1.cols.lookup c = some st3 ∧
      st3.index = st.index ∧ st3.lines = st.lines := by
  have hl := (openCollection_lookup env s d c s1 d1 st h).1
  rcases hf with rfl | rfl | rfl
  · refine ⟨st, ?_, rfl, rfl⟩
    unfold compact
    rw [h]
    exact hl
  · refine ⟨st, ?_, rfl, rfl⟩
    unfold compact
    rw [h]
    exact hl
  · refine ⟨{ st with file := { st.file with closed := true } }, ?_, rfl, rfl⟩
    unfold compact
    rw [h]
    exact AList.lookup_insert _

/-- C17 (amended). Compaction that runs to its end is idempotent in effect:
on a collection that opens, two compactions without fault in a row leave the
same index and the same line counter as one, and logs whose records have the
same keys and values in the same order (they differ in their timestamps), and
after each of them the trigger condition (more than 1000 lines and more than
twice as many lines as keys) is false. A compaction that stops at a failed
step (creating the temporary file, renaming it, reopening the log) leaves the
index and the line counter as they were, and with them the trigger
condition. -/
theorem compact_twice (env : Env) (now1 fl1 now2 fl2 : Time) (s : store) (d : Disk)
    (c : GoString) (s1 : store) (d1 : Disk) (st : collectionState)
    (h : openCollection env s d c = .ok (s1, d1, st)) :
    (∃ st1 st2,
      (compact env CompactFault.none now1 fl1 s d c).1.cols.lookup c = some st1 ∧
      (compact env CompactFault.none now2 fl2 (compact env CompactFault.none now1 fl1 s d c).1
        (compact env CompactFault.none now1 fl1 s d c).2 c).1.cols.lookup c = some st2 ∧
      st2.index = st1.index ∧ st2.lines = st1.lines ∧
      content (compact env CompactFault.none now1 fl1 s d c).2 (logPath s.dir c) =
        encodeLines env (compactRecords c now1 st1.index) ∧
      content (compact env CompactFault.none now2 fl2 (compact env CompactFault.none now1 fl1 s d c).1
        (compact env CompactFault.none now1 fl1 s d c).2 c).2 (logPath s.dir c) =
        encodeLines env (compactRecords c now2 st1.index) ∧
      (compactRecords c now2 st1.index).map (fun r => (r.Key, r.Value, r.Tombstone)) =
        (compactRecords c now1 st1.index).map (fun r => (r.Key, r.Value, r.Tombstone)) ∧
      ¬ (st1.lines > 1000 ∧ st1.lines > 2 * st1.index.keys.length) ∧
      ¬ (st2.lines > 1000 ∧ st2.lines > 2 * st2.index.keys.length)) ∧
      ∀ flt now fl,
        flt = CompactFault.openTmp ∨ flt = CompactFault.rename ∨ flt = CompactFault.reopen →
        ∃ st3, (compact env flt now fl s d c).1.cols.lookup c = some st3 ∧
          st3.index = st.index ∧ st3.lines = st.lines :=
  ⟨compact_none_twice env now1 fl1 now2 fl2 s d c s1 d1 st h,
    fun flt now fl hf => compact_stopped env flt now fl s d c s1 d1 st h hf⟩

theorem compact_twice_witness :
    ∃ st1 st2,
      (compact sampleEnv CompactFault.none 5 6 sampleAfter.1 sampleAfter.2
        (ascii "default")).1.cols.lookup (ascii "default") = some st1 ∧
      (compact sampleEnv CompactFault.none 7 8
        (compact sampleEnv CompactFault.none 5 6 sampleAfter.1 sampleAfter.2 (ascii "default")).1
        (compact sampleEnv CompactFault.none 5 6 sampleAfter.1 sampleAfter.2 (ascii "default")).2
        (ascii "default")).1.cols.lookup (ascii "default") = some st2 ∧
      st2.index = st1.index ∧ st2.lines = st1.lines ∧
      content (compact sampleEnv CompactFault.none 5 6 sampleAfter.1 sampleAfter.2
        (ascii "default")).2 (logPath sampleAfter.1.dir (ascii "default")) =
        encodeLines sampleEnv (compactRecords (ascii "default") 5 st1.index) ∧
      content (compact sampleEnv CompactFault.none 7 8
        (compact sampleEnv CompactFault.none 5 6 sampleAfter.1 sampleAfter.2 (ascii "default")).1
        (compact sampleEnv CompactFault.none 5 6 sampleAfter.1 sampleAfter.2 (ascii "default")).2
        (ascii "default")).2 (logPath sampleAfter.1.dir (ascii "default")) =
        encodeLines sampleEnv (compactRecords (ascii "default") 7 st1.index) ∧
      (compactRecords (ascii "default") 7 st1.index).map (fun r => (r.Key, r.Value, r.Tombstone)) =
        (compactRecords (ascii "default") 5 st1.index).map
          (fun r => (r.Key, r.Value, r.Tombstone)) ∧
      ¬ (st1.lines > 1000 ∧ st1.lines > 2 * st1.index.keys.length) ∧
      ¬ (st2.lines > 1000 ∧ st2.lines > 2 * st2.index.keys.length) :=
  (compact_twice sampleEnv 5 6 7 8 sampleAfter.1 sampleAfter.2 (ascii "default")
    sampleAfter.1 sampleAfter.2
    { file := { path := logPath (ascii "data") (ascii "default"), pos := 10, closed := false },
      writer := { buf := [], err := false },
      index := (∅ : GoMap entry).insert (ascii "a") { Value := ascii "2" },
      lines := 2, lastFlush := 4000000000 }
    (openCollection_registered sampleEnv sampleAfter.1 sampleAfter.2 (ascii "default") _
      (by decide))).1

/-- C17, counterexample. After the put of `a = 2` on `busyStore` the
collection has 1001 lines and one key, and the put launches a compaction. A
compaction that fails to create its temporary file returns at once: the
collection still has 1001 lines and one key, so the trigger condition is true
right after the compaction. -/
theorem compact_stopped_keeps_trigger :
    busyPut.err = none ∧ busyPut.compactLaunched = true ∧
      (busyPut.s.cols.lookup (ascii "default")).map
        (fun st => (st.lines, st.index.keys.length)) = some (1001, 1) ∧
      ((compact sampleEnv CompactFault.openTmp 2 2 busyPut.s busyPut.d
        (ascii "default")).1.cols.lookup (ascii "default")).map
        (fun st => (st.lines, st.index.keys.length,
          decide (st.lines > 1000 ∧ st.lines > 2 * st.index.keys.length))) =
        some (1001, 1, true) := by
  decide

/-! ## The line counter and the number of keys -/

theorem keys_insert_length (m : GoMap entry) (k : GoString) (v : entry) :
    (m.insert k v).keys.length ≤ m.keys.length + 1 := by
  rw [AList.keys_insert, List.length_cons]
  exact Nat.succ_le_succ (@List.erase_sublist _ instBEqOfDecidableEq k m.keys).length_le

theorem keys_erase_length (m : GoMap entry) (k : GoString) :
    (m.erase k).keys.length ≤ m.keys.length := by
  rw [AList.keys_erase]
  exact (@List.erase_sublist _ instBEqOfDecidableEq k m.keys).length_le

theorem scanStep_covers (env : Env) (s : ScanState) (t : GoString)
    (h : s.index.keys.length ≤ s.lines) :
    (scanStep env s t).index.keys.length ≤ (scanStep env s t).lines := by
  unfold scanStep
  split
  · exact h
  · split
    · exact h
    · split
      · exact Nat.le_trans (keys_insert_length _ _ _) (Nat.succ_le_succ h)
      · exact Nat.le_trans (keys_erase_length _ _) (Nat.le_succ_of_le h)

theorem scanLoop_covers (env : Env) (ts : List GoString) (s : ScanState)
    (h : s.index.keys.length ≤ s.lines) :
    (scanLoop env s ts).index.keys.length ≤ (scanLoop env s ts).lines := by
  induction ts generalizing s with
  | nil => exact h
  | cons t ts ih => rw [scanLoop_cons]; exact ih _ (scanStep_covers env s t h)

/-- The outcome of `openCollection` for a collection that was not
registered and whose log has no line too long for the scanner. -/
theorem openCollection_new_state (env : Env) (s : store) (d : Disk) (name : GoString)
    (h : s.cols.lookup name = none) (hof : env.OpenFile (logPath s.dir name) = OpenFault.none)
    (hlen : tooLong (content d (logPath s.dir name)) = false) :
    ∃ d1, (∀ q, content d1 q = content d q) ∧ openCollection env s d name =
      .ok (store.mk s.dir
              (s.cols.insert name (openedState env s.dir name (content d (logPath s.dir name)))),
           d1, openedState env s.dir name (content d (logPath s.dir name))) := by
  refine ⟨if logPath s.dir name ∈ d then d else d.insert (logPath s.dir name) [], ?_, ?_⟩
  · intro q
    by_cases hq : q = logPath s.dir name
    · rw [hq, content_create]
    · by_cases hm : logPath s.dir name ∈ d
      · rw [if_pos hm]
      · rw [if_neg hm, content_insert_ne _ _ _ _ hq]
  · simp only [openCollection, h, hof, content_create, hlen]
    rfl

theorem LinesCoverKeys_insert (s : store) (c : GoString) (st : collectionState)
    (h : LinesCoverKeys s) (hst : st.index.keys.length ≤ st.lines) :
    LinesCoverKeys { s with cols := s.cols.insert c st } := by
  intro n st0 hn
  by_cases hc : n = c
  · subst hc
    simp only [AList.lookup_insert, Option.some.injEq] at hn
    subst hn
    exact hst
  · simp only [AList.lookup_insert_ne hc] at hn
    exact h n st0 hn

theorem openCollection_covers (env : Env) (s : store) (d : Disk) (name : GoString)
    (s1 : store) (d1 : Disk) (st : collectionState)
    (ho : openCollection env s d name = .ok (s1, d1, st)) (h : LinesCoverKeys s) :
    LinesCoverKeys s1 ∧ st.index.keys.length ≤ st.lines := by
  cases hl : s.cols.lookup name with
  | some st0 =>
    rw [openCollection_registered env s d name st0 hl] at ho
    simp only [Except.ok.injEq, Prod.mk.injEq] at ho
    obtain ⟨rfl, _, rfl⟩ := ho
    exact ⟨h, h name _ hl⟩
  | none =>
    by_cases hof : env.OpenFile (logPath s.dir name) = OpenFault.none
    case neg =>
      obtain ⟨e, he⟩ := openCollection_fault env s d name hl hof
      rw [he] at ho
      exact absurd ho (by simp)
    cases ht : tooLong (content d (logPath s.dir name)) with
    | true =>
      rw [openCollection_tooLong env s d name hl hof ht] at ho
      exact absurd ho (by simp)
    | false =>
      obtain ⟨d2, _, ho2⟩ := openCollection_new_state env s d name hl hof ht
      rw [ho2] at ho
      simp only [Except.ok.injEq, Prod.mk.injEq] at ho
      obtain ⟨rfl, _, rfl⟩ := ho
      have hsc : (openedState env s.dir name (content d (logPath s.dir name))).index.keys.length
          ≤ (openedState env s.dir name (content d (logPath s.dir name))).lines :=
        scanLoop_covers env (tokens (content d (logPath s.dir name)))
          (ScanState.mk ∅ 0 0) (Nat.le_refl _)
      exact ⟨LinesCoverKeys_insert s name _ h hsc, hsc⟩

theorem putLocked_covers (clk : PutClock) (b key value : GoString) (st : collectionState)
    (d : Disk) (h : st.index.keys.length ≤ st.lines) :
    (putLocked clk b key value st d).2.1.index.keys.length ≤
      (putLocked clk b key value st d).2.1.lines := by
  have hins : (st.index.insert key { Value := value }).keys.length ≤ st.lines + 1 :=
    Nat.le_trans (keys_insert_length _ _ _) (Nat.succ_le_succ h)
  unfold putLocked
  rcases Writer.Write d st.file st.writer b with ⟨d2, f2, w2, e2⟩
  cases e2 with
  | true => exact h
  | false =>
    simp only
    rcases Writer.Write d2 f2 w2 [10] with ⟨d3, f3, w3, e3⟩
    cases e3 with
    | true => exact h
    | false =>
      simp only
      split <;> exact hins

theorem put_covers (env : Env) (clk : PutClock) (s : store) (d : Disk) (c key value : GoString)
    (h : LinesCoverKeys s) : LinesCoverKeys (put env clk s d c key value).s := by
  cases ho : openCollection env s d (defaultName c) with
  | error e =>
    have : put env clk s d c key value =
        { s := s, d := d, err := some e, compactLaunched := false } := by
      simp only [put, ho]
    rw [this]; exact h
  | ok r =>
    obtain ⟨s1, d1, st⟩ := r
    obtain ⟨h1, hst⟩ := openCollection_covers env s d _ s1 d1 st ho h
    by_cases hv : env.Valid value = true
    · have : (put env clk s d c key value).s =
          { s1 with cols := s1.cols.insert (defaultName c) (putLocked clk (env.Marshal
            { Collection := defaultName c, Key := key, Value := value, TS := clk.ts,
              Tombstone := false }) key value st d1).2.1 } := by
        simp only [put, ho, hv, Bool.not_true, Bool.false_eq_true, if_false]
      rw [this]
      exact LinesCoverKeys_insert s1 _ _ h1 (putLocked_covers clk _ key value st d1 hst)
    · have : put env clk s d c key value =
          { s := s1, d := d1, err := some Error.invalidValue, compactLaunched := false } := by
        simp only [put, ho, hv, Bool.not_false, if_true]
      rw [this]; exact h1

theorem compact_covers (env : Env) (flt : CompactFault) (now fl : Time) (s : store) (d : Disk)
    (c : GoString) (h : LinesCoverKeys s) :
    LinesCoverKeys (compact env flt now fl s d c).1 := by
  cases ho : openCollection env s d c with
  | error e => rw [compact_error env flt now fl s d c e ho]; exact h
  | ok r =>
    obtain ⟨s1, d1, st⟩ := r
    obtain ⟨h1, hst⟩ := openCollection_covers env s d c s1 d1 st ho h
    unfold compact
    rw [ho]
    cases flt with
    | none => exact LinesCoverKeys_insert s1 c _ h1 (Nat.le_refl _)
    | openTmp => exact h1
    | writeTmp n => exact LinesCoverKeys_insert s1 c _ h1 (Nat.le_refl _)
    | rename => exact h1
    | reopen => exact LinesCoverKeys_insert s1 c _ h1 hst

theorem reachable_covers (env : Env) (s : store) (d : Disk) (h : Reachable env s d) :
    LinesCoverKeys s := by
  induction h with
  | init dir d => intro n st hn; exact absurd hn (by simp)
  | opened s d name s1 d1 st _ ho ih => exact (openCollection_covers env s d name s1 d1 st ho ih).1
  | put s d clk c key value _ ih => exact put_covers env clk s d c key value ih
  | compact s d flt now fl c _ ih => exact compact_covers env flt now fl s d c ih

/-- C19. The line-counter invariant: in every state the store reaches from
nothing open by opening collections (replaying any log), by puts and by
compactions, the line counter of every collection is at least the number of
keys in its index. -/
theorem lines_cover_keys (env : Env) (s : store) (d : Disk) (h : Reachable env s d)
    (n : GoString) (st : collectionState) (hn : s.cols.lookup n = some st) :
    st.index.keys.length ≤ st.lines :=
  reachable_covers env s d h n st hn

theorem lines_cover_keys_witness :
    onePutState.index.keys.length ≤ onePutState.lines :=
  lines_cover_keys sampleEnv onePut.s onePut.d
    (Reachable.put sampleStore ∅ ⟨1000000000, 1000000000, 1000000000⟩ [] (ascii "a") (ascii "1")
      (Reachable.init (ascii "data") ∅))
    (ascii "default") onePutState (by decide)

/-! ## The flush policy -/

theorem FileWrite_handle (d : Disk) (f : File) (p : GoString) :
    (File.Write d f p).2.1.path = f.path ∧ (File.Write d f p).2.1.closed = f.closed := by
  unfold File.Write
  split <;> exact ⟨rfl, rfl⟩

theorem Flush_handle (d : Disk) (f : File) (w : Writer) :
    (Writer.Flush d f w).2.1.path = f.path ∧ (Writer.Flush d f w).2.1.closed = f.closed := by
  unfold Writer.Flush
  split
  · exact ⟨rfl, rfl⟩
  · split
    · exact ⟨rfl, rfl⟩
    · have h := FileWrite_handle d f w.buf
      rcases hw : File.Write d f w.buf with ⟨d1, f1, e⟩
      rw [hw] at h
      cases e <;> exact h

/-- What `Flush` does on an open handle and a writer without error: the
pending bytes are written at the offset of the handle and the buffer is
empty afterwards. -/
theorem Flush_open (d : Disk) (f : File) (w : Writer) (hc : f.closed = false)
    (he : w.err = false) :
    (Writer.Flush d f w).2.2.2 = false ∧ (Writer.Flush d f w).2.2.1.buf = [] ∧
      (Writer.Flush d f w).2.2.1.err = false ∧
      content (Writer.Flush d f w).1 f.path =
        if w.buf = [] then content d f.path else writeAt (content d f.path) f.pos w.buf := by
  unfold Writer.Flush
  rw [if_neg (by simp [he])]
  by_cases hb : w.buf = []
  · rw [if_pos hb, if_pos hb]
    exact ⟨rfl, hb, he, rfl⟩
  · rw [if_neg hb, if_neg hb]
    have hw : File.Write d f w.buf =
        (d.insert f.path (writeAt (content d f.path) f.pos w.buf),
          { f with pos := f.pos + w.buf.length }, false) := by
      simp [File.Write, hc]
    rw [hw]
    exact ⟨rfl, rfl, he, content_insert _ _ _⟩

theorem Write_handle (d : Disk) (f : File) (w : Writer) (p : GoString) :
    (Writer.Write d f w p).2.1.path = f.path ∧ (Writer.Write d f w p).2.1.closed = f.closed := by
  unfold Writer.Write
  split
  · exact ⟨rfl, rfl⟩
  · split
    · exact ⟨rfl, rfl⟩
    · split
      · exact FileWrite_handle d f p
      · have h := Flush_handle d f { w with buf := w.buf ++ p.take (bufSize - w.buf.length) }
        simp only
        rcases hfl : Writer.Flush d f { w with buf := w.buf ++ p.take (bufSize - w.buf.length) }
          with ⟨d1, f1, w1, e⟩
        rw [hfl] at h
        cases e with
        | true => exact h
        | false =>
          simp only
          split
          · exact h
          · have h2 := FileWrite_handle d1 f1 (p.drop (bufSize - w.buf.length))
            exact ⟨h2.1.trans h.1, h2.2.trans h.2⟩

theorem Flush_err (d : Disk) (f : File) (w : Writer)
    (h : (Writer.Flush d f w).2.2.2 = false) : (Writer.Flush d f w).2.2.1.err = false := by
  unfold Writer.Flush at h ⊢
  by_cases he : w.err = true
  · rw [if_pos he] at h; exact absurd h (by simp)
  · rw [if_neg he] at h ⊢
    have he2 : w.err = false := by simpa using he
    split
    · exact he2
    · rename_i hb
      rw [if_neg hb] at h
      rcases hw : File.Write d f w.buf with ⟨d1, f1, e⟩
      rw [hw] at h
      cases e with
      | true => exact absurd h (by simp)
      | false => exact he2

theorem Write_err (d : Disk) (f : File) (w : Writer) (p : GoString)
    (h : (Writer.Write d f w p).2.2.2 = false) : (Writer.Write d f w p).2.2.1.err = false := by
  unfold Writer.Write at h ⊢
  by_cases he : w.err = true
  · rw [if_pos he] at h; exact absurd h (by simp)
  · rw [if_neg he] at h ⊢
    have he2 : w.err = false := by simpa using he
    split
    · exact he2
    · rename_i hfit
      rw [if_neg hfit] at h
      split
      · rename_i hb
        rw [if_pos hb] at h
        exact h
      · rename_i hb
        rw [if_neg hb] at h
        simp only at h ⊢
        have hfe := Flush_err d f { w with buf := w.buf ++ p.take (bufSize - w.buf.length) }
        rcases hfl : Writer.Flush d f { w with buf := w.buf ++ p.take (bufSize - w.buf.length) }
          with ⟨d1, f1, w1, e⟩
        rw [hfl] at h hfe
        cases e with
        | true => exact absurd h (by simp)
        | false =>
          simp only at h hfe ⊢
          split
          · exact hfe trivial
          · rename_i hrest
            rw [if_neg hrest] at h
            exact h

theorem Write_newline_pending (d : Disk) (f : File) (w : Writer)
    (h : (Writer.Write d f w [10]).2.2.2 = false) : (Writer.Write d f w [10]).2.2.1.buf ≠ [] := by
  unfold Writer.Write at h ⊢
  by_cases he : w.err = true
  · rw [if_pos he] at h; exact absurd h (by simp)
  · rw [if_neg he] at h ⊢
    split
    · simp
    · rename_i hfit
      rw [if_neg hfit] at h
      have hn : bufSize - w.buf.length = 0 := by
        simp only [List.length_singleton] at hfit; omega
      split
      · rename_i hb
        rw [hb] at hn
        exact absurd hn (by decide)
      · rename_i hb
        rw [if_neg hb] at h
        simp only at h ⊢
        rcases hfl : Writer.Flush d f { w with buf := w.buf ++ [10].take (bufSize - w.buf.length) }
          with ⟨d1, f1, w1, e⟩
        rw [hfl] at h
        cases e with
        | true => exact absurd h (by simp)
        | false =>
          simp only at h ⊢
          have hr : ([10] : GoString).drop (bufSize - w.buf.length) = [10] := by rw [hn]; rfl
          rw [hr]
          rw [if_pos (by decide)]
          simp

/-- The part of `put` under the lock, when it returns no error, in terms of
the state the two writes leave and of the flush test. -/
theorem putLocked_flush (clk : PutClock) (b key value : GoString) (st : collectionState)
    (d : Disk) (h : (putLocked clk b key value st d).2.2.1 = none) :
    (appendRecord b st d).2.2.2 = false ∧
      (flushDue clk st (appendRecord b st d).2.2.1 →
        (putLocked clk b key value st d).1 =
            (Writer.Flush (appendRecord b st d).1 (appendRecord b st d).2.1
              (appendRecord b st d).2.2.1).1 ∧
          (putLocked clk b key value st d).2.1.file =
            (Writer.Flush (appendRecord b st d).1 (appendRecord b st d).2.1
              (appendRecord b st d).2.2.1).2.1 ∧
          (putLocked clk b key value st d).2.1.writer =
            (Writer.Flush (appendRecord b st d).1 (appendRecord b st d).2.1
              (appendRecord b st d).2.2.1).2.2.1 ∧
          (putLocked clk b key value st d).2.1.lastFlush = clk.flushed) ∧
      (¬ flushDue clk st (appendRecord b st d).2.2.1 →
        (putLocked clk b key value st d).1 = (appendRecord b st d).1 ∧
          (putLocked clk b key value st d).2.1.file = (appendRecord b st d).2.1 ∧
          (putLocked clk b key value st d).2.1.writer = (appendRecord b st d).2.2.1 ∧
          (putLocked clk b key value st d).2.1.lastFlush = st.lastFlush) := by
  unfold putLocked at h ⊢
  unfold appendRecord flushDue
  rcases h1 : Writer.Write d st.file st.writer b with ⟨d2, f2, w2, e2⟩
  rw [h1] at h
  cases e2 with
  | true => exact absurd h (by simp)
  | false =>
    rcases h2 : Writer.Write d2 f2 w2 [10] with ⟨d3, f3, w3, e3⟩
    simp only [h2] at h ⊢
    cases e3 with
    | true => exact absurd h (by simp)
    | false =>
      simp only
      refine ⟨trivial, ?_, ?_⟩
      · intro hdue
        rw [if_pos hdue]
        exact ⟨rfl, rfl, rfl, rfl⟩
      · intro hdue
        rw [if_neg hdue]
        exact ⟨rfl, rfl, rfl, rfl⟩

theorem appendRecord_ok (b : GoString) (st : collectionState) (d : Disk)
    (h : (appendRecord b st d).2.2.2 = false) :
    (appendRecord b st d).2.1.path = st.file.path ∧
      (appendRecord b st d).2.1.closed = st.file.closed ∧
      (appendRecord b st d).2.2.1.err = false ∧ (appendRecord b st d).2.2.1.buf ≠ [] := by
  unfold appendRecord at h ⊢
  have hw1 := Write_handle d st.file st.writer b
  rcases h1 : Writer.Write d st.file st.writer b with ⟨d2, f2, w2, e2⟩
  rw [h1] at h hw1
  cases e2 with
  | true => exact absurd h (by simp)
  | false =>
    simp only at h hw1 ⊢
    have hw2 := Write_handle d2 f2 w2 [10]
    exact ⟨hw2.1.trans hw1.1, hw2.2.trans hw1.2, Write_err d2 f2 w2 [10] h,
      Write_newline_pending d2 f2 w2 h⟩

/-- The flush policy on an open handle: for every collection whose log handle
is open, every clock reading and every successful `put`, when after the
record is appended the write buffer holds more than 256 KiB or the last flush
is more than two seconds old, the put writes the whole write buffer to the
file (at the offset of the handle), leaving the buffer empty, and sets the
time of the last flush to the clock reading; otherwise it leaves the handle,
the buffered bytes, the file and the time of the last flush as they are after
the append. -/
theorem flush_policy (env : Env) (clk : PutClock) (s : store) (d : Disk) (c key value : GoString)
    (s1 : store) (d1 : Disk) (st : collectionState)
    (ho : openCollection env s d (defaultName c) = .ok (s1, d1, st))
    (hopen : st.file.closed = false)
    (h : (put env clk s d c key value).err = none) :
    ∃ st2, (put env clk s d c key value).s.cols.lookup (defaultName c) = some st2 ∧
      (flushDue clk st (appendRecord (env.Marshal (recordOf c key value clk)) st d1).2.2.1 →
        st2.lastFlush = clk.flushed ∧ st2.writer.buf = [] ∧
          content (put env clk s d c key value).d st.file.path =
            writeAt
              (content (appendRecord (env.Marshal (recordOf c key value clk)) st d1).1 st.file.path)
              (appendRecord (env.Marshal (recordOf c key value clk)) st d1).2.1.pos
              (appendRecord (env.Marshal (recordOf c key value clk)) st d1).2.2.1.buf) ∧
      (¬ flushDue clk st (appendRecord (env.Marshal (recordOf c key value clk)) st d1).2.2.1 →
        st2.lastFlush = st.lastFlush ∧
          st2.writer = (appendRecord (env.Marshal (recordOf c key value clk)) st d1).2.2.1 ∧
          st2.file = (appendRecord (env.Marshal (recordOf c key value clk)) st d1).2.1 ∧
          (put env clk s d c key value).d =
            (appendRecord (env.Marshal (recordOf c key value clk)) st d1).1) := by
  obtain ⟨s1', d1', st', ho', _, hpl, hput⟩ := put_ok_parts env clk s d c key value h
  rw [ho] at ho'
  simp only [Except.ok.injEq, Prod.mk.injEq] at ho'
  obtain ⟨rfl, rfl, rfl⟩ := ho'
  unfold recordOf
  obtain ⟨hok, hdue, hnot⟩ := putLocked_flush clk _ key value st d1 hpl
  obtain ⟨hpath, hclosed, herr, hne⟩ := appendRecord_ok _ st d1 hok
  rw [hput]
  refine ⟨_, AList.lookup_insert _, ?_, ?_⟩
  · intro hd
    obtain ⟨e1, e2, e3, e4⟩ := hdue hd
    obtain ⟨_, f2, _, f4⟩ := Flush_open _ _ _ (hclosed.trans hopen) herr
    refine ⟨e4, ?_, ?_⟩
    · rw [e3]; exact f2
    · simp only
      rw [e1, ← hpath, f4, if_neg hne]
  · intro hd
    obtain ⟨e1, e2, e3, e4⟩ := hnot hd
    exact ⟨e4, e3, e2, e1⟩

theorem flush_policy_witness :
    ∃ st2, (put sampleEnv ⟨5000000000, 5000000000, 5000000000⟩ onePut.s onePut.d []
        (ascii "b") (ascii "2")).s.cols.lookup (defaultName []) = some st2 ∧
      (flushDue ⟨5000000000, 5000000000, 5000000000⟩ onePutState
          (appendRecord (sampleEnv.Marshal (recordOf [] (ascii "b") (ascii "2")
            ⟨5000000000, 5000000000, 5000000000⟩)) onePutState onePut.d).2.2.1 →
        st2.lastFlush = (⟨5000000000, 5000000000, 5000000000⟩ : PutClock).flushed ∧
          st2.writer.buf = [] ∧
          content (put sampleEnv ⟨5000000000, 5000000000, 5000000000⟩ onePut.s onePut.d []
              (ascii "b") (ascii "2")).d onePutState.file.path =
            writeAt
              (content (appendRecord (sampleEnv.Marshal (recordOf [] (ascii "b") (ascii "2")
                ⟨5000000000, 5000000000, 5000000000⟩)) onePutState onePut.d).1
                onePutState.file.path)
              (appendRecord (sampleEnv.Marshal (recordOf [] (ascii "b") (ascii "2")
                ⟨5000000000, 5000000000, 5000000000⟩)) onePutState onePut.d).2.1.pos
              (appendRecord (sampleEnv.Marshal (recordOf [] (ascii "b") (ascii "2")
                ⟨5000000000, 5000000000, 5000000000⟩)) onePutState onePut.d).2.2.1.buf) ∧
      (¬ flushDue ⟨5000000000, 5000000000, 5000000000⟩ onePutState
          (appendRecord (sampleEnv.Marshal (recordOf [] (ascii "b") (ascii "2")
            ⟨5000000000, 5000000000, 5000000000⟩)) onePutState onePut.d).2.2.1 →
        st2.lastFlush = onePutState.lastFlush ∧
          st2.writer = (appendRecord (sampleEnv.Marshal (recordOf [] (ascii "b") (ascii "2")
            ⟨5000000000, 5000000000, 5000000000⟩)) onePutState onePut.d).2.2.1 ∧
          st2.file = (appendRecord (sampleEnv.Marshal (recordOf [] (ascii "b") (ascii "2")
            ⟨5000000000, 5000000000, 5000000000⟩)) onePutState onePut.d).2.1 ∧
          (put sampleEnv ⟨5000000000, 5000000000, 5000000000⟩ onePut.s onePut.d []
              (ascii "b") (ascii "2")).d =
            (appendRecord (sampleEnv.Marshal (recordOf [] (ascii "b") (ascii "2")
              ⟨5000000000, 5000000000, 5000000000⟩)) onePutState onePut.d).1) :=
  flush_policy sampleEnv ⟨5000000000, 5000000000, 5000000000⟩ onePut.s onePut.d []
    (ascii "b") (ascii "2") onePut.s onePut.d onePutState
    (openCollection_registered sampleEnv onePut.s onePut.d (defaultName []) onePutState
      (by decide)) rfl (by decide)

/-- C18, evaluated. After a compaction whose reopening of the log failed,
the handle of the collection is closed and its write buffer empty, the last
flush being of time 4 s. A put at time 9 s returns no error and
finds the last flush more than two seconds old; afterwards the time of the
last flush is 9 s, yet the record is still in the write buffer, the writer
holds the error of the failed flush, and the log file is as it was. -/
theorem flush_fails_on_closed_handle :
    (closedHandle.1.cols.lookup (ascii "default")).map
        (fun st => (st.file.closed, st.lastFlush, st.writer.buf, st.writer.err)) =
        some (true, 4000000000, [], false) ∧
      putOnClosed.err = none ∧
      since 9000000000 4000000000 > 2 * 1000000000 ∧
      (putOnClosed.s.cols.lookup (ascii "default")).map
        (fun st => (st.lastFlush, st.writer.buf, st.writer.err)) =
        some (9000000000, ascii "+b=3\n", true) ∧
      content putOnClosed.d (logPath (ascii "data") (ascii "default")) = ascii "+a=2\n" ∧
      content closedHandle.2 (logPath (ascii "data") (ascii "default")) = ascii "+a=2\n" := by
  decide

/-! ## The scenario of three puts and a listing -/

theorem listKeys_two (env : Env) (c : GoString) (index : GoMap entry) (k1 k2 : GoString)
    (e1 e2 : GoString) (h1 : env.Encode (mkItem false c index k1) = some e1)
    (h2 : env.Encode (mkItem false c index k2) = some e2) :
    listKeys env 10 0 false c index [k1, k2]
        { out := ascii "[", items := [], wrote := 0, first := true, skipped := 0 } =
      ({ out := ascii "[" ++ e1 ++ ascii "," ++ e2,
         items := [mkItem false c index k1, mkItem false c index k2], wrote := 2,
         first := false, skipped := 0 }, false) := by
  simp [listKeys, h1, h2]

/-- C14. The scenario: on a store that has opened nothing, the puts of
`{"x":1}` and `{"x":2}` under the key `a` and of `{"y":true}` under the key
`b`, in the collection `default`, return no error when the operating system
opens the log of `default` and the JSON library takes the three values for
valid; `list("default", "", 10, 0, false)` then encodes
exactly two items, the key `a` with the value `{"x":2}` first and the key `b`
with the value `{"y":true}` second, both without a collection label, returns
no error, and the sink holds `[`, the encoding of the first item, `,`, the
encoding of the second and `]`. -/
theorem scenario_list (env : Env) (dir : GoString) (clk1 clk2 clk3 : PutClock) (ea eb : GoString)
    (hof : env.OpenFile (logPath dir (ascii "default")) = OpenFault.none)
    (hv1 : env.Valid valueX1 = true) (hv2 : env.Valid valueX2 = true)
    (hv3 : env.Valid valueYTrue = true)
    (hea : env.Encode { Collection := [], Key := ascii "a", Value := valueX2 } = some ea)
    (heb : env.Encode { Collection := [], Key := ascii "b", Value := valueYTrue } = some eb) :
    (scenarioPut1 env dir clk1).err = none ∧ (scenarioPut2 env dir clk1 clk2).err = none ∧
      (scenarioPut3 env dir clk1 clk2 clk3).err = none ∧
      (scenarioList env dir clk1 clk2 clk3).items =
        [{ Collection := [], Key := ascii "a", Value := valueX2 },
         { Collection := [], Key := ascii "b", Value := valueYTrue }] ∧
      (scenarioList env dir clk1 clk2 clk3).out = ascii "[" ++ ea ++ ascii "," ++ eb ++ ascii "]" ∧
      (scenarioList env dir clk1 clk2 clk3).err = false := by
  have hdn : defaultName (ascii "default") = ascii "default" := by decide
  obtain ⟨s0, d0, st0, ho0, hl0⟩ := LogIs_open env (store.mk dir ∅) ∅ (ascii "default") rfl hof rfl
  have e1 : scenarioPut1 env dir clk1 = put env clk1 s0 d0 (ascii "default") (ascii "a") valueX1 :=
    put_open env clk1 _ _ _ _ _ s0 d0 st0 (by rw [hdn]; exact ho0)
  rw [← hdn] at hl0
  obtain ⟨ok1, l1, _⟩ := put_LogIs_valid env clk1 s0 d0 (ascii "default") (ascii "a") valueX1 []
    hl0 hv1
  rw [← e1] at ok1 l1
  obtain ⟨ok2, l2, _⟩ := put_LogIs_valid env clk2 _ _ (ascii "default") (ascii "a") valueX2 _
    l1 hv2
  obtain ⟨ok3, l3, _⟩ := put_LogIs_valid env clk3 _ _ (ascii "default") (ascii "b") valueYTrue _
    (show LogIs env (scenarioPut2 env dir clk1 clk2).s (scenarioPut2 env dir clk1 clk2).d _ _
      from l2) hv3
  refine ⟨ok1, ok2, ok3, ?_⟩
  obtain ⟨st, hl, _, _, hi⟩ := (show LogIs env (scenarioPut3 env dir clk1 clk2 clk3).s
    (scenarioPut3 env dir clk1 clk2 clk3).d _ _ from l3)
  rw [hdn] at hl
  have hopen := openCollection_registered env _ (scenarioPut3 env dir clk1 clk2 clk3).d _ st hl
  have hidx : st.index = ((∅ : GoMap entry).insert (ascii "a") { Value := valueX2 }).insert
      (ascii "b") { Value := valueYTrue } := by
    rw [hi]
    simp [applyRecords, putRecord, AList.insert_insert]
  have hkeys : selectKeys [] st.index = [ascii "a", ascii "b"] := by
    rw [hidx]; decide
  have hm1 : mkItem false (ascii "default") st.index (ascii "a") =
      { Collection := [], Key := ascii "a", Value := valueX2 } := by
    rw [hidx]; decide
  have hm2 : mkItem false (ascii "default") st.index (ascii "b") =
      { Collection := [], Key := ascii "b", Value := valueYTrue } := by
    rw [hidx]; decide
  have hk := listKeys_two env (ascii "default") st.index (ascii "a") (ascii "b") ea eb
    (by rw [hm1]; exact hea) (by rw [hm2]; exact heb)
  have hnames : listNames (scenarioPut3 env dir clk1 clk2 clk3).s (ascii "default") =
      [ascii "default"] := by
    unfold listNames
    rw [if_pos (by decide)]
  have hlim : effLimit 10 = 10 := by decide
  have hlist : scenarioList env dir clk1 clk2 clk3 =
      { s := (scenarioPut3 env dir clk1 clk2 clk3).s, d := (scenarioPut3 env dir clk1 clk2 clk3).d,
        out := ascii "[" ++ ea ++ ascii "," ++ eb ++ ascii "]",
        items := [mkItem false (ascii "default") st.index (ascii "a"),
          mkItem false (ascii "default") st.index (ascii "b")], err := false } := by
    unfold scenarioList list
    simp only [hnames, hlim, listCols, hopen, hkeys, hk]
    simp
  rw [hlist, hm1, hm2]
  exact ⟨rfl, rfl, rfl⟩

theorem scenario_list_witness :
    (scenarioPut1 plainEnv (ascii "data") ⟨1, 1, 1⟩).err = none ∧
      (scenarioPut2 plainEnv (ascii "data") ⟨1, 1, 1⟩ ⟨2, 2, 2⟩).err = none ∧
      (scenarioPut3 plainEnv (ascii "data") ⟨1, 1, 1⟩ ⟨2, 2, 2⟩ ⟨3, 3, 3⟩).err = none ∧
      (scenarioList plainEnv (ascii "data") ⟨1, 1, 1⟩ ⟨2, 2, 2⟩ ⟨3, 3, 3⟩).items =
        [{ Collection := [], Key := ascii "a", Value := valueX2 },
         { Collection := [], Key := ascii "b", Value := valueYTrue }] ∧
      (scenarioList plainEnv (ascii "data") ⟨1, 1, 1⟩ ⟨2, 2, 2⟩ ⟨3, 3, 3⟩).out =
        ascii "[" ++ ascii "\x7b\"key\":\"a\",\"value\":\x7b\"x\":2\x7d\x7d\n" ++ ascii "," ++
          ascii "\x7b\"key\":\"b\",\"value\":\x7b\"y\":true\x7d\x7d\n" ++ ascii "]" ∧
      (scenarioList plainEnv (ascii "data") ⟨1, 1, 1⟩ ⟨2, 2, 2⟩ ⟨3, 3, 3⟩).err = false :=
  scenario_list plainEnv (ascii "data") ⟨1, 1, 1⟩ ⟨2, 2, 2⟩ ⟨3, 3, 3⟩ _ _
    (by decide) (by decide) (by decide) (by decide) (by decide) (by decide)

/-! ## The frame of `put` -/

theorem FileWrite_other (d : Disk) (f : File) (p q : GoString) (hq : q ≠ f.path) :
    content (File.Write d f p).1 q = content d q := by
  unfold File.Write
  split
  · rfl
  · exact content_insert_ne _ _ _ _ hq

theorem Flush_other (d : Disk) (f : File) (w : Writer) (q : GoString) (hq : q ≠ f.path) :
    content (Writer.Flush d f w).1 q = content d q := by
  unfold Writer.Flush
  split
  · rfl
  · split
    · rfl
    · have h := FileWrite_other d f w.buf q hq
      rcases hw : File.Write d f w.buf with ⟨d1, f1, e⟩
      rw [hw] at h
      cases e <;> exact h

theorem Write_other (d : Disk) (f : File) (w : Writer) (p q : GoString) (hq : q ≠ f.path) :
    content (Writer.Write d f w p).1 q = content d q := by
  unfold Writer.Write
  split
  · rfl
  · split
    · rfl
    · split
      · exact FileWrite_other d f p q hq
      · simp only
        have h1 := Flush_other d f { w with buf := w.buf ++ p.take (bufSize - w.buf.length) } q hq
        have h2 := Flush_handle d f { w with buf := w.buf ++ p.take (bufSize - w.buf.length) }
        rcases hfl : Writer.Flush d f { w with buf := w.buf ++ p.take (bufSize - w.buf.length) }
          with ⟨d1, f1, w1, e⟩
        rw [hfl] at h1 h2
        cases e with
        | true => exact h1
        | false =>
          simp only at h1 h2 ⊢
          split
          · exact h1
          · exact (FileWrite_other d1 f1 _ q (by rw [h2.1]; exact hq)).trans h1

/-- The part of `put` under the lock writes to no file but the one of the
handle of the collection. -/
theorem putLocked_other (clk : PutClock) (b key value : GoString) (st : collectionState)
    (d : Disk) (q : GoString) (hq : q ≠ st.file.path) :
    content (putLocked clk b key value st d).1 q = content d q := by
  unfold putLocked
  have h1 := Write_other d st.file st.writer b q hq
  have p1 := Write_handle d st.file st.writer b
  rcases hw1 : Writer.Write d st.file st.writer b with ⟨d2, f2, w2, e2⟩
  rw [hw1] at h1 p1
  cases e2 with
  | true => exact h1
  | false =>
    simp only at h1 p1 ⊢
    have hq2 : q ≠ f2.path := by rw [p1.1]; exact hq
    have h2 := Write_other d2 f2 w2 [10] q hq2
    have p2 := Write_handle d2 f2 w2 [10]
    rcases hw2 : Writer.Write d2 f2 w2 [10] with ⟨d3, f3, w3, e3⟩
    rw [hw2] at h2 p2
    cases e3 with
    | true => exact h2.trans h1
    | false =>
      simp only at h2 p2 ⊢
      split
      · exact (Flush_other d3 f3 w3 q (by rw [p2.1]; exact hq2)).trans (h2.trans h1)
      · exact h2.trans h1

/-- What a successful `put` changes, for the state `st` in which the call
finds the collection once opened: the line counter of the collection goes up
by one, the index maps the key to the value and every other key as before,
every other collection that was registered keeps its state, and no file
other than the one of the handle of the collection changes. -/
theorem put_frame (env : Env) (clk : PutClock) (s : store) (d : Disk) (c key value : GoString)
    (h : (put env clk s d c key value).err = none) :
    ∃ s1 d1 st st2, openCollection env s d (defaultName c) = .ok (s1, d1, st) ∧
      (put env clk s d c key value).s.cols.lookup (defaultName c) = some st2 ∧
      st2.lines = st.lines + 1 ∧
      st2.index.lookup key = some { Value := value } ∧
      (∀ k, k ≠ key → st2.index.lookup k = st.index.lookup k) ∧
      (∀ n st0, n ≠ defaultName c → s.cols.lookup n = some st0 →
        (put env clk s d c key value).s.cols.lookup n = some st0) ∧
      (∀ q, q ≠ st.file.path → content (put env clk s d c key value).d q = content d q) := by
  obtain ⟨s1, d1, st, ho, _, hpl, hput⟩ := put_ok_parts env clk s d c key value h
  obtain ⟨hidx, hlines⟩ := putLocked_ok clk _ key value st d1 hpl
  obtain ⟨_, hreg, hcont, _⟩ := openCollection_frame env s d _ s1 d1 st ho
  refine ⟨s1, d1, st, _, ho, ?_, hlines, ?_, ?_, ?_, ?_⟩
  · rw [hput]
    exact AList.lookup_insert _
  · rw [hidx]
    exact AList.lookup_insert _
  · intro k hk
    rw [hidx]
    exact AList.lookup_insert_ne hk
  · intro n st0 hn hl
    rw [hput]
    simp only
    rw [AList.lookup_insert_ne hn]
    exact hreg n st0 hl
  · intro q hq
    rw [hput]
    simp only
    rw [putLocked_other clk _ key value st d1 q hq]
    exact hcont q

/-- C20, evaluated. After the puts `k = 0` and `a = 111111111111` and a
compaction, the log of `default` holds two lines and the write buffer is
empty. The put `k = 1` that follows returns no error and raises the line
counter from 2 to 3, and the index keeps the entry of `a`; but its record is
not appended: the log has the bytes `+k=1` and a newline over its first five
bytes and is no longer than before, the write buffer being empty again. -/
theorem put_after_compact_overwrites :
    (twoKeysCompacted.1.cols.lookup (ascii "default")).map
        (fun st => (st.lines, st.writer.buf, st.index.lookup (ascii "a"))) =
        some (2, [], some { Value := ascii "111111111111" }) ∧
      content twoKeysCompacted.2 (logPath (ascii "data") (ascii "default")) =
        ascii "+a=111111111111\n+k=0\n" ∧
      overwrite1.err = none ∧
      sampleEnv.Marshal (recordOf [] (ascii "k") (ascii "1")
        ⟨5000000000, 5000000000, 5000000000⟩) = ascii "+k=1" ∧
      (overwrite1.s.cols.lookup (ascii "default")).map
        (fun st => (st.lines, st.writer.buf, st.index.lookup (ascii "a"))) =
        some (3, [], some { Value := ascii "111111111111" }) ∧
      content overwrite1.d (logPath (ascii "data") (ascii "default")) =
        ascii "+k=1\n1111111111\n+k=0\n" ∧
      content overwrite1.d (logPath (ascii "data") (ascii "default")) ≠
        content twoKeysCompacted.2 (logPath (ascii "data") (ascii "default")) ++ ascii "+k=1\n" := by
  decide

/-! ## The size of the write buffer -/

theorem Flush_bound (d : Disk) (f : File) (w : Writer) (h : w.buf.length ≤ bufSize) :
    (Writer.Flush d f w).2.2.1.buf.length ≤ bufSize := by
  unfold Writer.Flush
  split
  · exact h
  · split
    · exact h
    · rcases hw : File.Write d f w.buf with ⟨d1, f1, e⟩
      cases e
      · exact Nat.zero_le _
      · exact h

theorem Write_bound (d : Disk) (f : File) (w : Writer) (p : GoString)
    (h : w.buf.length ≤ bufSize) : (Writer.Write d f w p).2.2.1.buf.length ≤ bufSize := by
  unfold Writer.Write
  split
  · exact h
  · split
    · rename_i hfit
      simp only [List.length_append]
      omega
    · split
      · exact h
      · simp only
        have hb : ({ w with buf := w.buf ++ p.take (bufSize - w.buf.length) } : Writer).buf.length
            ≤ bufSize := by
          simp only [List.length_append, List.length_take]
          omega
        have h1 := Flush_bound d f _ hb
        rcases hfl : Writer.Flush d f { w with buf := w.buf ++ p.take (bufSize - w.buf.length) }
          with ⟨d1, f1, w1, e⟩
        rw [hfl] at h1
        cases e with
        | true => exact h1
        | false =>
          simp only at h1 ⊢
          split
          · rename_i hle
            exact hle
          · exact h1

/-- The write buffer never holds more than its 256 KiB: after the record and
the newline are written to a buffer within that size, the first test of the
flush policy, `Buffered() > 256*1024`, is false. -/
theorem appendRecord_bound (b : GoString) (st : collectionState) (d : Disk)
    (h : st.writer.buf.length ≤ bufSize) :
    ¬ (appendRecord b st d).2.2.1.buf.length > 256 * 1024 := by
  have hb : (appendRecord b st d).2.2.1.buf.length ≤ bufSize := by
    unfold appendRecord
    have h1 := Write_bound d st.file st.writer b h
    rcases hw : Writer.Write d st.file st.writer b with ⟨d2, f2, w2, e2⟩
    rw [hw] at h1
    cases e2 with
    | true => exact h1
    | false => exact Write_bound d2 f2 w2 [10] h1
  have : bufSize = 256 * 1024 := rfl
  omega

/-! ## The overwritten log, with the lines of `encoding/json` -/

set_option maxRecDepth 100000 in
/-- The puts after a compaction, evaluated on the lines of `encoding/json`
(100 bytes for a one-letter key and a one-digit value). After `a = 1`, a
compaction and `b = 2`, the log holds the record of `b` alone and the
reopened collection has no `a`. After `k = 0`, `a = 111111111111`, a
compaction and `k = 1`, the log holds the record `k = 1`, then the last ten
bytes of the record of `a`, then the record `k = 0`: it is as long as before
the put. -/
theorem overwritten_json_lines :
    goPutAfterCompact.err = none ∧
      content goPutAfterCompact.d (logPath (ascii "data") (ascii "default")) =
        goMarshal ⟨ascii "default", ascii "b", ascii "2", 1762214405123456789, false⟩ ++ [10] ∧
      (reopen goEnv goPutAfterCompact.s goPutAfterCompact.d (ascii "default")).toOption.map
        (fun st => st.index.lookup (ascii "a")) = some none ∧
      goOverwrite1.err = none ∧
      content goOverwrite1.d (logPath (ascii "data") (ascii "default")) =
        goMarshal ⟨ascii "default", ascii "k", ascii "1", 1762214405123456789, false⟩ ++ [10] ++
          ascii "ne\":false\x7d\n" ++
          goMarshal ⟨ascii "default", ascii "k", ascii "0", 1762214402123456789, false⟩ ++ [10] ∧
      (goOverwrite1.s.cols.lookup (ascii "default")).map (fun st => st.lines) = some 3 := by
  decide

end KV
